import Mathlib

/-!
# Public transport queue simulation (`Assignment01.cpp`)

A shallow embedding of the tick-driven taxi boarding simulation: three route
state machines (`shortTaxi`, `longTaxi`, `cityTaxi`), the arrival dispatch loop
and the tick loop of `runSimulation`, followed by the properties proved of them.

Modelling conventions:
* `std::queue<Passenger>` and `std::vector<Passenger>` are lists; the front of a
  queue is the head of the list and `push` appends at the back.
* C++ `int` values are `Int`.  The only arithmetic that can leave the 32-bit range
  is `boardingTimer--` (when a record carries `boardingTime = INT_MIN`); it is
  modelled with two's-complement wrap-around (`wrapInt`).  `currentCapacity`
  stays in `[0, 5]` and `timeInstance` in `[0, 1001]`, so their updates are exact.
* The `status` string only ever holds the literals `"Waiting"`, `"Board"` and
  `"Departed"`; it is the three-valued type `Status`.
* The global route states are threaded explicitly through `SimState`.
* Console output is recorded as data: one `TickRecord` per printed table row and
  the two terminal messages as `endedAt` / `warned`.
-/

namespace TaxiQueue

/-! ## Data model -/

/-- Vehicle capacity: `const int TAXI_CAPACITY = 5;`. -/
def TAXI_CAPACITY : Int := 5

/-- Smallest value of a 32-bit `int`. -/
def INT_MIN : Int := -2147483648

/-- Largest value of a 32-bit `int`. -/
def INT_MAX : Int := 2147483647

/-- Two's-complement wrap of an integer into the 32-bit `int` range. -/
def wrapInt (x : Int) : Int := (x + 2147483648) % 4294967296 - 2147483648

/-- Record `struct Passenger { char routeType; int boardingTime; int arrivalTime; }`. -/
structure Passenger where
  routeType : Char
  boardingTime : Int
  arrivalTime : Int
deriving DecidableEq

/-- The three string literals ever stored in `TaxiRouteState::status`. -/
inductive Status where
  | Waiting
  | Board
  | Departed
deriving DecidableEq

/-- Record `struct TaxiRouteState`, field for field. -/
structure TaxiRouteState where
  passengerQueue : List Passenger
  onBoardList : List Passenger
  isBoarding : Bool
  boardingTimer : Int
  currentBoardingPassenger : Passenger
  currentCapacity : Int
  status : Status
deriving DecidableEq

/-- A route state as the global objects are initialised: the default member
initialisers, with the zero-initialised `currentBoardingPassenger`. -/
def initialTaxi : TaxiRouteState :=
  { passengerQueue := []
    onBoardList := []
    isBoarding := false
    boardingTimer := 0
    currentBoardingPassenger := ⟨Char.ofNat 0, 0, 0⟩
    currentCapacity := TAXI_CAPACITY
    status := Status.Waiting }

/-- The mutable state `runSimulation` works on: the three global route states
and the local feed cursor `arrivalTracker`. -/
structure SimState where
  shortTaxi : TaxiRouteState
  longTaxi : TaxiRouteState
  cityTaxi : TaxiRouteState
  arrivalTracker : Nat
deriving DecidableEq

/-- State on entry to `runSimulation`. -/
def initialState : SimState :=
  { shortTaxi := initialTaxi
    longTaxi := initialTaxi
    cityTaxi := initialTaxi
    arrivalTracker := 0 }

/-! ## The route state machine: `processTaxiRoute` -/

/-- First block of `processTaxiRoute`: `if (status == "Departed") { onBoardList.clear();
currentCapacity = TAXI_CAPACITY; status = "Waiting"; }`. -/
def resetOnDeparture (taxiState : TaxiRouteState) : TaxiRouteState :=
  if taxiState.status = Status.Departed then
    { taxiState with
        onBoardList := []
        currentCapacity := TAXI_CAPACITY
        status := Status.Waiting }
  else taxiState

/-- Second block of `processTaxiRoute`: `if (isBoarding) { boardingTimer--;
if (boardingTimer <= 0) { push_back; currentCapacity--; status = "Board";
isBoarding = false; if (currentCapacity <= 0) status = "Departed"; } }`. -/
def advanceBoarding (taxiState : TaxiRouteState) : TaxiRouteState :=
  if taxiState.isBoarding then
    let t1 := { taxiState with boardingTimer := wrapInt (taxiState.boardingTimer - 1) }
    if t1.boardingTimer ≤ 0 then
      let t2 := { t1 with
                    onBoardList := t1.onBoardList ++ [t1.currentBoardingPassenger]
                    currentCapacity := t1.currentCapacity - 1
                    status := Status.Board
                    isBoarding := false }
      if t2.currentCapacity ≤ 0 then { t2 with status := Status.Departed } else t2
    else t1
  else taxiState

/-- Guard of the third block of `processTaxiRoute`:
`!isBoarding && !passengerQueue.empty() && currentCapacity > 0 && currentCapacity > 0
&& status != "Departed"`. -/
def canStartBoarding (taxiState : TaxiRouteState) : Bool :=
  !taxiState.isBoarding && !taxiState.passengerQueue.isEmpty
    && decide (taxiState.currentCapacity > 0) && decide (taxiState.currentCapacity > 0)
    && decide (taxiState.status ≠ Status.Departed)

/-- Third block of `processTaxiRoute`: under the guard, `currentBoardingPassenger =
passengerQueue.front(); passengerQueue.pop(); boardingTimer =
currentBoardingPassenger.boardingTime; isBoarding = true;`. -/
def startNextBoarding (taxiState : TaxiRouteState) : TaxiRouteState :=
  if canStartBoarding taxiState then
    match taxiState.passengerQueue with
    | [] => taxiState
    | p :: rest =>
      { taxiState with
          currentBoardingPassenger := p
          passengerQueue := rest
          boardingTimer := p.boardingTime
          isBoarding := true }
  else taxiState

/-- Function `void processTaxiRoute(TaxiRouteState &taxiState, char routeLabel)`: the
three blocks in source order.  `routeLabel` is not used by the body. -/
def processTaxiRoute (taxiState : TaxiRouteState) (_routeLabel : Char) : TaxiRouteState :=
  startNextBoarding (advanceBoarding (resetOnDeparture taxiState))

/-! ## Arrival dispatch and the tick loop: `runSimulation` -/

/-- The `switch (p.routeType)` of the dispatch loop: push `p` on the queue of its
route; any other tag leaves every queue as it is. -/
def enqueueArrival (p : Passenger) (s : SimState) : SimState :=
  if p.routeType = 'S' then
    { s with shortTaxi :=
        { s.shortTaxi with passengerQueue := s.shortTaxi.passengerQueue ++ [p] } }
  else if p.routeType = 'L' then
    { s with longTaxi :=
        { s.longTaxi with passengerQueue := s.longTaxi.passengerQueue ++ [p] } }
  else if p.routeType = 'C' then
    { s with cityTaxi :=
        { s.cityTaxi with passengerQueue := s.cityTaxi.passengerQueue ++ [p] } }
  else s

/-- The `while (arrivalTracker < allPassengers.size() &&
allPassengers[arrivalTracker].arrivalTime == timeInstance)` loop, run over the part of
the feed from the cursor on.  The second component collects what the loop writes to
`newArrivalsStream`. -/
def dispatchLoop (timeInstance : Int) :
    List Passenger → SimState × List Passenger → SimState × List Passenger
  | [], acc => acc
  | p :: rest, (s, arrivals) =>
    if p.arrivalTime = timeInstance then
      dispatchLoop timeInstance rest
        ({ enqueueArrival p s with arrivalTracker := s.arrivalTracker + 1 }, arrivals ++ [p])
    else (s, arrivals)

/-- Dispatch of tick `timeInstance`, starting at the cursor of `s`. -/
def dispatch (allPassengers : List Passenger) (timeInstance : Nat) (s : SimState) :
    SimState × List Passenger :=
  dispatchLoop (timeInstance : Int) (allPassengers.drop s.arrivalTracker) (s, [])

/-- The three calls `processTaxiRoute(shortTaxi, 'S'); processTaxiRoute(longTaxi, 'L');
processTaxiRoute(cityTaxi, 'C');`. -/
def processAllRoutes (s : SimState) : SimState :=
  let s1 := { s with shortTaxi := processTaxiRoute s.shortTaxi 'S' }
  let s2 := { s1 with longTaxi := processTaxiRoute s1.longTaxi 'L' }
  { s2 with cityTaxi := processTaxiRoute s2.cityTaxi 'C' }

/-- Function `allProcessingComplete(arrivalTracker, allPassengers)`, reading the three
route states from `s`. -/
def allProcessingComplete (s : SimState) (allPassengers : List Passenger) : Bool :=
  let allArrived := decide (s.arrivalTracker ≥ allPassengers.length)
  let allQueuesEmpty := s.shortTaxi.passengerQueue.isEmpty
    && s.longTaxi.passengerQueue.isEmpty && s.cityTaxi.passengerQueue.isEmpty
  let noActiveBoarding := !s.shortTaxi.isBoarding && !s.longTaxi.isBoarding
    && !s.cityTaxi.isBoarding
  allArrived && allQueuesEmpty && noActiveBoarding

/-- What one iteration of the tick loop shows: the tick number, the passengers
dispatched in it, and the state after the three advances (of which
`printSimulationRow` prints the queues, capacities and statuses). -/
structure TickRecord where
  timeInstance : Nat
  newArrivals : List Passenger
  state : SimState
deriving DecidableEq

/-- Everything a finished run has shown: the rows in order, the tick of the
"Simulation ended at time ..." message if it was printed, and whether the
"Warning: Simulation terminated after 1000 time units" message was printed. -/
structure Outcome where
  trace : List TickRecord
  endedAt : Option Nat
  warned : Bool
deriving DecidableEq

/-- Dispatch followed by the three advances: the state-changing part of one
iteration of the tick loop, with the arrivals it dispatched. -/
def tickStep (allPassengers : List Passenger) (timeInstance : Nat) (s : SimState) :
    SimState × List Passenger :=
  let d := dispatch allPassengers timeInstance s
  (processAllRoutes d.1, d.2)

/-- The loop `for (int timeInstance = 0; simulationActive; ++timeInstance)`.  `fuel`
bounds the number of iterations; `none` means the bound was reached with
`simulationActive` still true. -/
def runLoop (allPassengers : List Passenger) :
    Nat → Nat → SimState → List TickRecord → Option Outcome
  | 0, _, _, _ => none
  | fuel + 1, timeInstance, s, trace =>
    let step := tickStep allPassengers timeInstance s
    let trace1 := trace ++ [⟨timeInstance, step.2, step.1⟩]
    let complete := allProcessingComplete step.1 allPassengers
    let pastCeiling := decide (timeInstance > 1000)
    if complete || pastCeiling then
      some { trace := trace1
             endedAt := if complete then some timeInstance else none
             warned := pastCeiling }
    else runLoop allPassengers fuel (timeInstance + 1) step.1 trace1

/-- Function `runSimulation(allPassengers)` from the initial global state, with an
iteration bound `fuel`. -/
def runSimulation (allPassengers : List Passenger) (fuel : Nat) : Option Outcome :=
  runLoop allPassengers fuel 0 initialState []

/-! ## Notions used to state and prove the properties

None of these is a function of the program: they name the states and rows the tick loop
goes through, the invariant of a route, and a few concrete feeds. -/

/-- State after the first `n` iterations of the tick body, were the loop not to stop. -/
def simAt (allPassengers : List Passenger) : Nat → SimState
  | 0 => initialState
  | n + 1 => (tickStep allPassengers n (simAt allPassengers n)).1

/-- Row shown by iteration `k` of the tick body. -/
def recAt (allPassengers : List Passenger) (k : Nat) : TickRecord :=
  ⟨k, (tickStep allPassengers k (simAt allPassengers k)).2, simAt allPassengers (k + 1)⟩

/-- Whether iteration `k` of the tick body clears `simulationActive`. -/
def stopsAt (allPassengers : List Passenger) (k : Nat) : Bool :=
  allProcessingComplete (simAt allPassengers (k + 1)) allPassengers || decide (k > 1000)

/-- What a run that stops in iteration `T` has shown. -/
def outcomeAt (allPassengers : List Passenger) (T : Nat) : Outcome :=
  { trace := (List.range (T + 1)).map (recAt allPassengers)
    endedAt := if allProcessingComplete (simAt allPassengers (T + 1)) allPassengers
      then some T else none
    warned := decide (T > 1000) }

/-- Tick in which the loop stops: the first one that clears `simulationActive`
(tick 1001 does so for every feed). -/
def lastTick (allPassengers : List Passenger) : Nat :=
  Nat.find (⟨1001, by simp [stopsAt]⟩ : ∃ T, stopsAt allPassengers T = true)

/-- Invariant of a single route state. -/
def RouteInv (r : TaxiRouteState) : Prop :=
  r.currentCapacity + r.onBoardList.length = TAXI_CAPACITY ∧
  0 ≤ r.currentCapacity ∧
  (r.status = Status.Departed ↔ r.currentCapacity = 0) ∧
  (r.status = Status.Waiting ↔ r.currentCapacity = TAXI_CAPACITY) ∧
  (r.isBoarding = true → 0 < r.currentCapacity)

/-- The route invariant on all three routes. -/
def SimInv (s : SimState) : Prop :=
  RouteInv s.shortTaxi ∧ RouteInv s.longTaxi ∧ RouteInv s.cityTaxi

/-- A small feed used to instantiate the general theorems: one passenger per route and
one record with an unknown tag. -/
def sampleFeed : List Passenger :=
  [⟨'S', 1, 0⟩, ⟨'L', 2, 0⟩, ⟨'X', 1, 1⟩, ⟨'C', 1, 2⟩]

/-- The run of `sampleFeed`. -/
def sampleOutcome : Outcome := (runSimulation sampleFeed 10).get (by decide)

/-- The row of tick 2 in the run of `sampleFeed`. -/
def sampleRecord : TickRecord := sampleOutcome.trace.getD 2 ⟨0, [], initialState⟩

/-- Feed of `n` passengers with tag `c`, boarding time 1 and arrival time 0. -/
def sameRouteAtZero (n : Nat) (c : Char) : List Passenger := List.replicate n ⟨c, 1, 0⟩

/-- What a row shows of a route: tick, status, capacity and number onboard. -/
def routeView (route : SimState → TaxiRouteState) (rec : TickRecord) :
    Nat × Status × Int × Nat :=
  (rec.timeInstance, (route rec.state).status, (route rec.state).currentCapacity,
    (route rec.state).onBoardList.length)

/-- Route state with `ps` pushed on the back of its queue. -/
def pushAll (r : TaxiRouteState) (ps : List Passenger) : TaxiRouteState :=
  { r with passengerQueue := r.passengerQueue ++ ps }

/-- The run on five S passengers due at tick 0 followed by a sixth due at tick 6. -/
def continuedOutcome : Outcome :=
  (runSimulation (sameRouteAtZero 5 'S' ++ [⟨'S', 1, 6⟩]) 20).get (by decide)

/-- The three routes. -/
inductive Route where
  | S
  | L
  | C
deriving DecidableEq

/-- The global state object of a route. -/
def Route.state : Route → SimState → TaxiRouteState
  | Route.S, s => s.shortTaxi
  | Route.L, s => s.longTaxi
  | Route.C, s => s.cityTaxi

/-- The label `runSimulation` passes to `processTaxiRoute` for a route. -/
def Route.label : Route → Char
  | Route.S => 'S'
  | Route.L => 'L'
  | Route.C => 'C'

/-- Whether the call of `processTaxiRoute` on route `R` in tick `t` enters its third
block, that is, dequeues the head of the queue for boarding. -/
def boardingStartedAt (R : Route) (allPassengers : List Passenger) (t : Nat) : Bool :=
  canStartBoarding (advanceBoarding (resetOnDeparture
    (R.state (dispatch allPassengers t (simAt allPassengers t)).1)))

/-- The completion condition in words: the cursor has consumed every record, the three
queues are empty, and no route has a boarding in progress. -/
def WorkExhausted (s : SimState) (allPassengers : List Passenger) : Prop :=
  allPassengers.length ≤ s.arrivalTracker ∧
  (s.shortTaxi.passengerQueue = [] ∧ s.longTaxi.passengerQueue = [] ∧
    s.cityTaxi.passengerQueue = []) ∧
  (s.shortTaxi.isBoarding = false ∧ s.longTaxi.isBoarding = false ∧
    s.cityTaxi.isBoarding = false)

/-- The boarding slot of a route as a list: the boarding passenger while a boarding is in
progress, nothing otherwise. -/
def boardingSlot (r : TaxiRouteState) : List Passenger :=
  if r.isBoarding then [r.currentBoardingPassenger] else []

/-- The passenger that a call of `processTaxiRoute` on `r` pushes on `onBoardList`, if
any: the boarding passenger when a boarding is in progress and the decremented timer is
`<= 0`. -/
def completedNow (r : TaxiRouteState) : List Passenger :=
  if r.isBoarding && decide (wrapInt (r.boardingTimer - 1) ≤ 0) then
    [r.currentBoardingPassenger]
  else []

/-- The records the dispatch loop of tick `t` consumes from state `s`: the longest run of
records from the cursor on whose arrival time is `t`. -/
def consumedAt (allPassengers : List Passenger) (t : Nat) (s : SimState) : List Passenger :=
  (allPassengers.drop s.arrivalTracker).takeWhile (fun p => decide (p.arrivalTime = (t : Int)))

/-- The passengers of route `R` that have completed boarding in the first `n` ticks, in
completion order. -/
def boardedBy (R : Route) (allPassengers : List Passenger) : Nat → List Passenger
  | 0 => []
  | n + 1 => boardedBy R allPassengers n
      ++ completedNow (R.state (dispatch allPassengers n (simAt allPassengers n)).1)

/-- The passengers with the tag of route `R` among the records dispatched in the first
`n` ticks (those before the cursor), in feed order. -/
def dispatchedTo (R : Route) (allPassengers : List Passenger) (n : Nat) : List Passenger :=
  (allPassengers.take (simAt allPassengers n).arrivalTracker).filter
    (fun p => decide (p.routeType = R.label))

/-- Six S passengers of boarding time 1, due at ticks 0 to 5. -/
def staggeredFeed : List Passenger :=
  [⟨'S', 1, 0⟩, ⟨'S', 1, 1⟩, ⟨'S', 1, 2⟩, ⟨'S', 1, 3⟩, ⟨'S', 1, 4⟩, ⟨'S', 1, 5⟩]

/-- The run of `staggeredFeed`. -/
def staggeredOutcome : Outcome := (runSimulation staggeredFeed 20).get (by decide)

/-- One of the three calls `processTaxiRoute(shortTaxi, 'S')`, `processTaxiRoute(longTaxi,
'L')`, `processTaxiRoute(cityTaxi, 'C')`, taken on its own: it reads and writes the state
object of its route only. -/
def advanceRoute (R : Route) (s : SimState) : SimState :=
  match R with
  | Route.S => { s with shortTaxi := processTaxiRoute s.shortTaxi 'S' }
  | Route.L => { s with longTaxi := processTaxiRoute s.longTaxi 'L' }
  | Route.C => { s with cityTaxi := processTaxiRoute s.cityTaxi 'C' }

/-- Function `getWaitingQueue(q)`: the queue from front to back as `tag(boardingTime)`
items (the text is their concatenation, or "0" for an empty queue). -/
def getWaitingQueue (q : List Passenger) : List (Char × Int) :=
  q.map (fun p => (p.routeType, p.boardingTime))

/-- The columns of one table row. -/
structure Row where
  time : Nat
  next : List (Char × Int)
  sizeS : Nat
  sizeL : Nat
  sizeC : Nat
  wqS : List (Char × Int)
  wqL : List (Char × Int)
  wqC : List (Char × Int)
  capS : Int
  statS : Status
  capL : Int
  statL : Status
  capC : Int
  statC : Status
deriving DecidableEq

/-- Function `printSimulationRow(timeInstance, newArrivals, shortTaxi, longTaxi,
cityTaxi)`: the columns printed for one tick. -/
def printSimulationRow (rec : TickRecord) : Row :=
  { time := rec.timeInstance
    next := rec.newArrivals.map (fun p => (p.routeType, p.boardingTime))
    sizeS := rec.state.shortTaxi.passengerQueue.length
    sizeL := rec.state.longTaxi.passengerQueue.length
    sizeC := rec.state.cityTaxi.passengerQueue.length
    wqS := getWaitingQueue rec.state.shortTaxi.passengerQueue
    wqL := getWaitingQueue rec.state.longTaxi.passengerQueue
    wqC := getWaitingQueue rec.state.cityTaxi.passengerQueue
    capS := rec.state.shortTaxi.currentCapacity
    statS := rec.state.shortTaxi.status
    capL := rec.state.longTaxi.currentCapacity
    statL := rec.state.longTaxi.status
    capC := rec.state.cityTaxi.currentCapacity
    statC := rec.state.cityTaxi.status }

/-- Timer invariant of a route for feeds whose boarding times are at least `m`, where `m`
is 0 or 1: the timer is at least `m - 1`, and at least `m` while a boarding is in
progress; the queue holds only such passengers. -/
def TimerInv (m : Int) (r : TaxiRouteState) : Prop :=
  m - 1 ≤ r.boardingTimer ∧ r.boardingTimer ≤ INT_MAX ∧
  (r.isBoarding = true → m ≤ r.boardingTimer) ∧
  (∀ p, p ∈ r.passengerQueue → m ≤ p.boardingTime ∧ p.boardingTime ≤ INT_MAX)

/-- The feed is in ascending order of arrival time. -/
def SortedByArrival (allPassengers : List Passenger) : Prop :=
  allPassengers.Pairwise (fun a b => a.arrivalTime ≤ b.arrivalTime)

/-- The records of the feed due at tick `t`, in feed order. -/
def dueAt (allPassengers : List Passenger) (t : Nat) : List Passenger :=
  allPassengers.filter (fun p => decide (p.arrivalTime = (t : Int)))

/-- Two records with unknown tags, due at ticks 0 and 3. -/
def unroutableFeed : List Passenger := [⟨'X', 1, 0⟩, ⟨'?', 0, 3⟩]

/-- A route state that no run reaches: a boarding in progress with capacity 1 while the
status is `Departed`. -/
def departedWhileBoarding : TaxiRouteState :=
  { passengerQueue := [⟨'S', 1, 0⟩]
    onBoardList := []
    isBoarding := true
    boardingTimer := 1
    currentBoardingPassenger := ⟨'S', 1, 0⟩
    currentCapacity := 1
    status := Status.Departed }

/-- A route state with capacity 1 whose boarding timer is `INT_MIN`. -/
def lastSeatTimerAtMin : TaxiRouteState :=
  { passengerQueue := [⟨'S', 1, 0⟩]
    onBoardList := []
    isBoarding := true
    boardingTimer := INT_MIN
    currentBoardingPassenger := ⟨'S', INT_MIN, 0⟩
    currentCapacity := 1
    status := Status.Board }

/-- A partially filled route with nothing to do: two onboard, empty queue, no boarding. -/
def idleRoute : TaxiRouteState :=
  { passengerQueue := []
    onBoardList := [⟨'S', 1, 0⟩, ⟨'S', 1, 0⟩]
    isBoarding := false
    boardingTimer := 0
    currentBoardingPassenger := ⟨'S', 1, 0⟩
    currentCapacity := 3
    status := Status.Board }

/-- A route ready to start a boarding: one onboard, two waiting, no boarding. -/
def readyRoute : TaxiRouteState :=
  { passengerQueue := [⟨'S', 3, 0⟩, ⟨'S', 2, 0⟩]
    onBoardList := [⟨'S', 1, 0⟩]
    isBoarding := false
    boardingTimer := 0
    currentBoardingPassenger := ⟨'S', 1, 0⟩
    currentCapacity := 4
    status := Status.Board }

/-- Five S passengers due at tick 0 followed by a sixth due at tick 6. -/
def continuedFeed : List Passenger := sameRouteAtZero 5 'S' ++ [⟨'S', 1, 6⟩]

/-- A route state with a boarding about to take the last seat while two passengers wait. -/
def lastSeatRoute : TaxiRouteState :=
  { passengerQueue := [⟨'S', 3, 0⟩, ⟨'S', 2, 0⟩]
    onBoardList := [⟨'S', 1, 0⟩, ⟨'S', 1, 0⟩, ⟨'S', 1, 0⟩, ⟨'S', 1, 0⟩]
    isBoarding := true
    boardingTimer := 1
    currentBoardingPassenger := ⟨'S', 1, 0⟩
    currentCapacity := 1
    status := Status.Board }

/-- A route state with a boarding in progress: `onb` onboard, `p` in the slot with timer
`τ`, `q` waiting, status `st`, and the capacity that goes with `onb`. -/
def boardingState (onb : List Passenger) (p : Passenger) (τ : Int) (q : List Passenger)
    (st : Status) : TaxiRouteState :=
  { passengerQueue := q
    onBoardList := onb
    isBoarding := true
    boardingTimer := τ
    currentBoardingPassenger := p
    currentCapacity := TAXI_CAPACITY - onb.length
    status := st }

/-- The boarding times of a feed, as tick counts. -/
def boardingTimes (allPassengers : List Passenger) : List Nat :=
  allPassengers.map (fun p => p.boardingTime.toNat)

/-- Tick in which passenger number `j` (counting from 0) of a single-route feed due at
tick 0 starts boarding: the boarding times before it, plus one tick per departure. -/
def startTick (allPassengers : List Passenger) (j : Nat) : Nat :=
  ((boardingTimes allPassengers).take j).sum + j / 5

/-- Tick in which passenger number `j` (counting from 0) completes boarding: for the
`k`-th passenger, `k = j + 1`, this is `d1 + ... + dk + (k - 1) / 5`. -/
def completionTick (allPassengers : List Passenger) (j : Nat) : Nat :=
  ((boardingTimes allPassengers).take (j + 1)).sum + j / 5

/-- A route that still has work: a boarding in progress or somebody waiting. -/
def RouteBusy (r : TaxiRouteState) : Prop :=
  r.isBoarding = true ∨ r.passengerQueue ≠ []

/-- Six S passengers due at tick 0 with boarding times 2, 1, 3, 1, 1, 2. -/
def scheduleFeed : List Passenger :=
  [⟨'S', 2, 0⟩, ⟨'S', 1, 0⟩, ⟨'S', 3, 0⟩, ⟨'S', 1, 0⟩, ⟨'S', 1, 0⟩, ⟨'S', 2, 0⟩]

/-- The number of times the first block of `processTaxiRoute` (the reset on departure) has
run for route `R` in the first `n` ticks: the ticks the route entered with status
`Departed`. -/
def resetsBy (R : Route) (allPassengers : List Passenger) : Nat → Nat
  | 0 => 0
  | n + 1 => resetsBy R allPassengers n
      + (if (R.state (dispatch allPassengers n (simAt allPassengers n)).1).status
            = Status.Departed then 1 else 0)

/-- A feed whose only record is stale from the start: it is due at tick -1. -/
def staleFeed : List Passenger := [⟨'S', 1, -1⟩]

/-- A feed whose only record has the least boarding time an `int` holds. -/
def intMinFeed : List Passenger := [⟨'S', -2147483648, 0⟩]

end TaxiQueue

/-!
# Smart city route management (`FinalProject.cpp`)

The city graph (`CityGraph`): intersections with their outgoing routes, `addIntersection`,
`addRoute`, `getAllRoutes`, and the shortest-path search `findShortestPath` with the path
distance helper `calculatePathDistance`.  Text output and the explanation steps, which no
control flow reads, are left out.
-/

namespace CityRoutes

/-- Constant `INF = numeric_limits<int>::max()`. -/
def INF : Int := 2147483647

/-- Class `Route`: a road out of an intersection. -/
structure Route where
  destination : Int
  distance : Int
  time : Int
  cost : Int
  roadName : String
deriving DecidableEq

/-- Class `Intersection`. -/
structure Intersection where
  id : Int
  name : String
  zone : String
  routes : List Route
deriving DecidableEq

/-- The default constructor `Intersection() : id(-1), name(""), zone("")`: a placeholder
slot. -/
def Intersection.placeholder : Intersection :=
  { id := -1, name := "", zone := "", routes := [] }

/-- Class `CityGraph`: the vector `intersections` and the map `nameToId`. -/
structure CityGraph where
  intersections : List Intersection
  nameToId : List (String × Int)
deriving DecidableEq

/-- Constructor `CityGraph()`: `intersections.resize(10)`. -/
def CityGraph.new : CityGraph :=
  { intersections := List.replicate 10 Intersection.placeholder, nameToId := [] }

/-- Assignment `nameToId[name] = id`. -/
def setName (m : List (String × Int)) (name : String) (id : Int) : List (String × Int) :=
  (name, id) :: m.filter (fun e => e.1 != name)

/-- Method `addIntersection(id, name, zone)` for an id that is not negative: grow the
vector to `id + 1` slots if needed, then overwrite slot `id`. -/
def CityGraph.addIntersection (g : CityGraph) (id : Nat) (name zone : String) : CityGraph :=
  let grown :=
    if id ≥ g.intersections.length then
      g.intersections ++ List.replicate (id + 1 - g.intersections.length) Intersection.placeholder
    else g.intersections
  { intersections := grown.set id { id := id, name := name, zone := zone, routes := [] }
    nameToId := setName g.nameToId name id }

/-- The call `intersections[i].routes.push_back(r)`. -/
def pushRoute (l : List Intersection) (i : Nat) (r : Route) : List Intersection :=
  l.set i { l.getD i Intersection.placeholder with
            routes := (l.getD i Intersection.placeholder).routes ++ [r] }

/-- The guard of `addRoute`: `from >= intersections.size() || to >= intersections.size()
|| intersections[from].id == -1 || intersections[to].id == -1`, with `fromId`, `toId` for
the parameters `from`, `to`. The comparisons with the size are unsigned, so a negative id
counts as too large. -/
def CityGraph.routeRejected (g : CityGraph) (fromId toId : Int) : Bool :=
  decide (fromId < 0) || decide (fromId ≥ g.intersections.length)
    || decide (toId < 0) || decide (toId ≥ g.intersections.length)
    || decide ((g.intersections.getD fromId.toNat Intersection.placeholder).id = -1)
    || decide ((g.intersections.getD toId.toNat Intersection.placeholder).id = -1)

/-- Method `addRoute(from, to, distance, time, cost, roadName)`. -/
def CityGraph.addRoute (g : CityGraph) (fromId toId distance time cost : Int)
    (roadName : String) : CityGraph :=
  if g.routeRejected fromId toId then g
  else
    { g with
        intersections :=
          pushRoute
            (pushRoute g.intersections fromId.toNat ⟨toId, distance, time, cost, roadName⟩)
            toId.toNat ⟨fromId, distance, time, cost, roadName⟩ }

/-- Method `getAllRoutes()`: from every intersection whose id is not -1, the routes whose
destination is larger than the intersection's id. -/
def CityGraph.getAllRoutes (g : CityGraph) : List Route :=
  g.intersections.foldl
    (fun allRoutes intersection =>
      if intersection.id ≠ -1 then
        intersection.routes.foldl
          (fun acc route => if intersection.id < route.destination then acc ++ [route] else acc)
          allRoutes
      else allRoutes)
    []

/-- The network of `initializeSampleData()`: seven intersections and nine routes. -/
def sampleCity : CityGraph :=
  let g0 := CityGraph.new
  let g1 := g0.addIntersection 0 "Central Station" "Downtown/Central"
  let g2 := g1.addIntersection 1 "City Mall" "Downtown/Shopping"
  let g3 := g2.addIntersection 2 "University" "North/Academic"
  let g4 := g3.addIntersection 3 "Hospital" "North/Medical"
  let g5 := g4.addIntersection 4 "Airport" "East/Transport"
  let g6 := g5.addIntersection 5 "Stadium" "West/Sports"
  let g7 := g6.addIntersection 6 "Residential Area" "South/Housing"
  let h1 := g7.addRoute 0 1 2 5 0 "Main Street"
  let h2 := h1.addRoute 0 2 5 12 0 "University Road"
  let h3 := h2.addRoute 1 3 4 10 0 "Hospital Avenue"
  let h4 := h3.addRoute 2 3 3 8 0 "Campus Drive"
  let h5 := h4.addRoute 2 4 8 20 0 "Airport Expressway"
  let h6 := h5.addRoute 3 5 6 15 0 "Stadium Boulevard"
  let h7 := h6.addRoute 4 5 7 18 0 "Ring Road"
  let h8 := h7.addRoute 5 6 4 10 0 "South Connection"
  h8.addRoute 6 0 3 8 0 "Central Link"

/-- Two's-complement wrap of an integer into the 32-bit `int` range: what the sum
`distance[current.id] + route.distance` leaves in an `int` when it overflows. -/
def wrapInt (x : Int) : Int := (x + 2147483648) % 4294967296 - 2147483648

/-- Struct `DijkstraNode`: an entry of the priority queue, ordered by `distance` alone. -/
structure DijkstraNode where
  id : Int
  distance : Int
deriving DecidableEq

/-- The local variables of `findShortestPath` that the result depends on: `distance`,
`previous`, `visited` and the entries held by the priority queue `pq`. The explanations
and the counter `nodesVisited` only feed the messages and are left out. -/
structure SearchState where
  distance : List Int
  previous : List Int
  visited : List Bool
  pq : List DijkstraNode
deriving DecidableEq

/-- The calls `pq.top(); pq.pop()` as a function of the entries held: nothing on an empty
queue, otherwise an entry of least distance and the other entries. Which of several
entries of least distance comes out is left to the function. -/
def IsPop (pop : List DijkstraNode → Option (DijkstraNode × List DijkstraNode)) : Prop :=
  pop [] = none ∧
    ∀ l, l ≠ [] → ∃ x rest, pop l = some (x, rest) ∧ l.Perm (x :: rest) ∧
      ∀ y, y ∈ l → x.distance ≤ y.distance

/-- The entry of least distance in `x :: l`, the earliest one among equals. -/
def minEntry : DijkstraNode → List DijkstraNode → DijkstraNode
  | x, [] => x
  | x, y :: l => if y.distance < x.distance then minEntry y l else minEntry x l

/-- A priority queue that takes out the earliest pushed entry of least distance. -/
def popFirstMin : List DijkstraNode → Option (DijkstraNode × List DijkstraNode)
  | [] => none
  | x :: l => some (minEntry x l, (x :: l).erase (minEntry x l))

/-- The routes out of slot `u`: `intersections[u].routes`. -/
def CityGraph.routesOf (g : CityGraph) (u : Nat) : List Route :=
  (g.intersections.getD u Intersection.placeholder).routes

/-- Body of the loop `for (const Route& route : intersections[current.id].routes)` of
`findShortestPath`, with `current` for `current.id`. -/
def relax (current : Int) (st : SearchState) (route : Route) : SearchState :=
  if st.distance.getD current.toNat INF = INF then st
  else
    let newDistance := wrapInt (st.distance.getD current.toNat INF + route.distance)
    if newDistance < st.distance.getD route.destination.toNat INF then
      { st with
          distance := st.distance.set route.destination.toNat newDistance
          previous := st.previous.set route.destination.toNat current
          pq := st.pq ++ [⟨route.destination, newDistance⟩] }
    else st

/-- The loop `while (!pq.empty())` of `findShortestPath`; `k` counts the iterations, and
`pop k` is what the priority queue does in iteration `k`. The result is the state in
which the loop is left: through the `break` at `endId`, or with the queue empty. -/
def searchLoop (pop : Nat → List DijkstraNode → Option (DijkstraNode × List DijkstraNode))
    (g : CityGraph) (endId : Int) : Nat → Nat → SearchState → Option SearchState
  | 0, _, _ => none
  | fuel + 1, k, st =>
    match pop k st.pq with
    | none => some st
    | some (current, rest) =>
      if st.visited.getD current.id.toNat false then
        searchLoop pop g endId fuel (k + 1) { st with pq := rest }
      else
        let st1 : SearchState :=
          { st with pq := rest, visited := st.visited.set current.id.toNat true }
        if current.id = endId then some st1
        else
          searchLoop pop g endId fuel (k + 1)
            ((g.routesOf current.id.toNat).foldl (relax current.id) st1)

/-- The loop `for (int at = end; at != -1; at = previous[at]) path.push_back(at);`: the
ids pushed, in push order (before the `reverse`). -/
def tracePath (previous : List Int) : Nat → Int → Option (List Int)
  | 0, _ => none
  | fuel + 1, at_ =>
    if at_ = -1 then some []
    else (tracePath previous fuel (previous.getD at_.toNat (-1))).map (fun p => at_ :: p)

/-- The state of `findShortestPath(start, end)` when its loop is entered. -/
def searchStart (g : CityGraph) (start : Int) : SearchState :=
  { distance := (List.replicate g.intersections.length INF).set start.toNat 0
    previous := List.replicate g.intersections.length (-1)
    visited := List.replicate g.intersections.length false
    pq := [⟨start, 0⟩] }

/-- Method `findShortestPath(start, end, explanations)`, with `endId` for `end`: the
vector returned. The fuel bounds the iterations of each of its two loops. -/
def CityGraph.findShortestPath
    (pop : Nat → List DijkstraNode → Option (DijkstraNode × List DijkstraNode))
    (g : CityGraph) (start endId : Int) (fuel : Nat) : Option (List Int) :=
  if start = endId then some [start]
  else
    match searchLoop pop g endId fuel 0 (searchStart g start) with
    | none => none
    | some st =>
      if st.distance.getD endId.toNat INF = INF then some []
      else (tracePath st.previous fuel endId).map List.reverse

/-- The graphs that calls of `addIntersection` and `addRoute` build from `CityGraph()`. -/
inductive Built : CityGraph → Prop
  | new : Built CityGraph.new
  | addIntersection (g : CityGraph) (id : Nat) (name zone : String) :
      Built g → Built (g.addIntersection id name zone)
  | addRoute (g : CityGraph) (fromId toId distance time cost : Int) (roadName : String) :
      Built g → Built (g.addRoute fromId toId distance time cost roadName)

/-- Every route leads to a slot of the vector `intersections`. -/
def CityGraph.WellFormed (g : CityGraph) : Prop :=
  ∀ i, i ∈ g.intersections → ∀ r, r ∈ i.routes →
    0 ≤ r.destination ∧ r.destination < g.intersections.length

/-- The routes `rs` lead from slot `u` to slot `v`, each starting where the one before
ended. -/
def IsWalk (g : CityGraph) : Nat → List Route → Nat → Prop
  | u, [], v => u = v
  | u, r :: rs, v => r ∈ g.routesOf u ∧ 0 ≤ r.destination ∧ IsWalk g r.destination.toNat rs v

/-- The total distance of a sequence of routes. -/
def totalDistance (rs : List Route) : Int :=
  (rs.map Route.distance).sum

/-- Route distances are not negative. -/
def CityGraph.NonNegative (g : CityGraph) : Prop :=
  ∀ i, i ∈ g.intersections → ∀ r, r ∈ i.routes → 0 ≤ r.distance

/-- A sequence of routes from `start` to `u` of least total distance. -/
def IsShortest (g : CityGraph) (start : Nat) (rs : List Route) (u : Nat) : Prop :=
  IsWalk g start rs u ∧ ∀ rs2, IsWalk g start rs2 u → totalDistance rs ≤ totalDistance rs2

/-- The sums that `findShortestPath` forms from `start` fit in an `int` below `INF`: a
shortest sequence of routes from `start`, extended by one more route. -/
def CityGraph.SumsBelowINF (g : CityGraph) (start : Nat) : Prop :=
  ∀ rs u r, IsShortest g start rs u → r ∈ g.routesOf u →
    totalDistance rs + r.distance < INF

/-- What holds of the variables of `findShortestPath` between two steps of its loop, for
the slots `order` visited so far (in visiting order) and the slots `processed` whose
routes have all been relaxed: the distance of a visited slot is final and least, every
finite distance is the total of a sequence of routes from `start`, whose last route
starts at the slot recorded in `previous`, and every slot with a finite distance that is
not visited has an entry with that distance in the queue. -/
structure SearchInv (g : CityGraph) (start : Nat) (order processed : List Nat)
    (st : SearchState) : Prop where
  distance_length : st.distance.length = g.intersections.length
  previous_length : st.previous.length = g.intersections.length
  visited_length : st.visited.length = g.intersections.length
  visited_iff : ∀ v, st.visited.getD v false = true ↔ v ∈ order
  processed_sub : ∀ u, u ∈ processed → u ∈ order
  dist_start : st.distance.getD start INF = 0
  prev_start : st.previous.getD start (-1) = -1
  walk : ∀ v, v < g.intersections.length → st.distance.getD v INF ≠ INF →
    ∃ rs, IsWalk g start rs v ∧ totalDistance rs = st.distance.getD v INF
  optimal : ∀ v, v ∈ order → st.distance.getD v INF ≠ INF ∧
    ∀ rs, IsWalk g start rs v → st.distance.getD v INF ≤ totalDistance rs
  closed : ∀ u, u ∈ processed → ∀ r, r ∈ g.routesOf u →
    st.distance.getD r.destination.toNat INF ≤ st.distance.getD u INF + r.distance
  queued : ∀ v, v < g.intersections.length → st.distance.getD v INF ≠ INF → v ∉ order →
    (⟨(v : Int), st.distance.getD v INF⟩ : DijkstraNode) ∈ st.pq
  entries : ∀ x, x ∈ st.pq → 0 ≤ x.id ∧ x.id.toNat < g.intersections.length ∧
    st.distance.getD x.id.toNat INF ≤ x.distance ∧ x.distance < INF
  tree : ∀ v, v < g.intersections.length → st.distance.getD v INF ≠ INF → v ≠ start →
    ∃ u r, u ∈ order ∧ st.previous.getD v (-1) = (u : Int) ∧ r ∈ g.routesOf u ∧
      r.destination = (v : Int) ∧
      st.distance.getD v INF = st.distance.getD u INF + r.distance ∧
      order.indexOf u < order.indexOf v
  nodup : order.Nodup

/-- The routes out of the slots not yet marked in `visited`: an upper bound on the
entries `findShortestPath` can still push. -/
def pendingRoutes (g : CityGraph) (visited : List Bool) : Nat :=
  ((List.range g.intersections.length).map
    (fun u => if visited.getD u false then 0 else (g.routesOf u).length)).sum

/-- The number of routes in the graph, both directions of a road counted. -/
def CityGraph.totalRoutes (g : CityGraph) : Nat :=
  ((List.range g.intersections.length).map (fun u => (g.routesOf u).length)).sum

/-- How `findShortestPath` may leave its loop: with invariant `SearchInv`, and either
`endV` visited (the `break`) or the queue empty and every visited slot relaxed. -/
def SearchExit (g : CityGraph) (start endV : Nat) (st : SearchState) : Prop :=
  ∃ order processed, SearchInv g start order processed st ∧
    (endV ∈ order ∨ (st.pq = [] ∧ processed = order))

/-- Whether `rs` leads from `u` to `v` can be computed. -/
instance decIsWalk (g : CityGraph) : ∀ (rs : List Route) (u v : Nat), Decidable (IsWalk g u rs v)
  | [], u, v => inferInstanceAs (Decidable (u = v))
  | r :: rs, u, v =>
    have := decIsWalk g rs r.destination.toNat v
    inferInstanceAs (Decidable (r ∈ g.routesOf u ∧ 0 ≤ r.destination ∧
      IsWalk g r.destination.toNat rs v))

/-- For each of the seven intersections of `sampleCity`, a sequence of routes from
intersection 0. -/
def sampleWalk : Nat → List Route
  | 1 => [⟨1, 2, 5, 0, "Main Street"⟩]
  | 2 => [⟨2, 5, 12, 0, "University Road"⟩]
  | 3 => [⟨1, 2, 5, 0, "Main Street"⟩, ⟨3, 4, 10, 0, "Hospital Avenue"⟩]
  | 4 => [⟨2, 5, 12, 0, "University Road"⟩, ⟨4, 8, 20, 0, "Airport Expressway"⟩]
  | 5 => [⟨6, 3, 8, 0, "Central Link"⟩, ⟨5, 4, 10, 0, "South Connection"⟩]
  | 6 => [⟨6, 3, 8, 0, "Central Link"⟩]
  | _ => []

/-- Three intersections in a row: a road of 1100000000 km between 0 and 1 and one of
1000000000 km between 1 and 2. The two roads together stay below `INF`. -/
def overflowCity : CityGraph :=
  let g0 := CityGraph.new
  let g1 := g0.addIntersection 0 "West" "Outskirts"
  let g2 := g1.addIntersection 1 "Middle" "Outskirts"
  let g3 := g2.addIntersection 2 "East" "Outskirts"
  let h1 := g3.addRoute 0 1 1100000000 1 0 "West Road"
  h1.addRoute 1 2 1000000000 1 0 "East Road"

/-- The state in which `findShortestPath(0, 2)` leaves its loop on `overflowCity`: the
sum for the way back from 1 to 0 has wrapped and replaced the distance of 0, so
`previous` leads from 0 to 1 and from 1 to 0. -/
def overflowExit : SearchState :=
  { distance := [-2094967296, 1100000000, 2100000000, INF, INF, INF, INF, INF, INF, INF]
    previous := [1, 0, 1, -1, -1, -1, -1, -1, -1, -1]
    visited := [true, true, true, false, false, false, false, false, false, false]
    pq := [] }

/-- The loop over `i` in `calculatePathDistance`, on the part of the path from position
`i` on: for each consecutive pair, the inner loop adds the distance of the first route
out of `path[i]` whose destination is `path[i + 1]` and breaks; no such route adds
nothing. -/
def pathDistanceFrom (g : CityGraph) : Int → List Int → Int
  | totalDistance, a :: b :: rest =>
    pathDistanceFrom g
      (match (g.routesOf a.toNat).find? (fun route => route.destination = b) with
        | some route => wrapInt (totalDistance + route.distance)
        | none => totalDistance)
      (b :: rest)
  | totalDistance, _ => totalDistance

/-- Method `calculatePathDistance(path)`. -/
def CityGraph.calculatePathDistance (g : CityGraph) (path : List Int) : Int :=
  if path.length ≤ 1 then 0 else pathDistanceFrom g 0 path

/-- Two intersections joined by two roads, one of 10 km added first and one of 3 km. -/
def parallelCity : CityGraph :=
  let g0 := CityGraph.new
  let g1 := g0.addIntersection 0 "North" "Centre"
  let g2 := g1.addIntersection 1 "South" "Centre"
  let h1 := g2.addRoute 0 1 10 20 0 "Old Road"
  h1.addRoute 0 1 3 5 0 "New Road"

/-- The state of `findShortestPath(0, 1)` on `parallelCity` after the first step of its
loop: intersection 0 visited, both roads relaxed. -/
def parallelMid : SearchState :=
  { distance := [0, 3, INF, INF, INF, INF, INF, INF, INF, INF]
    previous := [-1, 0, -1, -1, -1, -1, -1, -1, -1, -1]
    visited := [true, false, false, false, false, false, false, false, false, false]
    pq := [⟨1, 10⟩, ⟨1, 3⟩] }

/-- The state in which `findShortestPath(0, 1)` leaves its loop on `parallelCity`. -/
def parallelExit : SearchState :=
  { distance := [0, 3, INF, INF, INF, INF, INF, INF, INF, INF]
    previous := [-1, 0, -1, -1, -1, -1, -1, -1, -1, -1]
    visited := [true, true, false, false, false, false, false, false, false, false]
    pq := [⟨1, 10⟩] }

end CityRoutes

/-!
# Transport connectivity in Southern Africa (`Assignment03.cpp`)

The road network held in the globals `adjacencyList` and `adjacencyMatrix`, its
initialisation, `addRoadConnection`, `addUserConnection`, `bfsTraversal` and
`dijkstraAlgorithm`.  The globals are threaded explicitly; console input is a parameter.
-/

namespace TransportNetwork

/-- Constant `infinity_distance = 999999`: the distance standing for "no connection". -/
def infinity_distance : Int := 999999

/-- The globals `adjacencyList`, `adjacencyMatrix` and `numberOfCities`. A connection is
the pair `(city, distance)`; cities are indices, so they are natural numbers. -/
structure Network where
  adjacencyList : List (List (Nat × Int))
  adjacencyMatrix : List (List Int)
  numberOfCities : Nat
deriving DecidableEq

/-- Assignment `adjacencyMatrix[i][j] = d`. -/
def setMatrix (m : List (List Int)) (i j : Nat) (d : Int) : List (List Int) :=
  m.set i ((m.getD i []).set j d)

/-- Call `adjacencyList[i].push_back(make_pair(city, d))`. -/
def pushConnection (l : List (List (Nat × Int))) (i city : Nat) (d : Int) :
    List (List (Nat × Int)) :=
  l.set i (l.getD i [] ++ [(city, d)])

/-- Function `initializeCities()`, from the empty globals: five cities, no connections,
every matrix entry `infinity_distance` except the diagonal, which the loop sets to 0. -/
def initializeCities : Network :=
  { adjacencyList := List.replicate 5 []
    adjacencyMatrix :=
      (List.range 5).foldl (fun m i => setMatrix m i i 0)
        (List.replicate 5 (List.replicate 5 infinity_distance))
    numberOfCities := 5 }

/-- Function `addRoadConnection(city1, city2, distance)`. -/
def addRoadConnection (net : Network) (city1 city2 : Nat) (distance : Int) : Network :=
  { net with
      adjacencyList :=
        pushConnection (pushConnection net.adjacencyList city1 city2 distance)
          city2 city1 distance
      adjacencyMatrix :=
        setMatrix (setMatrix net.adjacencyMatrix city1 city2 distance) city2 city1 distance }

/-- Function `initializeRoadNetwork()`: the seven calls of `addRoadConnection`. -/
def initializeRoadNetwork (net : Network) : Network :=
  let n1 := addRoadConnection net 0 1 1400
  let n2 := addRoadConnection n1 0 2 1050
  let n3 := addRoadConnection n2 0 3 360
  let n4 := addRoadConnection n3 0 4 600
  let n5 := addRoadConnection n4 1 2 1300
  let n6 := addRoadConnection n5 2 3 1100
  addRoadConnection n6 3 4 550

/-- Function `getUserCityChoice`, on the number read from the console: the choice if it
is a city index, `-1` otherwise. -/
def getUserCityChoice (net : Network) (choice : Int) : Int :=
  if 0 ≤ choice ∧ choice < net.numberOfCities then choice else -1

/-- The loop `for (auto& connection : adjacencyList[c]) if (connection.first == city)
{ connection.second = distance; break; }`: the first connection to `city` gets the new
distance. -/
def updateFirst (city : Nat) (distance : Int) : List (Nat × Int) → List (Nat × Int)
  | [] => []
  | (c, d) :: rest =>
    if c = city then (c, distance) :: rest else (c, d) :: updateFirst city distance rest

/-- Function `addUserConnection()`, with the console input as arguments: the two city
numbers, the answer to "update the distance?" (read only when a road already exists) and
the distance. -/
def addUserConnection (net : Network) (choice1 choice2 : Int) (updateAnswer : Char)
    (distance : Int) : Network :=
  let c1 := getUserCityChoice net choice1
  if c1 = -1 then net
  else
    let c2 := getUserCityChoice net choice2
    if c2 = -1 then net
    else
      let city1 := c1.toNat
      let city2 := c2.toNat
      let connectionExists := (net.adjacencyList.getD city1 []).any (fun c => c.1 = city2)
      if connectionExists && (updateAnswer != 'y' && updateAnswer != 'Y') then net
      else if distance ≤ 0 ∨ distance > 10000 then net
      else if connectionExists then
        { net with
            adjacencyList :=
              let l1 := net.adjacencyList.set city1
                (updateFirst city2 distance (net.adjacencyList.getD city1 []))
              l1.set city2 (updateFirst city1 distance (l1.getD city2 []))
            adjacencyMatrix :=
              setMatrix (setMatrix net.adjacencyMatrix city1 city2 distance)
                city2 city1 distance }
      else addRoadConnection net city1 city2 distance

/-- The network after `initializeCities(); initializeRoadNetwork();`, as `main` sets it up. -/
def startNetwork : Network := initializeRoadNetwork initializeCities

/-- The diagonal of the matrix. -/
def diagonal (net : Network) : List Int :=
  (List.range net.numberOfCities).map (fun i => (net.adjacencyMatrix.getD i []).getD i 0)

/-- The local variables of `bfsTraversal`: `visited`, `bfsQueue` (front first),
`visitOrder`, `distances` and `parent`. The sums in `distances` are not wrapped: no
property below reads them. -/
structure BfsState where
  visited : List Bool
  bfsQueue : List Nat
  visitOrder : List Nat
  distances : List Int
  parent : List Int
deriving DecidableEq

/-- Body of the loop over the neighbours of `currentCity` in `bfsTraversal`: a neighbour
that is not yet visited is marked, enqueued, appended to the visit order, and gets its
parent and distance. -/
def visitNeighbor (currentCity : Nat) (st : BfsState) (neighbor : Nat × Int) : BfsState :=
  if st.visited.getD neighbor.1 false then st
  else
    { visited := st.visited.set neighbor.1 true
      bfsQueue := st.bfsQueue ++ [neighbor.1]
      visitOrder := st.visitOrder ++ [neighbor.1]
      distances :=
        st.distances.set neighbor.1 (st.distances.getD currentCity 0 + neighbor.2)
      parent := st.parent.set neighbor.1 (currentCity : Int) }

/-- The loop `while (!bfsQueue.empty())` of `bfsTraversal`; `none` when the fuel runs out. -/
def bfsLoop (net : Network) : Nat → BfsState → Option BfsState
  | 0, _ => none
  | fuel + 1, st =>
    match st.bfsQueue with
    | [] => some st
    | currentCity :: rest =>
      bfsLoop net fuel
        ((net.adjacencyList.getD currentCity []).foldl (visitNeighbor currentCity)
          { st with bfsQueue := rest })

/-- The state of `bfsTraversal(startCity)` when the loop is entered. -/
def bfsStart (net : Network) (startCity : Nat) : BfsState :=
  { visited := (List.replicate net.numberOfCities false).set startCity true
    bfsQueue := [startCity]
    visitOrder := [startCity]
    distances := List.replicate net.numberOfCities 0
    parent := List.replicate net.numberOfCities (-1) }

/-- Function `bfsTraversal(startCity)` up to the end of its loop: the values of its local
variables from which the summary is printed. -/
def bfsTraversal (net : Network) (startCity : Nat) (fuel : Nat) : Option BfsState :=
  bfsLoop net fuel (bfsStart net startCity)

/-- The loop `while (current != -1) { path.push_back(current); current = parent[current]; }`
of the summary: the cities pushed, in push order (before the `reverse`). -/
def parentPath (parent : List Int) : Nat → Int → Option (List Int)
  | 0, _ => none
  | fuel + 1, current =>
    if current = -1 then some []
    else (parentPath parent fuel (parent.getD current.toNat (-1))).map (fun p => current :: p)

/-- A road from `u` to `v` in `adjacencyList`. -/
def Road (net : Network) (u v : Nat) : Prop :=
  ∃ d, (v, d) ∈ net.adjacencyList.getD u []

/-- City `v` is connected to `s` by some sequence of roads in `adjacencyList`. -/
def Connected (net : Network) (s v : Nat) : Prop :=
  Relation.ReflTransGen (Road net) s v

/-- The shape `addRoadConnection` maintains: one adjacency list per city, and every
connection leads to a city. -/
def WellFormed (net : Network) : Prop :=
  net.adjacencyList.length = net.numberOfCities ∧
    ∀ l, l ∈ net.adjacencyList → ∀ c, c ∈ l → c.1 < net.numberOfCities

instance (net : Network) : Decidable (WellFormed net) := by
  unfold WellFormed
  infer_instance

/-- What holds of the variables of `bfsTraversal` whenever the neighbour loop body has
run: the visited cities are those of the visit order, none twice, all connected to the
start, and each but the start has as parent a city earlier in the visit order. -/
structure BfsInv (net : Network) (startCity : Nat) (st : BfsState) : Prop where
  visited_length : st.visited.length = net.numberOfCities
  parent_length : st.parent.length = net.numberOfCities
  visited_iff : ∀ v, st.visited.getD v false = true ↔ v ∈ st.visitOrder
  nodup : st.visitOrder.Nodup
  connected : ∀ v, v ∈ st.visitOrder → Connected net startCity v
  start_mem : startCity ∈ st.visitOrder
  parent_start : st.parent.getD startCity (-1) = -1
  parent_earlier : ∀ v, v ∈ st.visitOrder → v ≠ startCity →
    ∃ u, u ∈ st.visitOrder ∧ st.parent.getD v (-1) = (u : Int) ∧
      st.visitOrder.indexOf u < st.visitOrder.indexOf v

/-- Two's-complement wrap of an integer into the 32-bit `int` range: what the sum
`currentDistance + roadDistance` leaves in an `int` when it overflows. -/
def wrapInt (x : Int) : Int := (x + 2147483648) % 4294967296 - 2147483648

/-- The local variables of `dijkstraAlgorithm`: `distances`, `visited`, `parent` and the
pairs `(distance, city)` held by the priority queue `pq`. -/
structure DijkstraState where
  distances : List Int
  visited : List Bool
  parent : List Int
  pq : List (Int × Nat)
deriving DecidableEq

/-- The order `<` on `pair<int, int>`: by distance, then by city. -/
def pairLess (a b : Int × Nat) : Bool :=
  decide (a.1 < b.1) || (decide (a.1 = b.1) && decide (a.2 < b.2))

/-- The least pair of `x :: l`. -/
def minPair : Int × Nat → List (Int × Nat) → Int × Nat
  | x, [] => x
  | x, y :: l => if pairLess y x then minPair y l else minPair x l

/-- The calls `pq.top(); pq.pop()` on the queue with `greater<pair<int, int>>`: the least
pair comes out. Pairs that compare equal are equal, so the result depends on the pairs
held only, not on how the queue stores them. -/
def popMin : List (Int × Nat) → Option ((Int × Nat) × List (Int × Nat))
  | [] => none
  | x :: l => some (minPair x l, (x :: l).erase (minPair x l))

/-- Body of the loop `for (const auto& connection : adjacencyList[currentCity])` of
`dijkstraAlgorithm`. -/
def relaxRoad (currentCity : Nat) (currentDistance : Int) (st : DijkstraState)
    (connection : Nat × Int) : DijkstraState :=
  let newDistance := wrapInt (currentDistance + connection.2)
  if newDistance < st.distances.getD connection.1 infinity_distance then
    { st with
        distances := st.distances.set connection.1 newDistance
        parent := st.parent.set connection.1 (currentCity : Int)
        pq := st.pq ++ [(newDistance, connection.1)] }
  else st

/-- The loop `while (!pq.empty())` of `dijkstraAlgorithm`; `none` when the fuel runs out.
The result is the state in which the loop is left: through the `break` at `destination`,
or with the queue empty. -/
def dijkstraLoop (net : Network) (destination : Nat) : Nat → DijkstraState → Option DijkstraState
  | 0, _ => none
  | fuel + 1, st =>
    match popMin st.pq with
    | none => some st
    | some ((currentDistance, currentCity), rest) =>
      if st.visited.getD currentCity false then
        dijkstraLoop net destination fuel { st with pq := rest }
      else
        let st1 : DijkstraState :=
          { st with pq := rest, visited := st.visited.set currentCity true }
        if currentCity = destination then some st1
        else
          dijkstraLoop net destination fuel
            ((net.adjacencyList.getD currentCity []).foldl
              (relaxRoad currentCity currentDistance) st1)

/-- The state of `dijkstraAlgorithm(source, destination)` when its loop is entered. -/
def dijkstraStart (net : Network) (source : Nat) : DijkstraState :=
  { distances := (List.replicate net.numberOfCities infinity_distance).set source 0
    visited := List.replicate net.numberOfCities false
    parent := List.replicate net.numberOfCities (-1)
    pq := [(0, source)] }

/-- Function `dijkstraAlgorithm(source, destination)` up to the end of its loop: the
state whose `distances` and `parent` it passes to `displayDijkstraResults`. -/
def dijkstraAlgorithm (net : Network) (source destination : Nat) (fuel : Nat) :
    Option DijkstraState :=
  dijkstraLoop net destination fuel (dijkstraStart net source)

/-- The vector `shortestPath` that `displayDijkstraResults` builds by following the parent
links from `destination` and reversing. -/
def shortestPath (parent : List Int) (destination : Nat) (fuel : Nat) : Option (List Int) :=
  (parentPath parent fuel (destination : Int)).map List.reverse

/-- The connections `cs` lead from city `u` to city `v`, each starting where the one
before ended. -/
def IsRoadWalk (net : Network) : Nat → List (Nat × Int) → Nat → Prop
  | u, [], v => u = v
  | u, c :: cs, v => c ∈ net.adjacencyList.getD u [] ∧ IsRoadWalk net c.1 cs v

/-- The total distance of a sequence of connections. -/
def roadTotal (cs : List (Nat × Int)) : Int :=
  (cs.map Prod.snd).sum

/-- Every road distance is between 1 and 10000, the range `addUserConnection` accepts. -/
def RoadsInRange (net : Network) : Prop :=
  ∀ l, l ∈ net.adjacencyList → ∀ c, c ∈ l → 1 ≤ c.2 ∧ c.2 ≤ 10000

instance (net : Network) : Decidable (RoadsInRange net) := by
  unfold RoadsInRange
  infer_instance

/-- What holds of the variables of `dijkstraAlgorithm` between two steps of its loop, for
the cities `order` visited so far (in visiting order) and the cities `processed` whose
connections have all been relaxed. -/
structure DijkstraInv (net : Network) (source : Nat) (order processed : List Nat)
    (st : DijkstraState) : Prop where
  distances_length : st.distances.length = net.numberOfCities
  parent_length : st.parent.length = net.numberOfCities
  visited_length : st.visited.length = net.numberOfCities
  visited_iff : ∀ v, st.visited.getD v false = true ↔ v ∈ order
  processed_sub : ∀ u, u ∈ processed → u ∈ order
  dist_source : st.distances.getD source infinity_distance = 0
  parent_source : st.parent.getD source (-1) = -1
  walk : ∀ v, v < net.numberOfCities → st.distances.getD v infinity_distance ≠ infinity_distance →
    ∃ cs, IsRoadWalk net source cs v ∧
      roadTotal cs = st.distances.getD v infinity_distance ∧ cs.length ≤ order.indexOf v
  optimal : ∀ v, v ∈ order → st.distances.getD v infinity_distance ≠ infinity_distance ∧
    ∀ cs, IsRoadWalk net source cs v → st.distances.getD v infinity_distance ≤ roadTotal cs
  closed : ∀ u, u ∈ processed → ∀ c, c ∈ net.adjacencyList.getD u [] →
    st.distances.getD c.1 infinity_distance ≤ st.distances.getD u infinity_distance + c.2
  queued : ∀ v, v < net.numberOfCities →
    st.distances.getD v infinity_distance ≠ infinity_distance → v ∉ order →
    (st.distances.getD v infinity_distance, v) ∈ st.pq
  entries : ∀ x, x ∈ st.pq → x.2 < net.numberOfCities ∧
    st.distances.getD x.2 infinity_distance ≤ x.1 ∧ x.1 < infinity_distance
  tree : ∀ v, v < net.numberOfCities →
    st.distances.getD v infinity_distance ≠ infinity_distance → v ≠ source →
    ∃ u c, u ∈ order ∧ st.parent.getD v (-1) = (u : Int) ∧ c ∈ net.adjacencyList.getD u [] ∧
      c.1 = v ∧
      st.distances.getD v infinity_distance = st.distances.getD u infinity_distance + c.2 ∧
      order.indexOf u < order.indexOf v
  nodup : order.Nodup

/-- How `dijkstraAlgorithm` may leave its loop: with invariant `DijkstraInv`, and either
`destination` visited (the `break`) or the queue empty and every visited city relaxed. -/
def DijkstraExit (net : Network) (source destination : Nat) (st : DijkstraState) : Prop :=
  ∃ order processed, DijkstraInv net source order processed st ∧
    (destination ∈ order ∨ (st.pq = [] ∧ processed = order))

/-- The connections out of the cities not yet marked in `visited`: an upper bound on the
pairs `dijkstraAlgorithm` can still push. -/
def pendingRoads (net : Network) (visited : List Bool) : Nat :=
  ((List.range net.numberOfCities).map
    (fun u => if visited.getD u false then 0 else (net.adjacencyList.getD u []).length)).sum

/-- The number of connections in `adjacencyList`, both directions of a road counted. -/
def totalRoads (net : Network) : Nat :=
  ((List.range net.numberOfCities).map (fun u => (net.adjacencyList.getD u []).length)).sum

end TransportNetwork

/-!
# Properties of the queue simulation
-/

namespace TaxiQueue

/-! ## The tick loop as an iteration of the tick body -/

theorem runLoop_succ (feed : List Passenger) (fuel t : Nat) (s : SimState)
    (tr : List TickRecord) :
    runLoop feed (fuel + 1) t s tr =
      if allProcessingComplete (tickStep feed t s).1 feed || decide (t > 1000) then
        some { trace := tr ++ [⟨t, (tickStep feed t s).2, (tickStep feed t s).1⟩]
               endedAt := if allProcessingComplete (tickStep feed t s).1 feed
                 then some t else none
               warned := decide (t > 1000) }
      else runLoop feed fuel (t + 1) (tickStep feed t s).1
        (tr ++ [⟨t, (tickStep feed t s).2, (tickStep feed t s).1⟩]) := rfl

theorem range_map_recAt_succ (feed : List Passenger) (t : Nat) :
    (List.range (t + 1)).map (recAt feed) = (List.range t).map (recAt feed) ++ [recAt feed t] := by
  rw [List.range_succ, List.map_append]; rfl

/-- The loop started at tick `t` in the state `simAt feed t`, having shown the rows of
ticks `0 .. t-1`, stops at the first tick `T ≥ t` with `stopsAt`. -/
theorem runLoop_simAt (feed : List Passenger) :
    ∀ (fuel t : Nat) (o : Outcome),
      runLoop feed fuel t (simAt feed t) ((List.range t).map (recAt feed)) = some o →
      ∃ T, t ≤ T ∧ T < t + fuel ∧ (∀ k, t ≤ k → k < T → stopsAt feed k = false) ∧
        stopsAt feed T = true ∧ o = outcomeAt feed T := by
  intro fuel
  induction fuel with
  | zero => intro t o h; simp [runLoop] at h
  | succ fuel ih =>
    intro t o h
    rw [runLoop_succ] at h
    by_cases hs : stopsAt feed t = true
    · have hs' := hs
      unfold stopsAt simAt at hs'
      rw [if_pos hs'] at h
      refine ⟨t, le_refl t, by omega, fun k h1 h2 => by omega, hs, ?_⟩
      simp only [Option.some.injEq] at h
      rw [← h, outcomeAt, range_map_recAt_succ]
      rfl
    · have hs' := hs
      unfold stopsAt simAt at hs'
      rw [if_neg hs'] at h
      have h2 : runLoop feed fuel (t + 1) (simAt feed (t + 1))
          ((List.range (t + 1)).map (recAt feed)) = some o := by
        rw [range_map_recAt_succ]; exact h
      obtain ⟨T, hT1, hT2, hT3, hT4, hT5⟩ := ih (t + 1) o h2
      refine ⟨T, by omega, by omega, ?_, hT4, hT5⟩
      intro k hk1 hk2
      by_cases hk : k = t
      · subst hk; simpa using hs
      · exact hT3 k (by omega) hk2

theorem runLoop_of_firstStop (feed : List Passenger) (T : Nat)
    (hstop : stopsAt feed T = true) :
    ∀ (fuel t : Nat), t ≤ T → T < t + fuel →
      (∀ k, t ≤ k → k < T → stopsAt feed k = false) →
      runLoop feed fuel t (simAt feed t) ((List.range t).map (recAt feed))
        = some (outcomeAt feed T) := by
  intro fuel
  induction fuel with
  | zero => intro t h1 h2; omega
  | succ fuel ih =>
    intro t h1 h2 h3
    rw [runLoop_succ]
    by_cases ht : t = T
    · subst ht
      have hs' := hstop
      unfold stopsAt simAt at hs'
      rw [if_pos hs', outcomeAt, range_map_recAt_succ]
      rfl
    · have hs : stopsAt feed t = false := h3 t (le_refl t) (by omega)
      have hs' : ¬ (stopsAt feed t = true) := by simp [hs]
      unfold stopsAt simAt at hs'
      rw [if_neg hs']
      have := ih (t + 1) (by omega) (by omega) (fun k hk1 hk2 => h3 k (by omega) hk2)
      rw [range_map_recAt_succ] at this
      exact this

theorem stopsAt_ceiling (feed : List Passenger) : stopsAt feed 1001 = true := by
  simp [stopsAt]

theorem lastTick_le (feed : List Passenger) : lastTick feed ≤ 1001 :=
  Nat.find_min' _ (stopsAt_ceiling feed)

theorem stopsAt_lastTick (feed : List Passenger) : stopsAt feed (lastTick feed) = true :=
  Nat.find_spec (⟨1001, by simp [stopsAt]⟩ : ∃ T, stopsAt feed T = true)

theorem not_stopsAt_of_lt (feed : List Passenger) (k : Nat) (h : k < lastTick feed) :
    stopsAt feed k = false := by
  have := Nat.find_min (⟨1001, by simp [stopsAt]⟩ : ∃ T, stopsAt feed T = true) h
  simpa using this

theorem runSimulation_eq (feed : List Passenger) (fuel : Nat) (h : lastTick feed < fuel) :
    runSimulation feed fuel = some (outcomeAt feed (lastTick feed)) := by
  have := runLoop_of_firstStop feed (lastTick feed) (stopsAt_lastTick feed) fuel 0
    (Nat.zero_le _) (by omega) (fun k _ hk => not_stopsAt_of_lt feed k hk)
  simpa [runSimulation, simAt] using this

theorem runSimulation_some (feed : List Passenger) (fuel : Nat) (o : Outcome)
    (h : runSimulation feed fuel = some o) : o = outcomeAt feed (lastTick feed) := by
  have h' : runLoop feed fuel 0 (simAt feed 0) ((List.range 0).map (recAt feed)) = some o := by
    simpa [runSimulation, simAt] using h
  obtain ⟨T, _, hT2, hT3, hT4, hT5⟩ := runLoop_simAt feed fuel 0 o h'
  have : T = lastTick feed := by
    apply le_antisymm
    · by_contra hlt
      push_neg at hlt
      have := hT3 (lastTick feed) (Nat.zero_le _) hlt
      rw [stopsAt_lastTick] at this
      exact absurd this (by simp)
    · exact Nat.find_min' _ hT4
  rw [hT5, this]

theorem mem_trace_outcomeAt (feed : List Passenger) (T : Nat) (r : TickRecord) :
    r ∈ (outcomeAt feed T).trace ↔ ∃ k, k ≤ T ∧ r = recAt feed k := by
  simp only [outcomeAt, List.mem_map, List.mem_range]
  constructor
  · rintro ⟨k, hk, rfl⟩; exact ⟨k, by omega, rfl⟩
  · rintro ⟨k, hk, rfl⟩; exact ⟨k, by omega, rfl⟩

theorem routeInv_initialTaxi : RouteInv initialTaxi := by
  simp [RouteInv, initialTaxi, TAXI_CAPACITY]

theorem routeInv_resetOnDeparture (r : TaxiRouteState) (h : RouteInv r) :
    RouteInv (resetOnDeparture r) := by
  obtain ⟨q, ob, b, tm, cur, cap, st⟩ := r
  obtain ⟨h1, h2, h3, h4, h5⟩ := h
  simp only [TAXI_CAPACITY] at *
  unfold resetOnDeparture
  by_cases hst : st = Status.Departed
  · subst hst
    simp only [if_true]
    refine ⟨by simp [TAXI_CAPACITY], by simp [TAXI_CAPACITY], by simp [TAXI_CAPACITY],
      by simp [TAXI_CAPACITY], ?_⟩
    intro hb
    have := h5 hb
    have := h3.mp rfl
    simp only at *
    omega
  · simp only [hst, if_false]
    exact ⟨h1, h2, h3, h4, h5⟩

theorem routeInv_advanceBoarding (r : TaxiRouteState) (h : RouteInv r) :
    RouteInv (advanceBoarding r) := by
  obtain ⟨q, ob, b, tm, cur, cap, st⟩ := r
  obtain ⟨h1, h2, h3, h4, h5⟩ := h
  simp only [TAXI_CAPACITY] at *
  unfold advanceBoarding
  cases b with
  | false => exact ⟨h1, h2, h3, h4, h5⟩
  | true =>
    have hpos : 0 < cap := h5 rfl
    simp only [if_true]
    by_cases htm : wrapInt (tm - 1) ≤ 0
    · simp only [htm, if_true]
      by_cases hc : cap - 1 ≤ 0
      · simp only [hc, if_true]
        refine ⟨?_, ?_, ?_, ?_, ?_⟩
        · simp only [List.length_append, List.length_singleton, TAXI_CAPACITY]; push_cast; omega
        · simp only; omega
        · simp only [true_iff]; omega
        · simp only [TAXI_CAPACITY]; constructor
          · intro hh; exact absurd hh (by decide)
          · intro hh; omega
        · intro hh; simp at hh
      · simp only [hc, if_false]
        refine ⟨?_, ?_, ?_, ?_, ?_⟩
        · simp only [List.length_append, List.length_singleton, TAXI_CAPACITY]; push_cast; omega
        · simp only; omega
        · simp only; constructor
          · intro hh; exact absurd hh (by decide)
          · intro hh; omega
        · simp only [TAXI_CAPACITY]; constructor
          · intro hh; exact absurd hh (by decide)
          · intro hh; omega
        · intro hh; simp at hh
    · simp only [htm, if_false]
      exact ⟨h1, h2, h3, h4, h5⟩

theorem routeInv_startNextBoarding (r : TaxiRouteState) (h : RouteInv r) :
    RouteInv (startNextBoarding r) := by
  obtain ⟨q, ob, b, tm, cur, cap, st⟩ := r
  obtain ⟨h1, h2, h3, h4, h5⟩ := h
  unfold startNextBoarding
  by_cases hg : canStartBoarding ⟨q, ob, b, tm, cur, cap, st⟩ = true
  · rw [if_pos hg]
    cases q with
    | nil => exact ⟨h1, h2, h3, h4, h5⟩
    | cons p rest =>
      refine ⟨h1, h2, h3, h4, ?_⟩
      intro _
      simp only [canStartBoarding, Bool.and_eq_true, decide_eq_true_eq] at hg
      exact hg.1.1.2
  · rw [if_neg hg]
    exact ⟨h1, h2, h3, h4, h5⟩

theorem routeInv_processTaxiRoute (r : TaxiRouteState) (c : Char) (h : RouteInv r) :
    RouteInv (processTaxiRoute r c) :=
  routeInv_startNextBoarding _ (routeInv_advanceBoarding _ (routeInv_resetOnDeparture _ h))

theorem routeInv_push (r : TaxiRouteState) (q : List Passenger) (h : RouteInv r) :
    RouteInv { r with passengerQueue := q } := h

theorem simInv_enqueueArrival (p : Passenger) (s : SimState) (h : SimInv s) :
    SimInv (enqueueArrival p s) := by
  obtain ⟨h1, h2, h3⟩ := h
  unfold enqueueArrival
  split_ifs
  · exact ⟨routeInv_push _ _ h1, h2, h3⟩
  · exact ⟨h1, routeInv_push _ _ h2, h3⟩
  · exact ⟨h1, h2, routeInv_push _ _ h3⟩
  · exact ⟨h1, h2, h3⟩

theorem simInv_dispatchLoop (t : Int) (l : List Passenger) :
    ∀ (s : SimState) (a : List Passenger), SimInv s → SimInv (dispatchLoop t l (s, a)).1 := by
  induction l with
  | nil => intro s a h; exact h
  | cons p rest ih =>
    intro s a h
    unfold dispatchLoop
    split_ifs
    · apply ih
      have := simInv_enqueueArrival p s h
      exact this
    · exact h

theorem simInv_processAllRoutes (s : SimState) (h : SimInv s) : SimInv (processAllRoutes s) :=
  ⟨routeInv_processTaxiRoute _ 'S' h.1, routeInv_processTaxiRoute _ 'L' h.2.1,
    routeInv_processTaxiRoute _ 'C' h.2.2⟩

theorem simInv_tickStep (feed : List Passenger) (t : Nat) (s : SimState) (h : SimInv s) :
    SimInv (tickStep feed t s).1 :=
  simInv_processAllRoutes _ (simInv_dispatchLoop _ _ _ _ h)

theorem simInv_simAt (feed : List Passenger) : ∀ n, SimInv (simAt feed n)
  | 0 => ⟨routeInv_initialTaxi, routeInv_initialTaxi, routeInv_initialTaxi⟩
  | n + 1 => simInv_tickStep feed n _ (simInv_simAt feed n)

theorem simInv_of_mem_trace (feed : List Passenger) (fuel : Nat) (o : Outcome)
    (hrun : runSimulation feed fuel = some o) (rec : TickRecord) (hrec : rec ∈ o.trace) :
    SimInv rec.state := by
  rw [runSimulation_some feed fuel o hrun, mem_trace_outcomeAt] at hrec
  obtain ⟨k, _, rfl⟩ := hrec
  exact simInv_simAt feed (k + 1)

theorem sampleOutcome_eq : runSimulation sampleFeed 10 = some sampleOutcome := by
  simp [sampleOutcome]

theorem sampleRecord_mem : sampleRecord ∈ sampleOutcome.trace := by decide

theorem startNextBoarding_frame (r : TaxiRouteState) :
    (startNextBoarding r).status = r.status ∧
      (startNextBoarding r).onBoardList = r.onBoardList ∧
      (startNextBoarding r).currentCapacity = r.currentCapacity := by
  unfold startNextBoarding
  split_ifs
  · cases hq : r.passengerQueue <;> simp
  · simp

theorem resetOnDeparture_frame (r : TaxiRouteState) :
    (resetOnDeparture r).status ≠ Status.Departed ∧
      (resetOnDeparture r).isBoarding = r.isBoarding ∧
      (resetOnDeparture r).boardingTimer = r.boardingTimer ∧
      (resetOnDeparture r).currentBoardingPassenger = r.currentBoardingPassenger ∧
      (resetOnDeparture r).passengerQueue = r.passengerQueue := by
  unfold resetOnDeparture
  split_ifs with h
  · simp
  · exact ⟨h, rfl, rfl, rfl, rfl⟩

theorem advanceBoarding_departed (r : TaxiRouteState) (hr : r.status ≠ Status.Departed)
    (h : (advanceBoarding r).status = Status.Departed) :
    r.isBoarding = true ∧ wrapInt (r.boardingTimer - 1) ≤ 0 ∧
      (advanceBoarding r).onBoardList = r.onBoardList ++ [r.currentBoardingPassenger] ∧
      (advanceBoarding r).currentCapacity = r.currentCapacity - 1 ∧
      (advanceBoarding r).currentCapacity ≤ 0 := by
  obtain ⟨q, ob, b, tm, cur, cap, st⟩ := r
  unfold advanceBoarding at h ⊢
  cases b with
  | false => simp at h; exact absurd h hr
  | true =>
    simp only [if_true] at h ⊢
    by_cases htm : wrapInt (tm - 1) ≤ 0
    · simp only [htm, if_true] at h ⊢
      by_cases hc : cap - 1 ≤ 0
      · simp only [hc, if_true]
        simp
      · simp only [hc, if_false] at h
        simp at h
    · simp only [htm, if_false] at h
      exact absurd h hr

theorem departed_only_by_completion (r : TaxiRouteState) (c : Char)
    (h : (processTaxiRoute r c).status = Status.Departed) :
    r.isBoarding = true ∧ wrapInt (r.boardingTimer - 1) ≤ 0 ∧
      (processTaxiRoute r c).onBoardList
        = (resetOnDeparture r).onBoardList ++ [r.currentBoardingPassenger] ∧
      (processTaxiRoute r c).currentCapacity = (resetOnDeparture r).currentCapacity - 1 ∧
      (processTaxiRoute r c).currentCapacity ≤ 0 := by
  unfold processTaxiRoute at h ⊢
  obtain ⟨f1, f2, f3⟩ := startNextBoarding_frame (advanceBoarding (resetOnDeparture r))
  obtain ⟨g1, g2, g3, g4, _⟩ := resetOnDeparture_frame r
  rw [f1] at h
  rw [f2, f3]
  have := advanceBoarding_departed (resetOnDeparture r) g1 h
  rw [g2, g3, g4] at this
  exact this

theorem pushAll_nil (r : TaxiRouteState) : pushAll r [] = r := by
  simp [pushAll]

theorem pushAll_pushAll (r : TaxiRouteState) (a b : List Passenger) :
    pushAll (pushAll r a) b = pushAll r (a ++ b) := by
  simp [pushAll]

/-- The dispatch loop consumes the longest prefix of records whose arrival time is the
current tick, pushes those tagged S, L, C on their queues in feed order, and advances the
cursor by the number consumed. -/
theorem dispatchLoop_eq (t : Int) (l : List Passenger) :
    ∀ (s : SimState) (a : List Passenger),
      dispatchLoop t l (s, a) =
        ({ shortTaxi := pushAll s.shortTaxi
              ((l.takeWhile (fun p => decide (p.arrivalTime = t))).filter
                (fun p => decide (p.routeType = 'S')))
           longTaxi := pushAll s.longTaxi
              ((l.takeWhile (fun p => decide (p.arrivalTime = t))).filter
                (fun p => decide (p.routeType = 'L')))
           cityTaxi := pushAll s.cityTaxi
              ((l.takeWhile (fun p => decide (p.arrivalTime = t))).filter
                (fun p => decide (p.routeType = 'C')))
           arrivalTracker := s.arrivalTracker
              + (l.takeWhile (fun p => decide (p.arrivalTime = t))).length },
          a ++ l.takeWhile (fun p => decide (p.arrivalTime = t))) := by
  induction l with
  | nil => intro s a; simp [dispatchLoop, pushAll_nil]
  | cons p rest ih =>
    intro s a
    unfold dispatchLoop
    by_cases hp : p.arrivalTime = t
    · rw [if_pos hp, ih]
      simp only [List.takeWhile_cons, hp, decide_True, if_true, List.length_cons]
      have hSL : ('S' : Char) ≠ 'L' := by decide
      have hSC : ('S' : Char) ≠ 'C' := by decide
      have hLC : ('L' : Char) ≠ 'C' := by decide
      unfold enqueueArrival
      by_cases h1 : p.routeType = 'S'
      · have h2 : p.routeType ≠ 'L' := by rw [h1]; exact hSL
        have h3 : p.routeType ≠ 'C' := by rw [h1]; exact hSC
        simp [h1, h2, h3, pushAll, List.filter_cons, hSL, hSC, Nat.add_assoc, Nat.add_comm 1]
      · by_cases h2 : p.routeType = 'L'
        · have h3 : p.routeType ≠ 'C' := by rw [h2]; exact hLC
          simp [h1, h2, h3, pushAll, List.filter_cons, hSL.symm, hLC, Nat.add_assoc, Nat.add_comm 1]
        · by_cases h3 : p.routeType = 'C'
          · simp [h1, h2, h3, pushAll, List.filter_cons, hSC.symm, hLC.symm, Nat.add_assoc, Nat.add_comm 1]
          · simp [h1, h2, h3, pushAll, List.filter_cons, Nat.add_assoc, Nat.add_comm 1]
    · rw [if_neg hp]
      simp [List.takeWhile_cons, hp, pushAll_nil]

theorem dispatchLoop_append_blocked (t : Int) (p : Passenger) (rest : List Passenger)
    (hp : p.arrivalTime ≠ t) :
    ∀ (l : List Passenger) (acc : SimState × List Passenger),
      dispatchLoop t (l ++ p :: rest) acc = dispatchLoop t l acc := by
  intro l
  induction l with
  | nil =>
    intro acc
    obtain ⟨s, a⟩ := acc
    simp [dispatchLoop, hp]
  | cons q l ih =>
    intro acc
    obtain ⟨s, a⟩ := acc
    simp only [List.cons_append, dispatchLoop]
    split_ifs
    · exact ih _
    · rfl

theorem dispatch_arrivalTracker_le (feed : List Passenger) (t : Nat) (s : SimState)
    (h : s.arrivalTracker ≤ feed.length) :
    (dispatch feed t s).1.arrivalTracker ≤ feed.length := by
  unfold dispatch
  rw [dispatchLoop_eq]
  have h1 := (List.takeWhile_sublist (l := feed.drop s.arrivalTracker)
    (fun p : Passenger => decide (p.arrivalTime = (t : Int)))).length_le
  have h2 : (feed.drop s.arrivalTracker).length = feed.length - s.arrivalTracker :=
    List.length_drop _ _
  show s.arrivalTracker + _ ≤ feed.length
  omega

theorem processAllRoutes_arrivalTracker (s : SimState) :
    (processAllRoutes s).arrivalTracker = s.arrivalTracker := rfl

theorem simAt_arrivalTracker_le (feed : List Passenger) :
    ∀ k, (simAt feed k).arrivalTracker ≤ feed.length
  | 0 => Nat.zero_le _
  | k + 1 => by
    show (processAllRoutes (dispatch feed k (simAt feed k)).1).arrivalTracker ≤ feed.length
    rw [processAllRoutes_arrivalTracker]
    exact dispatch_arrivalTracker_le feed k _ (simAt_arrivalTracker_le feed k)

theorem dispatch_append_blocked (l1 : List Passenger) (p : Passenger) (rest : List Passenger)
    (t : Nat) (s : SimState) (hs : s.arrivalTracker ≤ l1.length)
    (hp : p.arrivalTime ≠ (t : Int)) :
    dispatch (l1 ++ p :: rest) t s = dispatch l1 t s := by
  unfold dispatch
  rw [List.drop_append_of_le_length hs, dispatchLoop_append_blocked _ _ _ hp]

/-- A record that is not yet due hides itself and everything behind it: up to its
arrival tick the simulation runs as on the feed cut before it. -/
theorem simAt_append_blocked (l1 : List Passenger) (p : Passenger) (rest : List Passenger)
    (a : Nat) (hp : ∀ t : Nat, t < a → p.arrivalTime ≠ (t : Int)) :
    ∀ k, k ≤ a → simAt (l1 ++ p :: rest) k = simAt l1 k
  | 0, _ => rfl
  | k + 1, hk => by
    have ih := simAt_append_blocked l1 p rest a hp k (by omega)
    show (tickStep (l1 ++ p :: rest) k (simAt (l1 ++ p :: rest) k)).1
      = (tickStep l1 k (simAt l1 k)).1
    rw [ih]
    unfold tickStep
    rw [dispatch_append_blocked l1 p rest k _ (simAt_arrivalTracker_le l1 k) (hp k (by omega))]

theorem processAllRoutes_initialState : processAllRoutes initialState = initialState := by
  decide

theorem tickStep_nil_initialState (t : Nat) : tickStep [] t initialState = (initialState, []) := by
  simp [tickStep, dispatch, dispatchLoop, processAllRoutes_initialState]

theorem simAt_nil : ∀ k, simAt [] k = initialState
  | 0 => rfl
  | k + 1 => by
    show (tickStep [] k (simAt [] k)).1 = initialState
    rw [simAt_nil k, tickStep_nil_initialState]

theorem processTaxiRoute_of_departed (r : TaxiRouteState) (c : Char)
    (hst : r.status = Status.Departed) (hb : r.isBoarding = false) :
    (processTaxiRoute r c).status = Status.Waiting ∧
      (processTaxiRoute r c).currentCapacity = TAXI_CAPACITY ∧
      (processTaxiRoute r c).onBoardList = [] := by
  unfold processTaxiRoute
  obtain ⟨f1, f2, f3⟩ := startNextBoarding_frame (advanceBoarding (resetOnDeparture r))
  rw [f1, f2, f3]
  have hadv : advanceBoarding (resetOnDeparture r) = resetOnDeparture r := by
    unfold advanceBoarding
    rw [(resetOnDeparture_frame r).2.1, hb]
    simp
  rw [hadv]
  unfold resetOnDeparture
  rw [if_pos hst]
  exact ⟨rfl, rfl, rfl⟩

theorem dispatch_fst (feed : List Passenger) (t : Nat) (s : SimState) :
    ∃ qs ql qc n, (dispatch feed t s).1 =
      { shortTaxi := pushAll s.shortTaxi qs, longTaxi := pushAll s.longTaxi ql,
        cityTaxi := pushAll s.cityTaxi qc, arrivalTracker := s.arrivalTracker + n } := by
  unfold dispatch
  rw [dispatchLoop_eq]
  exact ⟨_, _, _, _, rfl⟩

theorem not_stopsAt_of_arrivalTracker_lt (feed : List Passenger) (k : Nat) (hk : k ≤ 1000)
    (h : (simAt feed (k + 1)).arrivalTracker < feed.length) : stopsAt feed k = false := by
  unfold stopsAt allProcessingComplete
  have h1 : ¬ (simAt feed (k + 1)).arrivalTracker ≥ feed.length := by omega
  have h2 : ¬ k > 1000 := by omega
  simp [h1, h2]

theorem le_lastTick_of_not_stopsAt (feed : List Passenger) (n : Nat)
    (h : ∀ k, k < n → stopsAt feed k = false) : n ≤ lastTick feed := by
  by_contra hlt
  push_neg at hlt
  have := h (lastTick feed) hlt
  rw [stopsAt_lastTick] at this
  exact absurd this (by simp)

theorem recAt_state (feed : List Passenger) (k : Nat) :
    (recAt feed k).state = processAllRoutes (dispatch feed k (simAt feed k)).1 := rfl

theorem recAt_timeInstance (feed : List Passenger) (k : Nat) :
    (recAt feed k).timeInstance = k := rfl

theorem simAt_succ (feed : List Passenger) (k : Nat) :
    simAt feed (k + 1) = processAllRoutes (dispatch feed k (simAt feed k)).1 := rfl

theorem recAt_mem_trace (feed : List Passenger) (fuel : Nat) (o : Outcome)
    (hrun : runSimulation feed fuel = some o) (k : Nat) (hk : k ≤ lastTick feed) :
    recAt feed k ∈ o.trace := by
  rw [runSimulation_some feed fuel o hrun, mem_trace_outcomeAt]
  exact ⟨k, hk, rfl⟩

/-- After five boardings the route is `Departed`; if the feed goes on with a record due
at tick 6 or later, the loop reaches tick 6 and the row of tick 6 shows the route reset. -/
theorem reset_row_after_departure (route : SimState → TaxiRouteState) (c : Char)
    (hroute : ∀ s, route (processAllRoutes s) = processTaxiRoute (route s) c)
    (hpush : ∀ feed t s, ∃ q, route (dispatch feed t s).1 = pushAll (route s) q)
    (hdep : (route (simAt (sameRouteAtZero 5 c) 6)).status = Status.Departed ∧
      (route (simAt (sameRouteAtZero 5 c) 6)).isBoarding = false)
    (p : Passenger) (rest : List Passenger) (hp : 6 ≤ p.arrivalTime)
    (fuel : Nat) (o : Outcome)
    (hrun : runSimulation (sameRouteAtZero 5 c ++ p :: rest) fuel = some o) :
    ∃ rec, rec ∈ o.trace ∧ rec.timeInstance = 6 ∧ (route rec.state).status = Status.Waiting ∧
      (route rec.state).currentCapacity = 5 := by
  have hblock : ∀ k, k ≤ 6 →
      simAt (sameRouteAtZero 5 c ++ p :: rest) k = simAt (sameRouteAtZero 5 c) k :=
    simAt_append_blocked _ p rest 6 (fun t ht => by omega)
  have hlast : 6 ≤ lastTick (sameRouteAtZero 5 c ++ p :: rest) := by
    apply le_lastTick_of_not_stopsAt
    intro k hk
    apply not_stopsAt_of_arrivalTracker_lt _ k (by omega)
    rw [hblock (k + 1) (by omega)]
    have := simAt_arrivalTracker_le (sameRouteAtZero 5 c) (k + 1)
    simp only [sameRouteAtZero, List.length_append, List.length_replicate, List.length_cons] at this ⊢
    omega
  refine ⟨recAt _ 6, recAt_mem_trace _ fuel o hrun 6 hlast, recAt_timeInstance _ 6, ?_⟩
  rw [recAt_state, hroute, hblock 6 (le_refl 6)]
  obtain ⟨q, hq⟩ := hpush (sameRouteAtZero 5 c ++ p :: rest) 6 (simAt (sameRouteAtZero 5 c) 6)
  rw [hq]
  have := processTaxiRoute_of_departed (pushAll (route (simAt (sameRouteAtZero 5 c) 6)) q) c
    hdep.1 hdep.2
  exact ⟨this.1, this.2.1⟩

theorem dispatch_shortTaxi (feed : List Passenger) (t : Nat) (s : SimState) :
    ∃ q, (dispatch feed t s).1.shortTaxi = pushAll s.shortTaxi q := by
  obtain ⟨qs, ql, qc, n, h⟩ := dispatch_fst feed t s
  exact ⟨qs, by rw [h]⟩

theorem dispatch_longTaxi (feed : List Passenger) (t : Nat) (s : SimState) :
    ∃ q, (dispatch feed t s).1.longTaxi = pushAll s.longTaxi q := by
  obtain ⟨qs, ql, qc, n, h⟩ := dispatch_fst feed t s
  exact ⟨ql, by rw [h]⟩

theorem dispatch_cityTaxi (feed : List Passenger) (t : Nat) (s : SimState) :
    ∃ q, (dispatch feed t s).1.cityTaxi = pushAll s.cityTaxi q := by
  obtain ⟨qs, ql, qc, n, h⟩ := dispatch_fst feed t s
  exact ⟨qc, by rw [h]⟩

theorem wrapInt_of_inRange (x : Int) (h1 : INT_MIN ≤ x) (h2 : x ≤ INT_MAX) : wrapInt x = x := by
  unfold wrapInt
  unfold INT_MIN at h1
  unfold INT_MAX at h2
  omega

theorem route_state_step (R : Route) (feed : List Passenger) (n : Nat) :
    ∃ q, R.state (simAt feed (n + 1))
      = processTaxiRoute (pushAll (R.state (simAt feed n)) q) R.label := by
  rw [simAt_succ]
  obtain ⟨qs, ql, qc, m, h⟩ := dispatch_fst feed n (simAt feed n)
  rw [h]
  cases R
  · exact ⟨qs, rfl⟩
  · exact ⟨ql, rfl⟩
  · exact ⟨qc, rfl⟩

theorem processTaxiRoute_boarding_continue (r : TaxiRouteState) (q : List Passenger) (c : Char)
    (hb : r.isBoarding = true) (hst : r.status ≠ Status.Departed)
    (h2 : 2 ≤ r.boardingTimer) (hmax : r.boardingTimer ≤ INT_MAX) :
    processTaxiRoute (pushAll r q) c
      = { pushAll r q with boardingTimer := r.boardingTimer - 1 } := by
  obtain ⟨pq, ob, b, tm, cur, cap, st⟩ := r
  simp only at hb hst h2 hmax
  subst hb
  have hw : wrapInt (tm - 1) = tm - 1 :=
    wrapInt_of_inRange _ (by unfold INT_MIN; omega) (by omega)
  have hpos : ¬ tm - 1 ≤ 0 := by omega
  simp [processTaxiRoute, pushAll, resetOnDeparture, hst, advanceBoarding, hw, hpos,
    startNextBoarding, canStartBoarding]

theorem processTaxiRoute_boarding_complete (r : TaxiRouteState) (q : List Passenger) (c : Char)
    (hb : r.isBoarding = true) (hst : r.status ≠ Status.Departed)
    (h1 : r.boardingTimer ≤ 1) (hmin : INT_MIN < r.boardingTimer) :
    (processTaxiRoute (pushAll r q) c).onBoardList
        = r.onBoardList ++ [r.currentBoardingPassenger] ∧
      (processTaxiRoute (pushAll r q) c).currentCapacity = r.currentCapacity - 1 := by
  unfold processTaxiRoute
  obtain ⟨_, f2, f3⟩ := startNextBoarding_frame (advanceBoarding (resetOnDeparture (pushAll r q)))
  rw [f2, f3]
  obtain ⟨pq, ob, b, tm, cur, cap, st⟩ := r
  simp only at hb hst h1 hmin
  subst hb
  have hw : wrapInt (tm - 1) = tm - 1 :=
    wrapInt_of_inRange _ (by unfold INT_MIN at *; omega) (by unfold INT_MAX; omega)
  have hle : tm - 1 ≤ 0 := by omega
  by_cases hc : cap - 1 ≤ 0 <;>
    simp [pushAll, resetOnDeparture, hst, advanceBoarding, hw, hle, hc]

/-- While a boarding is in progress the route only counts its timer down: `k` ticks after
a state with timer `d`, for `k < max d 1`, the same passenger is still boarding with
timer `d - k`, and the onboard list, capacity and status are as they were. -/
theorem boarding_countdown (R : Route) (feed : List Passenger) (n0 : Nat) (d : Int)
    (hb : (R.state (simAt feed n0)).isBoarding = true)
    (hst : (R.state (simAt feed n0)).status ≠ Status.Departed)
    (htm : (R.state (simAt feed n0)).boardingTimer = d) (hmax : d ≤ INT_MAX) :
    ∀ k : Nat, (k : Int) < max d 1 →
      (R.state (simAt feed (n0 + k))).isBoarding = true ∧
      (R.state (simAt feed (n0 + k))).boardingTimer = d - k ∧
      (R.state (simAt feed (n0 + k))).onBoardList = (R.state (simAt feed n0)).onBoardList ∧
      (R.state (simAt feed (n0 + k))).currentCapacity
        = (R.state (simAt feed n0)).currentCapacity ∧
      (R.state (simAt feed (n0 + k))).status = (R.state (simAt feed n0)).status ∧
      (R.state (simAt feed (n0 + k))).currentBoardingPassenger
        = (R.state (simAt feed n0)).currentBoardingPassenger := by
  intro k
  induction k with
  | zero => intro _; exact ⟨hb, by simp [htm], rfl, rfl, rfl, rfl⟩
  | succ k ih =>
    intro hk
    have hk' : (k : Int) < max d 1 := by push_cast at hk; omega
    obtain ⟨i1, i2, i3, i4, i5, i6⟩ := ih hk'
    obtain ⟨q, hq⟩ := route_state_step R feed (n0 + k)
    have h2 : 2 ≤ (R.state (simAt feed (n0 + k))).boardingTimer := by
      rw [i2]; push_cast at hk; omega
    have hst' : (R.state (simAt feed (n0 + k))).status ≠ Status.Departed := by rw [i5]; exact hst
    have hmax' : (R.state (simAt feed (n0 + k))).boardingTimer ≤ INT_MAX := by
      rw [i2]; omega
    rw [processTaxiRoute_boarding_continue _ q _ i1 hst' h2 hmax'] at hq
    have hq' : R.state (simAt feed (n0 + (k + 1))) =
        { pushAll (R.state (simAt feed (n0 + k))) q with
            boardingTimer := (R.state (simAt feed (n0 + k))).boardingTimer - 1 } := hq
    rw [hq']
    refine ⟨i1, ?_, i3, i4, i5, i6⟩
    show (R.state (simAt feed (n0 + k))).boardingTimer - 1 = d - ((k + 1 : Nat) : Int)
    rw [i2]; push_cast; omega

theorem startNextBoarding_of_can (r : TaxiRouteState) (h : canStartBoarding r = true) :
    (startNextBoarding r).isBoarding = true ∧
      (startNextBoarding r).boardingTimer
        = (startNextBoarding r).currentBoardingPassenger.boardingTime ∧
      (startNextBoarding r).status ≠ Status.Departed ∧
      r.passengerQueue
        = (startNextBoarding r).currentBoardingPassenger :: (startNextBoarding r).passengerQueue := by
  unfold startNextBoarding
  rw [if_pos h]
  simp only [canStartBoarding, Bool.and_eq_true, decide_eq_true_eq] at h
  obtain ⟨⟨⟨⟨_, hq⟩, _⟩, _⟩, hst⟩ := h
  cases hqueue : r.passengerQueue with
  | nil => rw [hqueue] at hq; simp at hq
  | cons p rest => exact ⟨rfl, rfl, hst, rfl⟩

theorem advance_reset_passengerQueue (r : TaxiRouteState) :
    (advanceBoarding (resetOnDeparture r)).passengerQueue = r.passengerQueue := by
  have h : ∀ x : TaxiRouteState, (advanceBoarding x).passengerQueue = x.passengerQueue := by
    intro x
    unfold advanceBoarding
    by_cases hb : x.isBoarding = true
    · rw [if_pos hb]
      simp only
      split_ifs <;> rfl
    · rw [if_neg hb]
  rw [h, (resetOnDeparture_frame r).2.2.2.2]

theorem route_state_succ (R : Route) (feed : List Passenger) (n : Nat) :
    R.state (simAt feed (n + 1))
      = processTaxiRoute (R.state (dispatch feed n (simAt feed n)).1) R.label := by
  rw [simAt_succ]
  cases R <;> rfl

theorem route_state_of_started (R : Route) (feed : List Passenger) (t : Nat)
    (h : boardingStartedAt R feed t = true) :
    (R.state (simAt feed (t + 1))).isBoarding = true ∧
      (R.state (simAt feed (t + 1))).boardingTimer
        = (R.state (simAt feed (t + 1))).currentBoardingPassenger.boardingTime ∧
      (R.state (simAt feed (t + 1))).status ≠ Status.Departed ∧
      (R.state (dispatch feed t (simAt feed t)).1).passengerQueue
        = (R.state (simAt feed (t + 1))).currentBoardingPassenger
          :: (R.state (simAt feed (t + 1))).passengerQueue := by
  rw [route_state_succ]
  unfold processTaxiRoute
  unfold boardingStartedAt at h
  obtain ⟨h1, h2, h3, h4⟩ := startNextBoarding_of_can _ h
  rw [advance_reset_passengerQueue] at h4
  exact ⟨h1, h2, h3, h4⟩

theorem not_stopsAt_of_boarding (R : Route) (feed : List Passenger) (k : Nat) (hk : k ≤ 1000)
    (hb : (R.state (simAt feed (k + 1))).isBoarding = true) : stopsAt feed k = false := by
  unfold stopsAt allProcessingComplete
  have h2 : ¬ k > 1000 := by omega
  cases R <;> simp only [Route.state] at hb <;> simp [hb, h2]

theorem le_lastTick_of_mem_trace (feed : List Passenger) (fuel : Nat) (o : Outcome)
    (hrun : runSimulation feed fuel = some o) (t : Nat) (h : recAt feed t ∈ o.trace) :
    t ≤ lastTick feed := by
  rw [runSimulation_some feed fuel o hrun, mem_trace_outcomeAt] at h
  obtain ⟨k, hk, he⟩ := h
  have : (recAt feed t).timeInstance = (recAt feed k).timeInstance := by rw [he]
  rw [recAt_timeInstance, recAt_timeInstance] at this
  omega

/-- A boarding that starts in a processed tick `t` with timer `d` keeps the loop running
through tick `t + max d 1`, as long as that tick is not beyond 1001. -/
theorem le_lastTick_of_boarding (R : Route) (feed : List Passenger) (t : Nat) (d : Int)
    (ht : t ≤ lastTick feed)
    (hb : (R.state (simAt feed (t + 1))).isBoarding = true)
    (hst : (R.state (simAt feed (t + 1))).status ≠ Status.Departed)
    (htm : (R.state (simAt feed (t + 1))).boardingTimer = d) (hmax : d ≤ INT_MAX)
    (m : Nat) (hm : (m : Int) ≤ max d 1) (hreach : t + m ≤ 1001) :
    t + m ≤ lastTick feed := by
  apply le_lastTick_of_not_stopsAt
  intro j hj
  by_cases hjt : j < t
  · exact not_stopsAt_of_lt feed j (by omega)
  · obtain ⟨k, rfl⟩ : ∃ k, j = t + k := ⟨j - t, by omega⟩
    have := boarding_countdown R feed (t + 1) d hb hst htm hmax k (by omega)
    apply not_stopsAt_of_boarding R feed (t + k) (by omega)
    have e : t + k + 1 = t + 1 + k := by omega
    rw [e]
    exact this.1

theorem recAt_state_eq (feed : List Passenger) (k : Nat) :
    (recAt feed k).state = simAt feed (k + 1) := rfl

/-- A boarding whose timer exceeds the ticks left before the ceiling is cut off: the loop
runs to tick 1001, ends with the warning only, and no row shows the onboard list changed. -/
theorem boarding_cut_off (R : Route) (feed : List Passenger) (d : Int)
    (hb : (R.state (simAt feed (0 + 1))).isBoarding = true)
    (hst : (R.state (simAt feed (0 + 1))).status ≠ Status.Departed)
    (htm : (R.state (simAt feed (0 + 1))).boardingTimer = d) (hmax : d ≤ INT_MAX)
    (hd : 1001 < d) (n : Nat) (hn : n = 1001) :
    ∃ o, runSimulation feed (n + 1) = some o ∧ o.endedAt = none ∧ o.warned = true ∧
      ∀ rec, rec ∈ o.trace →
        (R.state rec.state).onBoardList = (R.state (simAt feed (0 + 1))).onBoardList := by
  have hcount := boarding_countdown R feed (0 + 1) d hb hst htm hmax
  have hlast : lastTick feed = n := by
    apply le_antisymm (by rw [hn]; exact lastTick_le _)
    have := le_lastTick_of_boarding R feed 0 d (Nat.zero_le _) hb hst htm
      hmax n (by omega) (by omega)
    omega
  have hrun := runSimulation_eq feed (n + 1) (by omega)
  rw [hlast] at hrun
  refine ⟨_, hrun, ?_, ?_, ?_⟩
  · have h1 := (hcount n (by omega)).1
    have e : 0 + 1 + n = n + 1 := by omega
    rw [e] at h1
    have hnc : allProcessingComplete (simAt feed (n + 1)) feed = false := by
      unfold allProcessingComplete
      cases R <;> simp only [Route.state] at h1 <;> simp [h1]
    simp [outcomeAt, hnc]
  · simp [outcomeAt, hn]
  · intro rec hrec
    rw [mem_trace_outcomeAt] at hrec
    obtain ⟨k, hk, rfl⟩ := hrec
    have h3 := (hcount k (by omega)).2.2.1
    have e : 0 + 1 + k = k + 1 := by omega
    rw [e] at h3
    rw [recAt_state_eq]
    exact h3

theorem long_boarding_cut_off :
    ∃ o, runSimulation [⟨'S', 2000, 0⟩] 1002 = some o ∧ o.endedAt = none ∧ o.warned = true ∧
      ∀ rec, rec ∈ o.trace → rec.state.shortTaxi.onBoardList = [] :=
  boarding_cut_off Route.S [⟨'S', 2000, 0⟩] 2000 (by decide) (by decide) (by decide)
    (by decide) (by decide) 1001 rfl

theorem allProcessingComplete_iff (s : SimState) (feed : List Passenger) :
    allProcessingComplete s feed = true ↔ WorkExhausted s feed := by
  unfold allProcessingComplete WorkExhausted
  simp only [Bool.and_eq_true, decide_eq_true_eq, List.isEmpty_iff, Bool.not_eq_true',
    ge_iff_le]
  tauto

theorem outcomeAt_trace_ticks (feed : List Passenger) (T : Nat) :
    (outcomeAt feed T).trace.map TickRecord.timeInstance = List.range (T + 1) := by
  simp only [outcomeAt, List.map_map]
  have : (TickRecord.timeInstance ∘ recAt feed) = id := by
    funext k; rfl
  rw [this, List.map_id]

theorem stopsAt_of_complete (feed : List Passenger) (k : Nat)
    (h : allProcessingComplete (simAt feed (k + 1)) feed = true) : stopsAt feed k = true := by
  simp [stopsAt, h]

/-- The completion message names the last tick of the run, and is printed exactly when the
state after that tick satisfies the completion condition. -/
theorem endedAt_eq_some_iff (feed : List Passenger) (fuel : Nat) (o : Outcome)
    (hrun : runSimulation feed fuel = some o) (T : Nat) :
    o.endedAt = some T ↔
      T = lastTick feed ∧ allProcessingComplete (simAt feed (T + 1)) feed = true := by
  rw [runSimulation_some feed fuel o hrun]
  unfold outcomeAt
  by_cases hc : allProcessingComplete (simAt feed (lastTick feed + 1)) feed = true
  · simp only [hc, if_true, Option.some.injEq]
    constructor
    · intro h; subst h; exact ⟨rfl, hc⟩
    · intro h; exact h.1.symm
  · simp only [hc]
    constructor
    · intro h; simp at h
    · rintro ⟨h1, h2⟩; subst h1; exact absurd h2 hc

/-- A run none of whose rows satisfies the completion condition has exactly the rows of
ticks 0 to 1001 and ends with the warning and without the completion message. -/
theorem run_of_never_complete (feed : List Passenger) (fuel : Nat) (o : Outcome)
    (hrun : runSimulation feed fuel = some o)
    (hnever : ∀ rec, rec ∈ o.trace → allProcessingComplete rec.state feed = false) :
    o.trace.map TickRecord.timeInstance = List.range 1002 ∧ o.trace.length = 1002 ∧
      o.warned = true ∧ o.endedAt = none := by
  have hlastrow := hnever _ (recAt_mem_trace feed fuel o hrun (lastTick feed) (le_refl _))
  rw [recAt_state_eq] at hlastrow
  have hstop := stopsAt_lastTick feed
  have hle := lastTick_le feed
  have hlast : lastTick feed = 1001 := by
    unfold stopsAt at hstop
    rw [hlastrow] at hstop
    simp only [Bool.false_or, decide_eq_true_eq] at hstop
    omega
  have ho := runSimulation_some feed fuel o hrun
  have hticks : o.trace.map TickRecord.timeInstance = List.range (lastTick feed + 1) := by
    rw [ho]; exact outcomeAt_trace_ticks feed _
  have hlen : o.trace.length = lastTick feed + 1 := by
    have := congrArg List.length hticks
    simpa using this
  refine ⟨by rw [hticks, hlast], by rw [hlen, hlast], ?_, ?_⟩
  · rw [ho]; simp [outcomeAt, hlast]
  · rw [ho]; simp [outcomeAt, hlastrow]

/-- Until its first record is due, the simulation stays in the initial state. -/
theorem simAt_idle (p : Passenger) (rest : List Passenger) (a : Nat)
    (hp : (a : Int) ≤ p.arrivalTime) : ∀ k, k ≤ a → simAt (p :: rest) k = initialState := by
  intro k hk
  have := simAt_append_blocked [] p rest a (fun t ht => by omega) k hk
  rw [List.nil_append] at this
  rw [this, simAt_nil]

/-- The run on a feed whose first record is due after tick 1001. -/
theorem run_of_late_feed (p : Passenger) (rest : List Passenger) (n : Nat) (hn : n = 1001)
    (hp : ((n + 1 : Nat) : Int) ≤ p.arrivalTime) :
    runSimulation (p :: rest) (n + 1) = some (outcomeAt (p :: rest) n) ∧
      ∀ rec, rec ∈ (outcomeAt (p :: rest) n).trace →
        allProcessingComplete rec.state (p :: rest) = false := by
  have hidle : ∀ k, k ≤ n →
      allProcessingComplete (simAt (p :: rest) (k + 1)) (p :: rest) = false := by
    intro k hk
    rw [simAt_idle p rest (n + 1) hp (k + 1) (by omega)]
    simp [allProcessingComplete, initialState]
  have hlast : lastTick (p :: rest) = n := by
    apply le_antisymm (by rw [hn]; exact lastTick_le _)
    apply le_lastTick_of_not_stopsAt
    intro k hk
    unfold stopsAt
    rw [hidle k (by omega)]
    simp
    omega
  have hrun := runSimulation_eq (p :: rest) (n + 1) (by omega)
  rw [hlast] at hrun
  refine ⟨hrun, ?_⟩
  intro rec hrec
  rw [mem_trace_outcomeAt] at hrec
  obtain ⟨k, hk, rfl⟩ := hrec
  rw [recAt_state_eq]
  exact hidle k hk

theorem dispatch_route (R : Route) (feed : List Passenger) (t : Nat) (s : SimState) :
    R.state (dispatch feed t s).1
        = pushAll (R.state s)
            ((consumedAt feed t s).filter (fun p => decide (p.routeType = R.label))) ∧
      (dispatch feed t s).1.arrivalTracker = s.arrivalTracker + (consumedAt feed t s).length ∧
      (dispatch feed t s).2 = consumedAt feed t s := by
  unfold dispatch consumedAt
  rw [dispatchLoop_eq]
  cases R <;> exact ⟨rfl, rfl, by simp⟩

theorem take_cursor_consumed (feed : List Passenger) (t : Nat) (s : SimState) :
    feed.take (s.arrivalTracker + (consumedAt feed t s).length)
      = feed.take s.arrivalTracker ++ consumedAt feed t s := by
  rw [List.take_add]
  congr 1
  unfold consumedAt
  exact (List.prefix_iff_eq_take.mp (List.takeWhile_prefix _)).symm

theorem completedNow_resetOnDeparture (r : TaxiRouteState) :
    completedNow (resetOnDeparture r) = completedNow r := by
  obtain ⟨_, h2, h3, h4, _⟩ := resetOnDeparture_frame r
  unfold completedNow
  rw [h2, h3, h4]

theorem boardingSlot_resetOnDeparture (r : TaxiRouteState) :
    boardingSlot (resetOnDeparture r) = boardingSlot r := by
  obtain ⟨_, h2, _, h4, _⟩ := resetOnDeparture_frame r
  unfold boardingSlot
  rw [h2, h4]

theorem advanceBoarding_slot (r : TaxiRouteState) :
    completedNow r ++ boardingSlot (advanceBoarding r) = boardingSlot r ∧
      (advanceBoarding r).passengerQueue = r.passengerQueue ∧
      (advanceBoarding r).onBoardList = r.onBoardList ++ completedNow r := by
  obtain ⟨q, ob, b, tm, cur, cap, st⟩ := r
  unfold advanceBoarding completedNow boardingSlot
  cases b with
  | false => simp
  | true =>
    by_cases htm : wrapInt (tm - 1) ≤ 0
    · by_cases hc : cap - 1 ≤ 0 <;> simp [htm, hc]
    · simp [htm]

theorem startNextBoarding_slot (r : TaxiRouteState) :
    boardingSlot (startNextBoarding r) ++ (startNextBoarding r).passengerQueue
      = boardingSlot r ++ r.passengerQueue := by
  unfold startNextBoarding
  by_cases hg : canStartBoarding r = true
  · rw [if_pos hg]
    have hb : r.isBoarding = false := by
      simp only [canStartBoarding, Bool.and_eq_true, Bool.not_eq_true'] at hg
      exact hg.1.1.1.1
    cases hq : r.passengerQueue with
    | nil => simp [hq]
    | cons p rest => simp [boardingSlot, hb]
  · rw [if_neg hg]

/-- One call of `processTaxiRoute` keeps the order of a route's passengers: what it
completes, followed by the slot and the queue afterwards, is the slot and the queue
before. -/
theorem processTaxiRoute_fifo (r : TaxiRouteState) (c : Char) :
    completedNow r ++ boardingSlot (processTaxiRoute r c)
        ++ (processTaxiRoute r c).passengerQueue
      = boardingSlot r ++ r.passengerQueue := by
  unfold processTaxiRoute
  rw [List.append_assoc, startNextBoarding_slot, ← List.append_assoc]
  obtain ⟨h1, h2, _⟩ := advanceBoarding_slot (resetOnDeparture r)
  rw [completedNow_resetOnDeparture] at h1
  rw [h1, h2, boardingSlot_resetOnDeparture, (resetOnDeparture_frame r).2.2.2.2]

theorem processTaxiRoute_onBoardList (r : TaxiRouteState) (c : Char) :
    (processTaxiRoute r c).onBoardList = (resetOnDeparture r).onBoardList ++ completedNow r := by
  unfold processTaxiRoute
  rw [(startNextBoarding_frame _).2.1, (advanceBoarding_slot _).2.2,
    completedNow_resetOnDeparture]

theorem simAt_succ_arrivalTracker (feed : List Passenger) (n : Nat) :
    (simAt feed (n + 1)).arrivalTracker
      = (simAt feed n).arrivalTracker + (consumedAt feed n (simAt feed n)).length := by
  rw [simAt_succ, processAllRoutes_arrivalTracker]
  exact (dispatch_route Route.S feed n (simAt feed n)).2.1

theorem dispatchedTo_succ (R : Route) (feed : List Passenger) (n : Nat) :
    dispatchedTo R feed (n + 1)
      = dispatchedTo R feed n
        ++ (consumedAt feed n (simAt feed n)).filter (fun p => decide (p.routeType = R.label)) := by
  unfold dispatchedTo
  rw [simAt_succ_arrivalTracker, take_cursor_consumed, List.filter_append]

theorem boardingSlot_pushAll (r : TaxiRouteState) (q : List Passenger) :
    boardingSlot (pushAll r q) = boardingSlot r := rfl

/-- Order of a route's passengers: those that have completed boarding, then the one in
the slot, then the queue, are the route's dispatched passengers in feed order. -/
theorem fifo_simAt (R : Route) (feed : List Passenger) :
    ∀ n, boardedBy R feed n ++ boardingSlot (R.state (simAt feed n))
        ++ (R.state (simAt feed n)).passengerQueue = dispatchedTo R feed n
  | 0 => by cases R <;> rfl
  | n + 1 => by
    have ih := fifo_simAt R feed n
    rw [dispatchedTo_succ, ← ih, route_state_succ]
    have hd := (dispatch_route R feed n (simAt feed n)).1
    have hf := processTaxiRoute_fifo (R.state (dispatch feed n (simAt feed n)).1) R.label
    show boardedBy R feed n ++ completedNow (R.state (dispatch feed n (simAt feed n)).1)
        ++ boardingSlot (processTaxiRoute (R.state (dispatch feed n (simAt feed n)).1) R.label)
        ++ (processTaxiRoute (R.state (dispatch feed n (simAt feed n)).1) R.label).passengerQueue
      = _
    rw [List.append_assoc (boardedBy R feed n), List.append_assoc (boardedBy R feed n), hf, hd,
      boardingSlot_pushAll]
    simp [pushAll, List.append_assoc]

/-- The onboard list is the tail end of the completed boardings: what came before it has
left with an earlier vehicle. -/
theorem onBoardList_suffix_boardedBy (R : Route) (feed : List Passenger) :
    ∀ n, ∃ departed, boardedBy R feed n = departed ++ (R.state (simAt feed n)).onBoardList
  | 0 => ⟨[], by cases R <;> rfl⟩
  | n + 1 => by
    obtain ⟨dep, ih⟩ := onBoardList_suffix_boardedBy R feed n
    rw [route_state_succ, processTaxiRoute_onBoardList]
    have hd := (dispatch_route R feed n (simAt feed n)).1
    show ∃ departed, boardedBy R feed n ++ completedNow (R.state (dispatch feed n (simAt feed n)).1)
      = departed ++ ((resetOnDeparture (R.state (dispatch feed n (simAt feed n)).1)).onBoardList
        ++ completedNow (R.state (dispatch feed n (simAt feed n)).1))
    have hob : (R.state (dispatch feed n (simAt feed n)).1).onBoardList
        = (R.state (simAt feed n)).onBoardList := by rw [hd]; rfl
    unfold resetOnDeparture
    split_ifs
    · exact ⟨boardedBy R feed n, by simp⟩
    · exact ⟨dep, by rw [hob, ih, List.append_assoc]⟩

theorem mem_dispatchedTo_tag (R : Route) (feed : List Passenger) (n : Nat) (p : Passenger)
    (h : p ∈ dispatchedTo R feed n) : p.routeType = R.label := by
  unfold dispatchedTo at h
  simpa using (List.mem_filter.mp h).2

theorem label_known (R : Route) : R.label = 'S' ∨ R.label = 'L' ∨ R.label = 'C' := by
  cases R <;> simp [Route.label]

theorem places_subset_dispatchedTo (R : Route) (feed : List Passenger) (n : Nat)
    (p : Passenger)
    (h : p ∈ (R.state (simAt feed n)).onBoardList ∨ p ∈ boardingSlot (R.state (simAt feed n)) ∨
      p ∈ (R.state (simAt feed n)).passengerQueue ∨ p ∈ boardedBy R feed n) :
    p ∈ dispatchedTo R feed n := by
  rw [← fifo_simAt R feed n]
  obtain ⟨dep, hdep⟩ := onBoardList_suffix_boardedBy R feed n
  simp only [List.mem_append]
  rcases h with h | h | h | h
  · left; left; rw [hdep]; exact List.mem_append_right _ h
  · left; right; exact h
  · right; exact h
  · left; left; exact h

theorem boardingSlot_prefix_step (r : TaxiRouteState) (c : Char) :
    boardingSlot r <+: completedNow r ++ boardingSlot (processTaxiRoute r c) := by
  unfold processTaxiRoute
  have h1 := (advanceBoarding_slot (resetOnDeparture r)).1
  rw [completedNow_resetOnDeparture, boardingSlot_resetOnDeparture] at h1
  have h2 : boardingSlot (advanceBoarding (resetOnDeparture r))
      <+: boardingSlot (startNextBoarding (advanceBoarding (resetOnDeparture r))) := by
    generalize advanceBoarding (resetOnDeparture r) = x
    unfold startNextBoarding
    by_cases hg : canStartBoarding x = true
    · rw [if_pos hg]
      have hb : x.isBoarding = false := by
        simp only [canStartBoarding, Bool.and_eq_true, Bool.not_eq_true'] at hg
        exact hg.1.1.1.1
      have : boardingSlot x = [] := by simp [boardingSlot, hb]
      rw [this]
      exact List.nil_prefix
    · rw [if_neg hg]
  rw [← h1]
  exact (List.prefix_append_right_inj _).mpr h2

theorem routeInv_route (R : Route) (s : SimState) (h : SimInv s) : RouteInv (R.state s) := by
  cases R
  · exact h.1
  · exact h.2.1
  · exact h.2.2

theorem timerInv_resetOnDeparture (m : Int) (r : TaxiRouteState) (h : TimerInv m r) :
    TimerInv m (resetOnDeparture r) := by
  unfold resetOnDeparture
  split_ifs
  · exact h
  · exact h

theorem timerInv_advanceBoarding (m : Int) (hm0 : 0 ≤ m) (hm1 : m ≤ 1) (r : TaxiRouteState)
    (h : TimerInv m r) : TimerInv m (advanceBoarding r) := by
  obtain ⟨q, ob, b, tm, cur, cap, st⟩ := r
  obtain ⟨h1, h2, h3, h4⟩ := h
  simp only at h1 h2 h3 h4
  unfold advanceBoarding
  cases b with
  | false => exact ⟨h1, h2, h3, h4⟩
  | true =>
    have hb := h3 rfl
    have hw : wrapInt (tm - 1) = tm - 1 :=
      wrapInt_of_inRange _ (by unfold INT_MIN; omega) (by omega)
    simp only [if_true, hw]
    by_cases htm : tm - 1 ≤ 0
    · simp only [htm, if_true]
      by_cases hc : cap - 1 ≤ 0
      · simp only [hc, if_true]
        exact ⟨by simp only; omega, by simp only; omega, by simp, h4⟩
      · simp only [hc, if_false]
        exact ⟨by simp only; omega, by simp only; omega, by simp, h4⟩
    · simp only [htm, if_false]
      exact ⟨by simp only; omega, by simp only; omega, fun _ => by simp only; omega, h4⟩

theorem timerInv_startNextBoarding (m : Int) (r : TaxiRouteState)
    (h : TimerInv m r) : TimerInv m (startNextBoarding r) := by
  obtain ⟨h1, h2, h3, h4⟩ := h
  unfold startNextBoarding
  split_ifs
  · cases hq : r.passengerQueue with
    | nil => simp only; exact ⟨h1, h2, h3, h4⟩
    | cons p rest =>
      have hp := h4 p (by rw [hq]; exact List.mem_cons_self _ _)
      refine ⟨by simp only; omega, hp.2, fun _ => hp.1, ?_⟩
      intro x hx
      exact h4 x (by rw [hq]; exact List.mem_cons_of_mem _ hx)
  · exact ⟨h1, h2, h3, h4⟩

theorem timerInv_pushAll (m : Int) (r : TaxiRouteState) (ps : List Passenger)
    (h : TimerInv m r) (hps : ∀ p, p ∈ ps → m ≤ p.boardingTime ∧ p.boardingTime ≤ INT_MAX) :
    TimerInv m (pushAll r ps) := by
  obtain ⟨h1, h2, h3, h4⟩ := h
  refine ⟨h1, h2, h3, ?_⟩
  intro p hp
  simp only [pushAll, List.mem_append] at hp
  rcases hp with hp | hp
  · exact h4 p hp
  · exact hps p hp

theorem consumedAt_subset (feed : List Passenger) (t : Nat) (s : SimState) (p : Passenger)
    (h : p ∈ consumedAt feed t s) : p ∈ feed := by
  unfold consumedAt at h
  exact List.mem_of_mem_drop ((List.takeWhile_sublist _).subset h)

theorem timerInv_simAt (m : Int) (hm0 : 0 ≤ m) (hm1 : m ≤ 1) (feed : List Passenger)
    (hfeed : ∀ p, p ∈ feed → m ≤ p.boardingTime ∧ p.boardingTime ≤ INT_MAX) (R : Route) :
    ∀ n, TimerInv m (R.state (simAt feed n))
  | 0 => by
    have : R.state (simAt feed 0) = initialTaxi := by cases R <;> rfl
    rw [this]
    refine ⟨?_, ?_, ?_, ?_⟩
    · simp only [initialTaxi]; omega
    · simp only [initialTaxi]; decide
    · intro h; simp [initialTaxi] at h
    · intro p hp; simp [initialTaxi] at hp
  | n + 1 => by
    have ih := timerInv_simAt m hm0 hm1 feed hfeed R n
    rw [route_state_succ, (dispatch_route R feed n (simAt feed n)).1]
    unfold processTaxiRoute
    apply timerInv_startNextBoarding m
    apply timerInv_advanceBoarding m hm0 hm1
    apply timerInv_resetOnDeparture
    apply timerInv_pushAll m _ _ ih
    intro p hp
    exact hfeed p (consumedAt_subset feed n _ p (List.mem_of_mem_filter hp))

theorem sorted_takeWhile_eq_filter (n : Int) :
    ∀ l : List Passenger, l.Pairwise (fun a b => a.arrivalTime ≤ b.arrivalTime) →
      (∀ p, p ∈ l → n ≤ p.arrivalTime) →
      l.takeWhile (fun p => decide (p.arrivalTime = n))
          = l.filter (fun p => decide (p.arrivalTime = n)) ∧
        ∀ p, p ∈ l.drop (l.takeWhile (fun p => decide (p.arrivalTime = n))).length →
          n < p.arrivalTime := by
  intro l
  induction l with
  | nil => intro _ _; simp
  | cons q rest ih =>
    intro hs hge
    rw [List.pairwise_cons] at hs
    obtain ⟨hq, hrest⟩ := hs
    have hge' : ∀ p, p ∈ rest → n ≤ p.arrivalTime :=
      fun p hp => hge p (List.mem_cons_of_mem _ hp)
    by_cases he : q.arrivalTime = n
    · obtain ⟨i1, i2⟩ := ih hrest hge'
      simp only [List.takeWhile_cons, he, decide_True, if_true, List.filter_cons,
        List.length_cons, List.drop_succ_cons]
      exact ⟨by rw [i1], i2⟩
    · have hlt : n < q.arrivalTime := lt_of_le_of_ne (hge q (List.mem_cons_self _ _)) (Ne.symm he)
      have hnone : rest.filter (fun p => decide (p.arrivalTime = n)) = [] := by
        rw [List.filter_eq_nil_iff]
        intro p hp
        have := hq p hp
        simp only [decide_eq_true_eq]
        omega
      simp only [List.takeWhile_cons, he, decide_False, List.filter_cons, hnone,
        List.length_nil, List.drop_zero]
      refine ⟨by simp, ?_⟩
      intro p hp
      rcases List.mem_cons.mp hp with h | h
      · rw [h]; exact hlt
      · have := hq p h; omega

/-- On a sorted feed of non-negative arrival times, before tick `n` the cursor separates
the records due before `n` from those due at `n` or later. -/
theorem cursor_splits_sorted (feed : List Passenger) (hs : SortedByArrival feed)
    (hnn : ∀ p, p ∈ feed → 0 ≤ p.arrivalTime) :
    ∀ n : Nat, (∀ p, p ∈ feed.take (simAt feed n).arrivalTracker → p.arrivalTime < (n : Int)) ∧
      (∀ p, p ∈ feed.drop (simAt feed n).arrivalTracker → (n : Int) ≤ p.arrivalTime)
  | 0 => by
    constructor
    · intro p hp; simp [simAt, initialState] at hp
    · intro p hp
      have := hnn p (List.mem_of_mem_drop hp)
      simpa using this
  | n + 1 => by
    obtain ⟨ih1, ih2⟩ := cursor_splits_sorted feed hs hnn n
    have hsd : (feed.drop (simAt feed n).arrivalTracker).Pairwise
        (fun a b => a.arrivalTime ≤ b.arrivalTime) :=
      List.Pairwise.sublist (List.drop_sublist _ _) hs
    obtain ⟨_, k2⟩ := sorted_takeWhile_eq_filter (n : Int) _ hsd ih2
    rw [simAt_succ_arrivalTracker]
    constructor
    · intro p hp
      rw [take_cursor_consumed, List.mem_append] at hp
      rcases hp with hp | hp
      · have := ih1 p hp; push_cast; omega
      · unfold consumedAt at hp
        have := (List.mem_takeWhile_imp hp)
        simp only [decide_eq_true_eq] at this
        push_cast; omega
    · intro p hp
      rw [← List.drop_drop] at hp
      have := k2 p hp
      push_cast; omega

theorem consumedAt_sorted (feed : List Passenger) (hs : SortedByArrival feed)
    (hnn : ∀ p, p ∈ feed → 0 ≤ p.arrivalTime) (n : Nat) :
    consumedAt feed n (simAt feed n) = dueAt feed n := by
  obtain ⟨h1, h2⟩ := cursor_splits_sorted feed hs hnn n
  have hsd : (feed.drop (simAt feed n).arrivalTracker).Pairwise
      (fun a b => a.arrivalTime ≤ b.arrivalTime) :=
    List.Pairwise.sublist (List.drop_sublist _ _) hs
  obtain ⟨k1, _⟩ := sorted_takeWhile_eq_filter (n : Int) _ hsd h2
  unfold consumedAt dueAt
  rw [k1]
  conv_rhs => rw [← List.take_append_drop (simAt feed n).arrivalTracker feed]
  rw [List.filter_append]
  have : (feed.take (simAt feed n).arrivalTracker).filter
      (fun p => decide (p.arrivalTime = (n : Int))) = [] := by
    rw [List.filter_eq_nil_iff]
    intro p hp
    have := h1 p hp
    simp only [decide_eq_true_eq]
    omega
  rw [this, List.nil_append]

theorem dispatch_cursor_eq_simAt_succ (feed : List Passenger) (n : Nat) :
    (dispatch feed n (simAt feed n)).1.arrivalTracker = (simAt feed (n + 1)).arrivalTracker := by
  rw [simAt_succ, processAllRoutes_arrivalTracker]

theorem processTaxiRoute_initialTaxi (R : Route) :
    processTaxiRoute initialTaxi R.label = initialTaxi := by
  cases R <;> decide

theorem routes_initial_of_unroutable (feed : List Passenger)
    (htag : ∀ p, p ∈ feed → p.routeType ≠ 'S' ∧ p.routeType ≠ 'L' ∧ p.routeType ≠ 'C')
    (R : Route) : ∀ n, R.state (simAt feed n) = initialTaxi
  | 0 => by cases R <;> rfl
  | n + 1 => by
    rw [route_state_succ, (dispatch_route R feed n (simAt feed n)).1,
      routes_initial_of_unroutable feed htag R n]
    have : (consumedAt feed n (simAt feed n)).filter
        (fun p => decide (p.routeType = R.label)) = [] := by
      rw [List.filter_eq_nil_iff]
      intro p hp
      obtain ⟨h1, h2, h3⟩ := htag p (consumedAt_subset feed n _ p hp)
      simp only [decide_eq_true_eq]
      rcases label_known R with hl | hl | hl <;> rw [hl]
      · exact h1
      · exact h2
      · exact h3
    rw [this, pushAll_nil, processTaxiRoute_initialTaxi]

theorem allProcessingComplete_of_routes_initial (feed : List Passenger) (s : SimState)
    (h : ∀ R : Route, R.state s = initialTaxi) :
    allProcessingComplete s feed = decide (feed.length ≤ s.arrivalTracker) := by
  have hS : s.shortTaxi = initialTaxi := h Route.S
  have hL : s.longTaxi = initialTaxi := h Route.L
  have hC : s.cityTaxi = initialTaxi := h Route.C
  unfold allProcessingComplete
  rw [hS, hL, hC]
  simp [initialTaxi]

theorem sorted_le_getLast (feed : List Passenger) (hne : feed ≠ [])
    (hs : SortedByArrival feed) (p : Passenger) (hp : p ∈ feed) :
    p.arrivalTime ≤ (feed.getLast hne).arrivalTime := by
  unfold SortedByArrival at hs
  rw [← List.dropLast_append_getLast hne, List.pairwise_append] at hs
  rw [← List.dropLast_append_getLast hne, List.mem_append] at hp
  rcases hp with hp | hp
  · exact hs.2.2 p hp _ (List.mem_singleton_self _)
  · rw [List.mem_singleton] at hp
    rw [hp]

/-- On a sorted feed of non-negative arrival times the cursor has passed the whole feed
after tick `k` exactly when the last record is due at `k` or earlier. -/
theorem cursor_past_feed_iff (feed : List Passenger) (hne : feed ≠ [])
    (hs : SortedByArrival feed) (hnn : ∀ p, p ∈ feed → 0 ≤ p.arrivalTime) (k : Nat) :
    feed.length ≤ (simAt feed (k + 1)).arrivalTracker
      ↔ (feed.getLast hne).arrivalTime ≤ (k : Int) := by
  obtain ⟨h1, h2⟩ := cursor_splits_sorted feed hs hnn (k + 1)
  constructor
  · intro hlen
    have hall : feed.take (simAt feed (k + 1)).arrivalTracker = feed := List.take_of_length_le hlen
    have := h1 (feed.getLast hne) (by rw [hall]; exact List.getLast_mem hne)
    push_cast at this
    omega
  · intro hlast
    rw [← List.drop_eq_nil_iff]
    rw [List.eq_nil_iff_forall_not_mem]
    intro p hp
    have := h2 p hp
    have := sorted_le_getLast feed hne hs p (List.mem_of_mem_drop hp)
    push_cast at *
    omega

/-- The run on a non-empty sorted feed of unroutable records due at ticks 0 to 1000: it
stops at the tick `a` at which the last record is due. -/
theorem run_of_unroutable_feed (feed : List Passenger) (hne : feed ≠ [])
    (hs : SortedByArrival feed)
    (hrange : ∀ p, p ∈ feed → 0 ≤ p.arrivalTime ∧ p.arrivalTime ≤ 1000)
    (htag : ∀ p, p ∈ feed → p.routeType ≠ 'S' ∧ p.routeType ≠ 'L' ∧ p.routeType ≠ 'C')
    (a : Nat) (ha : (a : Int) = (feed.getLast hne).arrivalTime) :
    lastTick feed = a ∧ allProcessingComplete (simAt feed (a + 1)) feed = true ∧ a ≤ 1000 := by
  have hnn : ∀ p, p ∈ feed → 0 ≤ p.arrivalTime := fun p hp => (hrange p hp).1
  have ha1000 : a ≤ 1000 := by
    have := (hrange _ (List.getLast_mem hne)).2
    omega
  have hcomplete : ∀ k, allProcessingComplete (simAt feed (k + 1)) feed
      = decide ((feed.getLast hne).arrivalTime ≤ (k : Int)) := by
    intro k
    rw [allProcessingComplete_of_routes_initial feed _
      (fun R => routes_initial_of_unroutable feed htag R (k + 1))]
    exact decide_eq_decide.mpr (cursor_past_feed_iff feed hne hs hnn k)
  have hca : allProcessingComplete (simAt feed (a + 1)) feed = true := by
    rw [hcomplete a, ← ha]; simp
  refine ⟨le_antisymm ?_ ?_, hca, ha1000⟩
  · exact Nat.find_min' _ (stopsAt_of_complete feed a hca)
  · apply le_lastTick_of_not_stopsAt
    intro k hk
    unfold stopsAt
    rw [hcomplete k, ← ha]
    have h1 : ¬ ((a : Int) ≤ (k : Int)) := by omega
    have h2 : ¬ k > 1000 := by omega
    simp [h1, h2]

theorem dueAt_filter_tag (feed : List Passenger) (n : Nat) (c : Char) :
    (dueAt feed n).filter (fun p => decide (p.routeType = c))
      = dueAt (feed.filter (fun p => decide (p.routeType = c))) n := by
  unfold dueAt
  rw [List.filter_filter, List.filter_filter]
  congr 1
  funext p
  exact Bool.and_comm _ _

/-- On sorted feeds of non-negative arrival times a route's state after `n` ticks is
determined by the feed's records that carry the route's tag. -/
theorem route_state_of_own_records (R : Route) (feed1 feed2 : List Passenger)
    (hs1 : SortedByArrival feed1) (hs2 : SortedByArrival feed2)
    (hnn1 : ∀ p, p ∈ feed1 → 0 ≤ p.arrivalTime) (hnn2 : ∀ p, p ∈ feed2 → 0 ≤ p.arrivalTime)
    (hsame : feed1.filter (fun p => decide (p.routeType = R.label))
      = feed2.filter (fun p => decide (p.routeType = R.label))) :
    ∀ n, R.state (simAt feed1 n) = R.state (simAt feed2 n)
  | 0 => by cases R <;> rfl
  | n + 1 => by
    have ih := route_state_of_own_records R feed1 feed2 hs1 hs2 hnn1 hnn2 hsame n
    rw [route_state_succ, route_state_succ,
      (dispatch_route R feed1 n (simAt feed1 n)).1, (dispatch_route R feed2 n (simAt feed2 n)).1,
      consumedAt_sorted feed1 hs1 hnn1 n, consumedAt_sorted feed2 hs2 hnn2 n,
      dueAt_filter_tag, dueAt_filter_tag, hsame, ih]

theorem lastTick_nil : lastTick [] = 0 := by
  apply Nat.le_zero.mp
  apply Nat.find_min'
  decide

theorem processTaxiRoute_idle (r : TaxiRouteState) (c : Char) (hq : r.passengerQueue = [])
    (hb : r.isBoarding = false) (hs : r.status ≠ Status.Departed) :
    processTaxiRoute r c = r := by
  obtain ⟨q, ob, b, tm, cur, cap, st⟩ := r
  simp only at hq hb hs
  subst hq hb
  simp [processTaxiRoute, resetOnDeparture, hs, advanceBoarding, startNextBoarding,
    canStartBoarding]

theorem processTaxiRoute_start (r : TaxiRouteState) (c : Char) (hb : r.isBoarding = false)
    (p : Passenger) (rest : List Passenger) (hq : r.passengerQueue = p :: rest)
    (hc : 0 < r.currentCapacity) (hs : r.status ≠ Status.Departed) :
    processTaxiRoute r c =
      { r with currentBoardingPassenger := p, passengerQueue := rest,
               boardingTimer := p.boardingTime, isBoarding := true } := by
  obtain ⟨q, ob, b, tm, cur, cap, st⟩ := r
  simp only at hq hb hs hc
  subst hq hb
  simp [processTaxiRoute, resetOnDeparture, hs, advanceBoarding, startNextBoarding,
    canStartBoarding, hc]

theorem processTaxiRoute_last_seat (r : TaxiRouteState) (c : Char) (hb : r.isBoarding = true)
    (hmin : INT_MIN < r.boardingTimer) (h1 : r.boardingTimer ≤ 1)
    (hc : r.currentCapacity = 1) (hs : r.status ≠ Status.Departed) :
    processTaxiRoute r c =
      { r with boardingTimer := r.boardingTimer - 1,
               onBoardList := r.onBoardList ++ [r.currentBoardingPassenger],
               currentCapacity := 0, status := Status.Departed, isBoarding := false } := by
  obtain ⟨q, ob, b, tm, cur, cap, st⟩ := r
  simp only at hb hmin h1 hc hs
  subst hb hc
  have hw : wrapInt (tm - 1) = tm - 1 :=
    wrapInt_of_inRange _ (by unfold INT_MIN at *; omega) (by unfold INT_MAX; omega)
  have hle : tm - 1 ≤ 0 := by omega
  simp [processTaxiRoute, resetOnDeparture, hs, advanceBoarding, hw, hle, startNextBoarding,
    canStartBoarding]

theorem continuedFeed_departed :
    (Route.S.state (dispatch continuedFeed 6 (simAt continuedFeed 6)).1).status
      = Status.Departed := by decide

theorem continuedFeed_queue :
    (Route.S.state (dispatch continuedFeed 6 (simAt continuedFeed 6)).1).passengerQueue
      = [⟨'S', 1, 6⟩] := by decide

theorem step_countdown (onb : List Passenger) (p : Passenger) (τ : Int) (q : List Passenger)
    (st : Status) (c : Char) (hst : st ≠ Status.Departed) (h2 : 2 ≤ τ) (hmax : τ ≤ INT_MAX) :
    processTaxiRoute (boardingState onb p τ q st) c = boardingState onb p (τ - 1) q st := by
  have := processTaxiRoute_boarding_continue (boardingState onb p τ q st) [] c rfl hst h2 hmax
  rw [pushAll_nil] at this
  rw [this]
  rfl

theorem step_complete_next (onb : List Passenger) (p : Passenger) (q : List Passenger)
    (p2 : Passenger) (st : Status) (c : Char) (hst : st ≠ Status.Departed)
    (hlen : onb.length ≤ 3) :
    processTaxiRoute (boardingState onb p 1 (p2 :: q) st) c
      = boardingState (onb ++ [p]) p2 p2.boardingTime q Status.Board := by
  have hw : wrapInt (1 - 1) = 0 := by decide
  have hc : ¬ (TAXI_CAPACITY - (onb.length : Int) - 1 ≤ 0) := by
    unfold TAXI_CAPACITY; omega
  have hc2 : (0 : Int) < TAXI_CAPACITY - (onb.length : Int) - 1 := by
    unfold TAXI_CAPACITY; omega
  simp only [processTaxiRoute, boardingState, resetOnDeparture, hst, if_false, advanceBoarding,
    if_true, hw, le_refl, hc, startNextBoarding, canStartBoarding]
  simp [hc2]
  omega

theorem step_complete_idle (onb : List Passenger) (p : Passenger) (st : Status) (c : Char)
    (hst : st ≠ Status.Departed) (hlen : onb.length ≤ 3) :
    (processTaxiRoute (boardingState onb p 1 [] st) c).isBoarding = false ∧
      (processTaxiRoute (boardingState onb p 1 [] st) c).passengerQueue = [] := by
  have hw : wrapInt (1 - 1) = 0 := by decide
  have hc : ¬ (TAXI_CAPACITY - (onb.length : Int) - 1 ≤ 0) := by
    unfold TAXI_CAPACITY; omega
  have hw0 : wrapInt 0 = 0 := by decide
  simp [processTaxiRoute, boardingState, resetOnDeparture, hst, advanceBoarding,
    hw, hw0, hc, startNextBoarding, canStartBoarding]

theorem step_complete_full (onb : List Passenger) (p : Passenger) (q : List Passenger)
    (st : Status) (c : Char) (hst : st ≠ Status.Departed) (hlen : onb.length = 4) :
    processTaxiRoute (boardingState onb p 1 q st) c
      = { passengerQueue := q, onBoardList := onb ++ [p], isBoarding := false,
          boardingTimer := 0, currentBoardingPassenger := p, currentCapacity := 0,
          status := Status.Departed } := by
  have hmin : INT_MIN < (boardingState onb p 1 q st).boardingTimer := by
    show INT_MIN < 1
    decide
  have h := processTaxiRoute_last_seat (boardingState onb p 1 q st) c rfl hmin
    (le_refl _) (by simp [boardingState, TAXI_CAPACITY, hlen]) hst
  rw [h]
  rfl

theorem step_reset_next (onb : List Passenger) (p p2 : Passenger) (q : List Passenger)
    (τ : Int) (c : Char) :
    processTaxiRoute
        { passengerQueue := p2 :: q, onBoardList := onb, isBoarding := false,
          boardingTimer := τ, currentBoardingPassenger := p, currentCapacity := 0,
          status := Status.Departed } c
      = boardingState [] p2 p2.boardingTime q Status.Waiting := by
  simp [processTaxiRoute, boardingState, resetOnDeparture, advanceBoarding,
    startNextBoarding, canStartBoarding, TAXI_CAPACITY]

theorem step_first (p : Passenger) (q : List Passenger) (c : Char) :
    processTaxiRoute (pushAll initialTaxi (p :: q)) c
      = boardingState [] p p.boardingTime q Status.Waiting := by
  simp [processTaxiRoute, boardingState, pushAll, initialTaxi, resetOnDeparture,
    advanceBoarding, startNextBoarding, canStartBoarding, TAXI_CAPACITY]

theorem completionTick_eq (F : List Passenger) (j : Nat) (p : Passenger)
    (hp : F[j]? = some p) :
    completionTick F j = startTick F j + p.boardingTime.toNat := by
  obtain ⟨hj, hpj⟩ := List.getElem?_eq_some_iff.mp hp
  unfold completionTick startTick
  have hlen : j < (boardingTimes F).length := by simpa [boardingTimes] using hj
  rw [List.sum_take_succ _ _ hlen]
  have : (boardingTimes F)[j] = p.boardingTime.toNat := by
    simp [boardingTimes, hpj]
  rw [this]
  omega

theorem startTick_succ (F : List Passenger) (j : Nat) :
    startTick F (j + 1) = completionTick F j + (if j % 5 = 4 then 1 else 0) := by
  unfold completionTick startTick
  split_ifs with h <;> omega

theorem countdown_states (g : Nat → TaxiRouteState) (c : Char)
    (hgs : ∀ m, 1 ≤ m → g (m + 1) = processTaxiRoute (g m) c)
    (m : Nat) (hm : 1 ≤ m) (onb : List Passenger) (p : Passenger) (τ : Int)
    (q : List Passenger) (st : Status) (hst : st ≠ Status.Departed)
    (hmax : τ ≤ INT_MAX) (h0 : g m = boardingState onb p τ q st) :
    ∀ i : Nat, (i : Int) < τ → g (m + i) = boardingState onb p (τ - i) q st
  | 0, _ => by simpa using h0
  | i + 1, hi => by
    have ih := countdown_states g c hgs m hm onb p τ q st hst hmax h0 i (by omega)
    rw [← Nat.add_assoc, hgs (m + i) (by omega), ih,
      step_countdown _ _ _ _ _ _ hst (by push_cast at hi; omega) (by omega)]
    congr 1
    push_cast
    ring

theorem routeBusy_boardingState (onb : List Passenger) (p : Passenger) (τ : Int)
    (q : List Passenger) (st : Status) : RouteBusy (boardingState onb p τ q st) :=
  Or.inl rfl

/-- The schedule of a route that gets its whole feed `F` in tick 0 and nothing afterwards
(`g m` is the route state after `m` ticks): passenger `j` is in the boarding slot with
its full boarding time after tick `startTick F j`, and the route is busy until then. -/
theorem schedule_states (F : List Passenger) (c : Char) (g : Nat → TaxiRouteState)
    (hg1 : g 1 = processTaxiRoute (pushAll initialTaxi F) c)
    (hgs : ∀ m, 1 ≤ m → g (m + 1) = processTaxiRoute (g m) c)
    (hdur : ∀ p, p ∈ F → 1 ≤ p.boardingTime ∧ p.boardingTime ≤ INT_MAX) :
    ∀ (j : Nat) (p : Passenger), F[j]? = some p →
      ∃ onb st, onb.length = j % 5 ∧ st ≠ Status.Departed ∧
        (∀ t, t < startTick F j → RouteBusy (g (t + 1))) ∧
        g (startTick F j + 1) = boardingState onb p p.boardingTime (F.drop (j + 1)) st
  | 0, p, hp => by
    obtain ⟨hj, hpj⟩ := List.getElem?_eq_some_iff.mp hp
    have hF : F = p :: F.drop 1 := by
      cases F with
      | nil => simp at hj
      | cons a l => simp at hpj; simp [hpj]
    refine ⟨[], Status.Waiting, rfl, by decide, ?_, ?_⟩
    · intro t ht
      simp [startTick] at ht
    · have : startTick F 0 = 0 := by simp [startTick]
      rw [this, hg1]
      conv_lhs => rw [hF]
      exact step_first p _ c
  | j + 1, p2, hp2 => by
    obtain ⟨hj2, hpj2⟩ := List.getElem?_eq_some_iff.mp hp2
    have hj : j < F.length := by omega
    have hp : F[j]? = some F[j] := List.getElem?_eq_getElem hj
    obtain ⟨onb, st, hlen, hst, hbusy, hstart⟩ := schedule_states F c g hg1 hgs hdur j F[j] hp
    obtain ⟨hd1, hdmax⟩ := hdur F[j] (List.getElem_mem hj)
    have hcount := countdown_states g c hgs (startTick F j + 1) (by omega) onb F[j]
      F[j].boardingTime (F.drop (j + 1)) st hst hdmax hstart
    have hC := completionTick_eq F j F[j] hp
    have hS := startTick_succ F j
    have hdrop : F.drop (j + 1) = p2 :: F.drop (j + 1 + 1) := by
      rw [List.drop_eq_getElem_cons hj2, hpj2]
    have hnat : ((F[j].boardingTime.toNat : Nat) : Int) = F[j].boardingTime :=
      Int.toNat_of_nonneg (by omega)
    have hpos : 1 ≤ F[j].boardingTime.toNat := by omega
    -- the state before the completing tick
    have hlast : g (completionTick F j)
        = boardingState onb F[j] 1 (p2 :: F.drop (j + 1 + 1)) st := by
      have := hcount (F[j].boardingTime.toNat - 1) (by omega)
      rw [show startTick F j + 1 + (F[j].boardingTime.toNat - 1) = completionTick F j by omega]
        at this
      rw [this, hdrop]
      congr 1
      omega
    have hbusyC : ∀ t, t < completionTick F j → RouteBusy (g (t + 1)) := by
      intro t ht
      by_cases hlt : t < startTick F j
      · exact hbusy t hlt
      · have := hcount (t - startTick F j) (by omega)
        rw [show startTick F j + 1 + (t - startTick F j) = t + 1 by omega] at this
        rw [this]
        exact routeBusy_boardingState _ _ _ _ _
    have hstepC : g (completionTick F j + 1) = processTaxiRoute (g (completionTick F j)) c :=
      hgs _ (by omega)
    by_cases h4 : j % 5 = 4
    · -- the vehicle is full: it departs, and the next boarding starts one tick later
      have hfull := step_complete_full onb F[j] (p2 :: F.drop (j + 1 + 1)) st c hst
        (by omega)
      rw [← hlast, ← hstepC] at hfull
      have hnext : g (completionTick F j + 1 + 1) = _ := hgs _ (by omega)
      rw [hfull, step_reset_next] at hnext
      rw [if_pos h4] at hS
      refine ⟨[], Status.Waiting, by simp; omega, by decide, ?_, ?_⟩
      · intro t ht
        by_cases hlt : t < completionTick F j
        · exact hbusyC t hlt
        · have : t = completionTick F j := by omega
          rw [this, hfull]
          exact Or.inr (by simp)
      · rw [hS, hnext]
    · have hnext := step_complete_next onb F[j] (F.drop (j + 1 + 1)) p2 st c hst
        (by omega)
      rw [← hlast, ← hstepC] at hnext
      rw [if_neg h4] at hS
      refine ⟨onb ++ [F[j]], Status.Board, by simp; omega, by decide, ?_, ?_⟩
      · intro t ht
        exact hbusyC t (by omega)
      · rw [hS, Nat.add_zero, hnext]

theorem sorted_of_all_at_zero (F : List Passenger) (harr : ∀ p, p ∈ F → p.arrivalTime = 0) :
    SortedByArrival F ∧ ∀ p, p ∈ F → 0 ≤ p.arrivalTime := by
  constructor
  · unfold SortedByArrival
    rw [List.Pairwise.imp_mem]
    exact List.pairwise_of_forall (fun x y hx hy => by rw [harr x hx, harr y hy])
  · intro p hp
    rw [harr p hp]

theorem consumedAt_all_at_zero (F : List Passenger) (harr : ∀ p, p ∈ F → p.arrivalTime = 0)
    (m : Nat) : consumedAt F m (simAt F m) = if m = 0 then F else [] := by
  obtain ⟨hs, hnn⟩ := sorted_of_all_at_zero F harr
  rw [consumedAt_sorted F hs hnn m]
  unfold dueAt
  split_ifs with h
  · subst h
    rw [List.filter_eq_self]
    intro p hp
    simp [harr p hp]
  · rw [List.filter_eq_nil_iff]
    intro p hp
    simp [harr p hp]
    omega

theorem cursor_all_at_zero (F : List Passenger) (harr : ∀ p, p ∈ F → p.arrivalTime = 0) :
    ∀ m, (simAt F (m + 1)).arrivalTracker = F.length
  | 0 => by
    rw [simAt_succ_arrivalTracker, consumedAt_all_at_zero F harr]
    simp [simAt, initialState]
  | m + 1 => by
    rw [simAt_succ_arrivalTracker, consumedAt_all_at_zero F harr, cursor_all_at_zero F harr m]
    simp

theorem route_state_all_at_zero (R : Route) (F : List Passenger)
    (harr : ∀ p, p ∈ F → p.arrivalTime = 0) (htag : ∀ p, p ∈ F → p.routeType = R.label) :
    R.state (simAt F 1) = processTaxiRoute (pushAll initialTaxi F) R.label ∧
      (∀ m, 1 ≤ m → R.state (dispatch F m (simAt F m)).1 = R.state (simAt F m)) ∧
      ∀ m, 1 ≤ m → R.state (simAt F (m + 1)) = processTaxiRoute (R.state (simAt F m)) R.label := by
  have hd : ∀ m, 1 ≤ m → R.state (dispatch F m (simAt F m)).1 = R.state (simAt F m) := by
    intro m hm
    rw [(dispatch_route R F m (simAt F m)).1, consumedAt_all_at_zero F harr, if_neg (by omega),
      List.filter_nil, pushAll_nil]
  refine ⟨?_, hd, ?_⟩
  · rw [route_state_succ, (dispatch_route R F 0 (simAt F 0)).1, consumedAt_all_at_zero F harr,
      if_pos rfl]
    have : F.filter (fun p => decide (p.routeType = R.label)) = F := by
      rw [List.filter_eq_self]
      intro p hp
      simp [htag p hp]
    rw [this]
    cases R <;> rfl
  · intro m hm
    rw [route_state_succ, hd m hm]

theorem other_route_all_at_zero (R R2 : Route) (hne : R2 ≠ R) (F : List Passenger)
    (htag : ∀ p, p ∈ F → p.routeType = R.label) :
    ∀ m, R2.state (simAt F m) = initialTaxi
  | 0 => by cases R2 <;> rfl
  | m + 1 => by
    rw [route_state_succ, (dispatch_route R2 F m (simAt F m)).1,
      other_route_all_at_zero R R2 hne F htag m]
    have : (consumedAt F m (simAt F m)).filter
        (fun p => decide (p.routeType = R2.label)) = [] := by
      rw [List.filter_eq_nil_iff]
      intro p hp
      have := htag p (consumedAt_subset F m _ p hp)
      simp only [decide_eq_true_eq, this]
      cases R <;> cases R2 <;> simp [Route.label] at hne ⊢
    rw [this, pushAll_nil]
    exact processTaxiRoute_initialTaxi R2

theorem stopsAt_all_at_zero (R : Route) (F : List Passenger)
    (harr : ∀ p, p ∈ F → p.arrivalTime = 0) (htag : ∀ p, p ∈ F → p.routeType = R.label)
    (t : Nat) (ht : t ≤ 1000) :
    stopsAt F t = true ↔ ¬ RouteBusy (R.state (simAt F (t + 1))) := by
  have hcur := cursor_all_at_zero F harr t
  have hoth := fun R2 hne => other_route_all_at_zero R R2 hne F htag (t + 1)
  unfold stopsAt RouteBusy
  rw [Bool.or_eq_true, allProcessingComplete_iff]
  unfold WorkExhausted
  have h2 : ¬ t > 1000 := by omega
  cases R
  · have hL := hoth Route.L (by decide)
    have hC := hoth Route.C (by decide)
    simp only [Route.state] at hL hC ⊢
    simp [hcur, hL, hC, h2, initialTaxi]
    tauto
  · have hS := hoth Route.S (by decide)
    have hC := hoth Route.C (by decide)
    simp only [Route.state] at hS hC ⊢
    simp [hcur, hS, hC, h2, initialTaxi]
    tauto
  · have hS := hoth Route.S (by decide)
    have hL := hoth Route.L (by decide)
    simp only [Route.state] at hS hL ⊢
    simp [hcur, hS, hL, h2, initialTaxi]
    tauto

theorem completedNow_boardingState (onb : List Passenger) (p : Passenger)
    (q : List Passenger) (st : Status) : completedNow (boardingState onb p 1 q st) = [p] := by
  have hw : wrapInt 0 = 0 := by decide
  simp [completedNow, boardingState, hw]

theorem step_complete_onBoard (onb : List Passenger) (p : Passenger) (q : List Passenger)
    (st : Status) (c : Char) (hst : st ≠ Status.Departed) :
    (processTaxiRoute (boardingState onb p 1 q st) c).onBoardList = onb ++ [p] := by
  rw [processTaxiRoute_onBoardList, completedNow_boardingState]
  simp [resetOnDeparture, boardingState, hst]

theorem step_complete_last (onb : List Passenger) (p : Passenger) (st : Status) (c : Char)
    (hst : st ≠ Status.Departed) (hlen : onb.length ≤ 4) :
    ¬ RouteBusy (processTaxiRoute (boardingState onb p 1 [] st) c) := by
  unfold RouteBusy
  by_cases h4 : onb.length = 4
  · rw [step_complete_full onb p [] st c hst h4]
    simp
  · obtain ⟨h1, h2⟩ := step_complete_idle onb p st c hst (by omega)
    simp [h1, h2]

/-- On a feed whose records all carry the tag of route `R` and are due at tick 0:
passenger `j` is in the slot with one tick of boarding left after `completionTick F j`
ticks, and the route is busy in every earlier tick. -/
theorem schedule_before_completion (R : Route) (F : List Passenger)
    (htag : ∀ p, p ∈ F → p.routeType = R.label) (harr : ∀ p, p ∈ F → p.arrivalTime = 0)
    (hdur : ∀ p, p ∈ F → 1 ≤ p.boardingTime ∧ p.boardingTime ≤ INT_MAX)
    (j : Nat) (p : Passenger) (hp : F[j]? = some p) :
    1 ≤ completionTick F j ∧
      (∀ t, t < completionTick F j → RouteBusy (R.state (simAt F (t + 1)))) ∧
      ∃ onb st, onb.length = j % 5 ∧ st ≠ Status.Departed ∧
        R.state (simAt F (completionTick F j)) = boardingState onb p 1 (F.drop (j + 1)) st := by
  obtain ⟨hg1, _, hgs⟩ := route_state_all_at_zero R F harr htag
  obtain ⟨onb, st, hlen, hst, hbusy, hstart⟩ :=
    schedule_states F R.label (fun m => R.state (simAt F m)) hg1 hgs hdur j p hp
  obtain ⟨hd1, hdmax⟩ := hdur p (List.mem_iff_getElem?.mpr ⟨j, hp⟩)
  have hcount := countdown_states (fun m => R.state (simAt F m)) R.label hgs
    (startTick F j + 1) (by omega) onb p p.boardingTime (F.drop (j + 1)) st hst hdmax hstart
  have hC := completionTick_eq F j p hp
  have hpos : 1 ≤ p.boardingTime.toNat := by omega
  refine ⟨by omega, ?_, onb, st, hlen, hst, ?_⟩
  · intro t ht
    by_cases hlt : t < startTick F j
    · exact hbusy t hlt
    · have := hcount (t - startTick F j) (by omega)
      rw [show startTick F j + 1 + (t - startTick F j) = t + 1 by omega] at this
      show RouteBusy ((fun m => R.state (simAt F m)) (t + 1))
      rw [this]
      exact routeBusy_boardingState _ _ _ _ _
  · have := hcount (p.boardingTime.toNat - 1) (by omega)
    rw [show startTick F j + 1 + (p.boardingTime.toNat - 1) = completionTick F j by omega]
      at this
    show (fun m => R.state (simAt F m)) (completionTick F j) = _
    rw [this]
    congr 1
    omega

theorem dispatchedTo_all_at_zero (R : Route) (F : List Passenger)
    (htag : ∀ p, p ∈ F → p.routeType = R.label) (harr : ∀ p, p ∈ F → p.arrivalTime = 0)
    (m : Nat) : dispatchedTo R F (m + 1) = F := by
  unfold dispatchedTo
  rw [cursor_all_at_zero F harr m, List.take_length, List.filter_eq_self]
  intro p hp
  simp [htag p hp]

theorem boardedBy_at_completion (R : Route) (F : List Passenger)
    (htag : ∀ p, p ∈ F → p.routeType = R.label) (harr : ∀ p, p ∈ F → p.arrivalTime = 0)
    (hdur : ∀ p, p ∈ F → 1 ≤ p.boardingTime ∧ p.boardingTime ≤ INT_MAX)
    (j : Nat) (p : Passenger) (hp : F[j]? = some p) :
    boardedBy R F (completionTick F j) = F.take j ∧
      boardedBy R F (completionTick F j + 1) = F.take (j + 1) := by
  obtain ⟨h1, _, onb, st, _, _, hstate⟩ := schedule_before_completion R F htag harr hdur j p hp
  obtain ⟨hj, hpj⟩ := List.getElem?_eq_some_iff.mp hp
  obtain ⟨_, hdisp, _⟩ := route_state_all_at_zero R F harr htag
  have hfifo := fifo_simAt R F (completionTick F j)
  obtain ⟨m, hm⟩ : ∃ m, completionTick F j = m + 1 := ⟨completionTick F j - 1, by omega⟩
  rw [hstate] at hfifo
  rw [hm, dispatchedTo_all_at_zero R F htag harr m, ← hm] at hfifo
  have hsplit : F = F.take j ++ ([p] ++ F.drop (j + 1)) := by
    conv_lhs => rw [← List.take_append_drop j F, List.drop_eq_getElem_cons hj, hpj]
    rfl
  have hbefore : boardedBy R F (completionTick F j) = F.take j := by
    have hslot : boardingSlot (boardingState onb p 1 (List.drop (j + 1) F) st) = [p] := rfl
    rw [hslot, List.append_assoc] at hfifo
    have hq : (boardingState onb p 1 (List.drop (j + 1) F) st).passengerQueue
        = List.drop (j + 1) F := rfl
    rw [hq] at hfifo
    exact List.append_cancel_right (hfifo.trans hsplit)
  refine ⟨hbefore, ?_⟩
  show boardedBy R F (completionTick F j)
      ++ completedNow (R.state (dispatch F (completionTick F j) (simAt F (completionTick F j))).1)
    = _
  rw [hdisp _ h1, hstate, completedNow_boardingState, hbefore, List.take_succ, hp]
  rfl

theorem completionTick_le_lastTick (R : Route) (F : List Passenger)
    (htag : ∀ p, p ∈ F → p.routeType = R.label) (harr : ∀ p, p ∈ F → p.arrivalTime = 0)
    (hdur : ∀ p, p ∈ F → 1 ≤ p.boardingTime ∧ p.boardingTime ≤ INT_MAX)
    (j : Nat) (p : Passenger) (hp : F[j]? = some p) (hle : completionTick F j ≤ 1001) :
    completionTick F j ≤ lastTick F := by
  obtain ⟨_, hbusy, _⟩ := schedule_before_completion R F htag harr hdur j p hp
  apply le_lastTick_of_not_stopsAt
  intro t ht
  have := (stopsAt_all_at_zero R F harr htag t (by omega)).not.mpr (not_not.mpr (hbusy t ht))
  simpa using this

theorem lastTick_single_route (R : Route) (F : List Passenger) (hne : F ≠ [])
    (htag : ∀ p, p ∈ F → p.routeType = R.label) (harr : ∀ p, p ∈ F → p.arrivalTime = 0)
    (hdur : ∀ p, p ∈ F → 1 ≤ p.boardingTime ∧ p.boardingTime ≤ INT_MAX)
    (hle : completionTick F (F.length - 1) ≤ 1000) :
    lastTick F = completionTick F (F.length - 1) ∧
      allProcessingComplete (simAt F (completionTick F (F.length - 1) + 1)) F = true := by
  have hlen : 0 < F.length := List.length_pos.mpr hne
  have hj : F.length - 1 < F.length := by omega
  have hp : F[F.length - 1]? = some F[F.length - 1] := List.getElem?_eq_getElem hj
  obtain ⟨h1, _, onb, st, hlen5, hst, hstate⟩ :=
    schedule_before_completion R F htag harr hdur _ _ hp
  obtain ⟨_, _, hgs⟩ := route_state_all_at_zero R F harr htag
  have hdrop : F.drop (F.length - 1 + 1) = [] := List.drop_eq_nil_iff.mpr (by omega)
  have hidle : ¬ RouteBusy (R.state (simAt F (completionTick F (F.length - 1) + 1))) := by
    rw [hgs _ h1, hstate, hdrop]
    exact step_complete_last onb _ st R.label hst (by omega)
  have hstop : stopsAt F (completionTick F (F.length - 1)) = true :=
    (stopsAt_all_at_zero R F harr htag _ hle).mpr hidle
  refine ⟨le_antisymm (Nat.find_min' _ hstop)
    (completionTick_le_lastTick R F htag harr hdur _ _ hp (by omega)), ?_⟩
  unfold stopsAt at hstop
  have h2 : ¬ completionTick F (F.length - 1) > 1000 := by omega
  simpa [h2] using hstop

theorem processTaxiRoute_waiting_from (r : TaxiRouteState) (c : Char)
    (h : (processTaxiRoute r c).status = Status.Waiting) :
    r.status = Status.Waiting ∨ r.status = Status.Departed := by
  unfold processTaxiRoute at h
  rw [(startNextBoarding_frame _).1] at h
  obtain ⟨q, ob, b, tm, cur, cap, st⟩ := r
  cases st
  · exact Or.inl rfl
  · exfalso
    simp only [resetOnDeparture, advanceBoarding] at h
    cases b
    · simp at h
    · simp at h
      split_ifs at h
  · exact Or.inr rfl

theorem route_status_waiting_from (R : Route) (feed : List Passenger) (n : Nat)
    (h : (R.state (simAt feed (n + 1))).status = Status.Waiting) :
    (R.state (simAt feed n)).status = Status.Waiting ∨
      (R.state (simAt feed n)).status = Status.Departed := by
  obtain ⟨q, hq⟩ := route_state_step R feed n
  rw [hq] at h
  exact processTaxiRoute_waiting_from (pushAll (R.state (simAt feed n)) q) _ h

/-- Between a state in which a route shows `Board` and a later one in which it shows
`Waiting` there is a state in which it shows `Departed`. -/
theorem departed_between_board_and_waiting (R : Route) (feed : List Passenger) (i : Nat)
    (hi : (R.state (simAt feed i)).status = Status.Board) :
    ∀ j, i < j → (R.state (simAt feed j)).status = Status.Waiting →
      ∃ k, i < k ∧ k < j ∧ (R.state (simAt feed k)).status = Status.Departed
  | 0, h, _ => by omega
  | j + 1, h, hw => by
    have hij : i ≠ j := by
      intro he
      subst he
      rcases route_status_waiting_from R feed i hw with h1 | h1 <;> rw [hi] at h1 <;>
        exact absurd h1 (by decide)
    rcases route_status_waiting_from R feed j hw with h1 | h1
    · obtain ⟨k, hk1, hk2, hk3⟩ :=
        departed_between_board_and_waiting R feed i hi j (by omega) h1
      exact ⟨k, hk1, by omega, hk3⟩
    · exact ⟨j, by omega, by omega, h1⟩

theorem dispatch_route_frame (R : Route) (feed : List Passenger) (n : Nat) :
    (R.state (dispatch feed n (simAt feed n)).1).status = (R.state (simAt feed n)).status ∧
      (R.state (dispatch feed n (simAt feed n)).1).onBoardList
        = (R.state (simAt feed n)).onBoardList := by
  rw [(dispatch_route R feed n (simAt feed n)).1]
  exact ⟨rfl, rfl⟩

/-- The passengers of a route that have completed boarding are those onboard and five for
every reset. -/
theorem boardedBy_length (R : Route) (feed : List Passenger) :
    ∀ n, (boardedBy R feed n).length
      = (R.state (simAt feed n)).onBoardList.length + 5 * resetsBy R feed n
  | 0 => by cases R <;> rfl
  | n + 1 => by
    have ih := boardedBy_length R feed n
    obtain ⟨hst, hob⟩ := dispatch_route_frame R feed n
    obtain ⟨hcap, _, hdep, _, _⟩ := routeInv_route R _ (simInv_simAt feed n)
    rw [route_state_succ, processTaxiRoute_onBoardList]
    show (boardedBy R feed n
        ++ completedNow (R.state (dispatch feed n (simAt feed n)).1)).length
      = _ + 5 * (resetsBy R feed n + _)
    rw [List.length_append, List.length_append, ih]
    unfold resetOnDeparture
    by_cases hd : (R.state (dispatch feed n (simAt feed n)).1).status = Status.Departed
    · rw [if_pos hd, if_pos hd]
      have := hdep.mp (hst ▸ hd)
      unfold TAXI_CAPACITY at hcap
      simp only [List.length_nil]
      omega
    · rw [if_neg hd, if_neg hd, hob]
      omega

theorem arrivalTracker_mono (feed : List Passenger) (m : Nat) :
    ∀ k, (simAt feed m).arrivalTracker ≤ (simAt feed (m + k)).arrivalTracker
  | 0 => le_refl _
  | k + 1 => by
    have := arrivalTracker_mono feed m k
    rw [← Nat.add_assoc, simAt_succ_arrivalTracker]
    omega

theorem consumedAt_of_stale (feed : List Passenger) (n : Nat) (s : SimState) (p : Passenger)
    (hcur : feed[s.arrivalTracker]? = some p) (hne : p.arrivalTime ≠ (n : Int)) :
    consumedAt feed n s = [] := by
  obtain ⟨hlt, hp⟩ := List.getElem?_eq_some_iff.mp hcur
  unfold consumedAt
  rw [List.drop_eq_getElem_cons hlt, hp, List.takeWhile_cons]
  simp [hne]

theorem cursor_blocked (feed : List Passenger) (T : Nat) (p : Passenger)
    (hcur : feed[(simAt feed (T + 1)).arrivalTracker]? = some p)
    (hstale : p.arrivalTime < (T : Int)) :
    ∀ k, (simAt feed (T + 1 + k)).arrivalTracker = (simAt feed (T + 1)).arrivalTracker ∧
      consumedAt feed (T + 1 + k) (simAt feed (T + 1 + k)) = []
  | 0 => ⟨rfl, consumedAt_of_stale feed _ _ p hcur (by push_cast; omega)⟩
  | k + 1 => by
    obtain ⟨h1, h2⟩ := cursor_blocked feed T p hcur hstale k
    have h3 : (simAt feed (T + 1 + (k + 1))).arrivalTracker
        = (simAt feed (T + 1)).arrivalTracker := by
      rw [← Nat.add_assoc, simAt_succ_arrivalTracker, h2, h1]
      rfl
    refine ⟨h3, consumedAt_of_stale feed _ _ p ?_ (by push_cast; omega)⟩
    rw [h3]
    exact hcur

theorem advance_nonpositive (r : TaxiRouteState) (hb : r.isBoarding = true)
    (hst : r.status ≠ Status.Departed) (h1 : r.boardingTimer ≤ 1)
    (hmin : INT_MIN < r.boardingTimer) :
    (advanceBoarding (resetOnDeparture r)).isBoarding = false ∧
      (advanceBoarding (resetOnDeparture r)).boardingTimer = r.boardingTimer - 1 := by
  obtain ⟨pq, ob, b, tm, cur, cap, st⟩ := r
  simp only at hb hst h1 hmin
  subst hb
  have hw : wrapInt (tm - 1) = tm - 1 :=
    wrapInt_of_inRange _ (by unfold INT_MIN at *; omega) (by unfold INT_MAX; omega)
  have hle : tm - 1 ≤ 0 := by omega
  simp only [resetOnDeparture, hst, if_false, advanceBoarding, if_true, hw, hle]
  split_ifs <;> exact ⟨rfl, rfl⟩

theorem startNextBoarding_of_not_boarding (x : TaxiRouteState)
    (h : (startNextBoarding x).isBoarding = false) : startNextBoarding x = x := by
  unfold startNextBoarding at h ⊢
  split_ifs at h ⊢ with hc
  · cases hq : x.passengerQueue with
    | nil => rfl
    | cons p rest =>
      rw [hq] at h
      simp at h
  · rfl

theorem canStart_of_boarding_after (x : TaxiRouteState) (hx : x.isBoarding = false)
    (h : (startNextBoarding x).isBoarding = true) : canStartBoarding x = true := by
  by_contra hc
  unfold startNextBoarding at h
  rw [if_neg hc, hx] at h
  exact absurd h (by decide)

/-- C1: in every row of every run, each of the three routes satisfies
`currentCapacity + onBoardList.size() == TAXI_CAPACITY`. -/
theorem capacity_plus_onboard_is_capacity (allPassengers : List Passenger) (fuel : Nat)
    (o : Outcome) (hrun : runSimulation allPassengers fuel = some o)
    (rec : TickRecord) (hrec : rec ∈ o.trace) :
    rec.state.shortTaxi.currentCapacity + rec.state.shortTaxi.onBoardList.length
        = TAXI_CAPACITY ∧
      rec.state.longTaxi.currentCapacity + rec.state.longTaxi.onBoardList.length
        = TAXI_CAPACITY ∧
      rec.state.cityTaxi.currentCapacity + rec.state.cityTaxi.onBoardList.length
        = TAXI_CAPACITY := by
  have h := simInv_of_mem_trace allPassengers fuel o hrun rec hrec
  exact ⟨h.1.1, h.2.1.1, h.2.2.1⟩

/-- Witness for C1: the row of tick 2 of the run of `sampleFeed`. -/
theorem capacity_plus_onboard_is_capacity_witness :
    runSimulation sampleFeed 10 = some sampleOutcome ∧ sampleRecord ∈ sampleOutcome.trace ∧
      (sampleRecord.state.shortTaxi.currentCapacity
          + sampleRecord.state.shortTaxi.onBoardList.length = TAXI_CAPACITY ∧
        sampleRecord.state.longTaxi.currentCapacity
          + sampleRecord.state.longTaxi.onBoardList.length = TAXI_CAPACITY ∧
        sampleRecord.state.cityTaxi.currentCapacity
          + sampleRecord.state.cityTaxi.onBoardList.length = TAXI_CAPACITY) :=
  ⟨sampleOutcome_eq, sampleRecord_mem,
    capacity_plus_onboard_is_capacity sampleFeed 10 sampleOutcome sampleOutcome_eq
      sampleRecord sampleRecord_mem⟩

/-- C2: in every row of every run a route shows `Departed` exactly when its capacity is
0; and a call of `processTaxiRoute` can only end in `Departed` by completing the boarding
in progress (timer run out) with the capacity dropping by one to 0 or below, so the
passing of ticks alone never produces `Departed`. -/
theorem departed_iff_capacity_exhausted (allPassengers : List Passenger) (fuel : Nat)
    (o : Outcome) (hrun : runSimulation allPassengers fuel = some o)
    (rec : TickRecord) (hrec : rec ∈ o.trace) :
    ((rec.state.shortTaxi.status = Status.Departed ↔ rec.state.shortTaxi.currentCapacity = 0) ∧
      (rec.state.longTaxi.status = Status.Departed ↔ rec.state.longTaxi.currentCapacity = 0) ∧
      (rec.state.cityTaxi.status = Status.Departed ↔ rec.state.cityTaxi.currentCapacity = 0)) ∧
    (∀ (r : TaxiRouteState) (c : Char), (processTaxiRoute r c).status = Status.Departed →
      r.isBoarding = true ∧ wrapInt (r.boardingTimer - 1) ≤ 0 ∧
        (processTaxiRoute r c).onBoardList
          = (resetOnDeparture r).onBoardList ++ [r.currentBoardingPassenger] ∧
        (processTaxiRoute r c).currentCapacity = (resetOnDeparture r).currentCapacity - 1 ∧
        (processTaxiRoute r c).currentCapacity ≤ 0) := by
  have h := simInv_of_mem_trace allPassengers fuel o hrun rec hrec
  exact ⟨⟨h.1.2.2.1, h.2.1.2.2.1, h.2.2.2.2.1⟩, departed_only_by_completion⟩

/-- Witness for C2: the row of tick 2 of the run of `sampleFeed`. -/
theorem departed_iff_capacity_exhausted_witness :
    runSimulation sampleFeed 10 = some sampleOutcome ∧ sampleRecord ∈ sampleOutcome.trace ∧
      (sampleRecord.state.shortTaxi.status = Status.Departed
        ↔ sampleRecord.state.shortTaxi.currentCapacity = 0) :=
  ⟨sampleOutcome_eq, sampleRecord_mem,
    (departed_iff_capacity_exhausted sampleFeed 10 sampleOutcome sampleOutcome_eq
      sampleRecord sampleRecord_mem).1.1⟩

/-- C3: with five passengers of boarding time 1 on one route at tick 0, the rows of that
route are: tick 0 `Waiting` with nobody onboard, ticks 1 to 4 `Board` with one more
passenger onboard each tick, and tick 5 `Departed` with five onboard; so the status is
`Departed` at tick 5 and at no earlier tick. Stated for each of the tags S, L and C. -/
theorem five_passengers_depart_at_tick_five :
    (runSimulation (sameRouteAtZero 5 'S') 1002).map
        (fun o => o.trace.map (routeView SimState.shortTaxi))
      = some [(0, Status.Waiting, 5, 0), (1, Status.Board, 4, 1), (2, Status.Board, 3, 2),
          (3, Status.Board, 2, 3), (4, Status.Board, 1, 4), (5, Status.Departed, 0, 5)] ∧
    (runSimulation (sameRouteAtZero 5 'L') 1002).map
        (fun o => o.trace.map (routeView SimState.longTaxi))
      = some [(0, Status.Waiting, 5, 0), (1, Status.Board, 4, 1), (2, Status.Board, 3, 2),
          (3, Status.Board, 2, 3), (4, Status.Board, 1, 4), (5, Status.Departed, 0, 5)] ∧
    (runSimulation (sameRouteAtZero 5 'C') 1002).map
        (fun o => o.trace.map (routeView SimState.cityTaxi))
      = some [(0, Status.Waiting, 5, 0), (1, Status.Board, 4, 1), (2, Status.Board, 3, 2),
          (3, Status.Board, 2, 3), (4, Status.Board, 1, 4), (5, Status.Departed, 0, 5)] := by
  refine ⟨by decide, by decide, by decide⟩

/-- C5: with two passengers of boarding time 1 on one route at tick 0, the run prints the
completion message at tick 2 and no warning; the rows of that route are `Waiting` (tick
0), `Board` with capacity 4 (tick 1) and `Board` with capacity 3 and two onboard (tick
2), so the route is never `Departed`. Stated for each of the tags S, L and C. -/
theorem two_passengers_never_depart :
    ((runSimulation (sameRouteAtZero 2 'S') 1002).map Outcome.endedAt = some (some 2) ∧
      (runSimulation (sameRouteAtZero 2 'S') 1002).map Outcome.warned = some false ∧
      (runSimulation (sameRouteAtZero 2 'S') 1002).map
          (fun o => o.trace.map (routeView SimState.shortTaxi))
        = some [(0, Status.Waiting, 5, 0), (1, Status.Board, 4, 1), (2, Status.Board, 3, 2)]) ∧
    ((runSimulation (sameRouteAtZero 2 'L') 1002).map Outcome.endedAt = some (some 2) ∧
      (runSimulation (sameRouteAtZero 2 'L') 1002).map Outcome.warned = some false ∧
      (runSimulation (sameRouteAtZero 2 'L') 1002).map
          (fun o => o.trace.map (routeView SimState.longTaxi))
        = some [(0, Status.Waiting, 5, 0), (1, Status.Board, 4, 1), (2, Status.Board, 3, 2)]) ∧
    ((runSimulation (sameRouteAtZero 2 'C') 1002).map Outcome.endedAt = some (some 2) ∧
      (runSimulation (sameRouteAtZero 2 'C') 1002).map Outcome.warned = some false ∧
      (runSimulation (sameRouteAtZero 2 'C') 1002).map
          (fun o => o.trace.map (routeView SimState.cityTaxi))
        = some [(0, Status.Waiting, 5, 0), (1, Status.Board, 4, 1), (2, Status.Board, 3, 2)]) := by
  refine ⟨⟨by decide, by decide, by decide⟩, ⟨by decide, by decide, by decide⟩,
    ⟨by decide, by decide, by decide⟩⟩

/-- Counterexample to C4: the run on five S passengers of boarding time 1 due at tick 0
prints the completion message at tick 5, its rows are those of ticks 0 to 5, and it has
no row of tick 6 showing the S route `Waiting` with capacity 5. -/
theorem five_passengers_run_has_no_tick_six :
    (runSimulation (sameRouteAtZero 5 'S') 1002).map Outcome.endedAt = some (some 5) ∧
    (runSimulation (sameRouteAtZero 5 'S') 1002).map
        (fun o => o.trace.map TickRecord.timeInstance) = some [0, 1, 2, 3, 4, 5] ∧
    ¬ ∃ o, runSimulation (sameRouteAtZero 5 'S') 1002 = some o ∧
        ∃ rec, rec ∈ o.trace ∧ rec.timeInstance = 6 ∧
          rec.state.shortTaxi.status = Status.Waiting ∧
          rec.state.shortTaxi.currentCapacity = 5 := by
  have hticks : (runSimulation (sameRouteAtZero 5 'S') 1002).map
      (fun o => o.trace.map TickRecord.timeInstance) = some [0, 1, 2, 3, 4, 5] := by decide
  refine ⟨by decide, hticks, ?_⟩
  rintro ⟨o, ho, rec, hrec, h6, _⟩
  rw [ho] at hticks
  simp only [Option.map_some', Option.some.injEq] at hticks
  have hmem : rec.timeInstance ∈ o.trace.map TickRecord.timeInstance :=
    List.mem_map_of_mem _ hrec
  rw [hticks, h6] at hmem
  simp at hmem

/-- C4 (amended): the run on five passengers of boarding time 1 due at tick 0 on one route
ends with the completion message at tick 5, its last row showing the route `Departed`
with capacity 0, and has no tick 6; when the feed goes on with a record due at tick 6 or
later, the loop reaches tick 6 and the row of tick 6 shows the route `Waiting` with
capacity 5. Stated for each of the tags S, L and C. -/
theorem reset_at_tick_six_when_feed_continues (p : Passenger) (rest : List Passenger)
    (hp : 6 ≤ p.arrivalTime) (fuel : Nat) (o : Outcome) :
    ((runSimulation (sameRouteAtZero 5 'S') 1002).map
          (fun o => (o.trace.map (routeView SimState.shortTaxi)).getLast?)
        = some (some (5, Status.Departed, 0, 5)) ∧
      (runSimulation (sameRouteAtZero 5 'L') 1002).map
          (fun o => (o.trace.map (routeView SimState.longTaxi)).getLast?)
        = some (some (5, Status.Departed, 0, 5)) ∧
      (runSimulation (sameRouteAtZero 5 'C') 1002).map
          (fun o => (o.trace.map (routeView SimState.cityTaxi)).getLast?)
        = some (some (5, Status.Departed, 0, 5))) ∧
    ((runSimulation (sameRouteAtZero 5 'S') 1002).map Outcome.endedAt = some (some 5) ∧
      (runSimulation (sameRouteAtZero 5 'L') 1002).map Outcome.endedAt = some (some 5) ∧
      (runSimulation (sameRouteAtZero 5 'C') 1002).map Outcome.endedAt = some (some 5)) ∧
    (runSimulation (sameRouteAtZero 5 'S' ++ p :: rest) fuel = some o →
      ∃ rec, rec ∈ o.trace ∧ rec.timeInstance = 6 ∧
        rec.state.shortTaxi.status = Status.Waiting ∧
        rec.state.shortTaxi.currentCapacity = 5) ∧
    (runSimulation (sameRouteAtZero 5 'L' ++ p :: rest) fuel = some o →
      ∃ rec, rec ∈ o.trace ∧ rec.timeInstance = 6 ∧
        rec.state.longTaxi.status = Status.Waiting ∧
        rec.state.longTaxi.currentCapacity = 5) ∧
    (runSimulation (sameRouteAtZero 5 'C' ++ p :: rest) fuel = some o →
      ∃ rec, rec ∈ o.trace ∧ rec.timeInstance = 6 ∧
        rec.state.cityTaxi.status = Status.Waiting ∧
        rec.state.cityTaxi.currentCapacity = 5) := by
  refine ⟨⟨by decide, by decide, by decide⟩, ⟨by decide, by decide, by decide⟩, ?_, ?_, ?_⟩
  · exact reset_row_after_departure SimState.shortTaxi 'S' (fun _ => rfl) dispatch_shortTaxi
      (by decide) p rest hp fuel o
  · exact reset_row_after_departure SimState.longTaxi 'L' (fun _ => rfl) dispatch_longTaxi
      (by decide) p rest hp fuel o
  · exact reset_row_after_departure SimState.cityTaxi 'C' (fun _ => rfl) dispatch_cityTaxi
      (by decide) p rest hp fuel o

/-- Witness for C4 (amended): a sixth S passenger due at tick 6. -/
theorem reset_at_tick_six_when_feed_continues_witness :
    (6 : Int) ≤ (⟨'S', 1, 6⟩ : Passenger).arrivalTime ∧
      runSimulation (sameRouteAtZero 5 'S' ++ [⟨'S', 1, 6⟩]) 20 = some continuedOutcome ∧
      ∃ rec, rec ∈ continuedOutcome.trace ∧ rec.timeInstance = 6 ∧
        rec.state.shortTaxi.status = Status.Waiting ∧
        rec.state.shortTaxi.currentCapacity = 5 :=
  ⟨by decide, by simp [continuedOutcome],
    (reset_at_tick_six_when_feed_continues ⟨'S', 1, 6⟩ [] (by decide) 20
      continuedOutcome).2.2.1 (by simp [continuedOutcome])⟩

/-- C7: the completion message for tick `T` is printed exactly when the row of tick `T`
is the first row of the run whose state, after that tick's dispatch and three advances,
has the cursor past the last record, all three queues empty and no boarding in progress.
The condition does not read any status. -/
theorem completion_at_first_exhausted_tick (allPassengers : List Passenger) (fuel : Nat)
    (o : Outcome) (hrun : runSimulation allPassengers fuel = some o) (T : Nat) :
    o.endedAt = some T ↔
      (∃ rec, rec ∈ o.trace ∧ rec.timeInstance = T ∧ WorkExhausted rec.state allPassengers) ∧
      (∀ rec, rec ∈ o.trace → rec.timeInstance < T →
        ¬ WorkExhausted rec.state allPassengers) := by
  rw [endedAt_eq_some_iff allPassengers fuel o hrun T]
  have ho := runSimulation_some allPassengers fuel o hrun
  constructor
  · rintro ⟨hT, hc⟩
    subst hT
    refine ⟨⟨recAt allPassengers (lastTick allPassengers),
      recAt_mem_trace allPassengers fuel o hrun _ (le_refl _), rfl, ?_⟩, ?_⟩
    · rw [recAt_state_eq, ← allProcessingComplete_iff]; exact hc
    · intro rec hrec hlt hex
      rw [ho, mem_trace_outcomeAt] at hrec
      obtain ⟨k, _, rfl⟩ := hrec
      rw [recAt_timeInstance] at hlt
      rw [recAt_state_eq, ← allProcessingComplete_iff] at hex
      have := not_stopsAt_of_lt allPassengers k hlt
      rw [stopsAt_of_complete allPassengers k hex] at this
      exact absurd this (by simp)
  · rintro ⟨⟨rec, hrec, hT, hex⟩, _⟩
    rw [ho, mem_trace_outcomeAt] at hrec
    obtain ⟨k, hk, rfl⟩ := hrec
    rw [recAt_timeInstance] at hT
    subst hT
    rw [recAt_state_eq, ← allProcessingComplete_iff] at hex
    refine ⟨?_, hex⟩
    apply le_antisymm hk
    by_contra hlt
    push_neg at hlt
    have := not_stopsAt_of_lt allPassengers k hlt
    rw [stopsAt_of_complete allPassengers k hex] at this
    exact absurd this (by simp)

/-- Witness for C7: the run of `sampleFeed` reports completion at tick 3. -/
theorem completion_at_first_exhausted_tick_witness :
    runSimulation sampleFeed 10 = some sampleOutcome ∧
      (sampleOutcome.endedAt = some 3 ↔
        (∃ rec, rec ∈ sampleOutcome.trace ∧ rec.timeInstance = 3 ∧
          WorkExhausted rec.state sampleFeed) ∧
        (∀ rec, rec ∈ sampleOutcome.trace → rec.timeInstance < 3 →
          ¬ WorkExhausted rec.state sampleFeed)) ∧
      sampleOutcome.endedAt = some 3 :=
  ⟨sampleOutcome_eq,
    completion_at_first_exhausted_tick sampleFeed 10 sampleOutcome sampleOutcome_eq 3,
    by decide⟩

/-- C8 (amended): a run in which no processed tick satisfies the completion condition
processes exactly the ticks 0, 1, ..., 1001 (1002 ticks, the last being the first whose
number exceeds 1000) and ends with the warning and without the completion message. -/
theorem never_complete_runs_to_tick_1001 (allPassengers : List Passenger) (fuel : Nat)
    (o : Outcome) (hrun : runSimulation allPassengers fuel = some o)
    (hnever : ∀ rec, rec ∈ o.trace → allProcessingComplete rec.state allPassengers = false) :
    o.trace.map TickRecord.timeInstance = List.range 1002 ∧ o.trace.length = 1002 ∧
      o.warned = true ∧ o.endedAt = none :=
  run_of_never_complete allPassengers fuel o hrun hnever

/-- Witness for C8 (amended): a single record due at tick 5000. -/
theorem never_complete_runs_to_tick_1001_witness :
    runSimulation [⟨'S', 1, 5000⟩] 1002 = some (outcomeAt [⟨'S', 1, 5000⟩] 1001) ∧
      (outcomeAt [⟨'S', 1, 5000⟩] 1001).trace.length = 1002 ∧
      (outcomeAt [⟨'S', 1, 5000⟩] 1001).warned = true ∧
      (outcomeAt [⟨'S', 1, 5000⟩] 1001).endedAt = none :=
  ⟨(run_of_late_feed ⟨'S', 1, 5000⟩ [] 1001 rfl (by decide)).1,
    (never_complete_runs_to_tick_1001 [⟨'S', 1, 5000⟩] 1002 (outcomeAt [⟨'S', 1, 5000⟩] 1001)
      (run_of_late_feed ⟨'S', 1, 5000⟩ [] 1001 rfl (by decide)).1
      (run_of_late_feed ⟨'S', 1, 5000⟩ [] 1001 rfl (by decide)).2).2⟩

/-- Counterexample to C8: on a feed whose only record is due at tick 5000 no row satisfies
the completion condition, and the run shows 1002 rows, not 1000, before the warning. -/
theorem late_feed_runs_1002_ticks :
    ∃ o, runSimulation [⟨'S', 1, 5000⟩] 1002 = some o ∧
      (∀ rec, rec ∈ o.trace → allProcessingComplete rec.state [⟨'S', 1, 5000⟩] = false) ∧
      o.warned = true ∧ o.endedAt = none ∧ o.trace.length = 1002 ∧ o.trace.length ≠ 1000 := by
  obtain ⟨h1, h2⟩ := run_of_late_feed ⟨'S', 1, 5000⟩ [] 1001 rfl (by decide)
  obtain ⟨_, h4, h5, h6⟩ := run_of_never_complete _ _ _ h1 h2
  exact ⟨_, h1, h2, h5, h6, h4, by rw [h4]; decide⟩

/-- C9 (code defect): on the feed whose only record is an S passenger of boarding time 1
due at tick 1000, the boarding completes in tick 1001; the run prints the completion
message for tick 1001 and, the two checks being independent, the warning as well. -/
theorem completion_and_warning_at_tick_1001 :
    ∃ o, (∀ extra, runSimulation [⟨'S', 1, 1000⟩] (1002 + extra) = some o) ∧
      o.endedAt = some 1001 ∧ o.warned = true := by
  have hidle : ∀ k, k ≤ 1000 → simAt [⟨'S', 1, 1000⟩] k = initialState :=
    simAt_idle ⟨'S', 1, 1000⟩ [] 1000 (by decide)
  have h1 : simAt [⟨'S', 1, 1000⟩] (1000 + 1)
      = (tickStep [⟨'S', 1, 1000⟩] 1000 initialState).1 := by
    rw [simAt_succ, hidle 1000 (le_refl _)]; rfl
  have h2 : simAt [⟨'S', 1, 1000⟩] (1000 + 1 + 1)
      = (tickStep [⟨'S', 1, 1000⟩] (1000 + 1)
          (tickStep [⟨'S', 1, 1000⟩] 1000 initialState).1).1 := by
    rw [simAt_succ, h1]; rfl
  have hc1 : allProcessingComplete (tickStep [⟨'S', 1, 1000⟩] 1000 initialState).1
      [⟨'S', 1, 1000⟩] = false := by decide
  have hc2 : allProcessingComplete (tickStep [⟨'S', 1, 1000⟩] (1000 + 1)
      (tickStep [⟨'S', 1, 1000⟩] 1000 initialState).1).1 [⟨'S', 1, 1000⟩] = true := by decide
  have hlast : lastTick [⟨'S', 1, 1000⟩] = 1000 + 1 := by
    apply le_antisymm (lastTick_le _)
    apply le_lastTick_of_not_stopsAt
    intro k hk
    by_cases hk' : k = 1000
    · subst hk'
      unfold stopsAt
      rw [h1, hc1]
      simp
    · apply not_stopsAt_of_arrivalTracker_lt _ k (by omega)
      rw [hidle (k + 1) (by omega)]
      simp [initialState]
  refine ⟨outcomeAt [⟨'S', 1, 1000⟩] (1000 + 1), ?_, ?_, ?_⟩
  · intro extra
    rw [← hlast]
    exact runSimulation_eq _ _ (by rw [hlast]; omega)
  · unfold outcomeAt
    rw [h2, hc2]
    rfl
  · simp [outcomeAt]

/-- C10: for every feed the tick loop stops: with any iteration bound of at least 1002 the
run returns the same outcome, whose rows are those of the ticks `0, 1, ..., n - 1` for
some `n ≤ 1002`, so no tick beyond 1001 is processed. -/
theorem tick_loop_terminates (allPassengers : List Passenger) :
    ∃ o, (∀ extra, runSimulation allPassengers (1002 + extra) = some o) ∧
      o.trace.map TickRecord.timeInstance = List.range o.trace.length ∧
      o.trace.length ≤ 1002 := by
  have hle := lastTick_le allPassengers
  have hticks := outcomeAt_trace_ticks allPassengers (lastTick allPassengers)
  have hlen : (outcomeAt allPassengers (lastTick allPassengers)).trace.length
      = lastTick allPassengers + 1 := by
    have := congrArg List.length hticks
    simpa using this
  refine ⟨outcomeAt allPassengers (lastTick allPassengers), ?_, ?_, ?_⟩
  · intro extra
    exact runSimulation_eq _ _ (by omega)
  · rw [hlen]; exact hticks
  · rw [hlen]; omega

/-- C11: a passenger whose tag is none of S, L, C is, after any number of ticks and for
each of the three routes, not in the queue, not in the boarding slot, not in the onboard
list and not among the boardings completed so far; and the iteration of the dispatch loop
that consumes it leaves the three route states as they are, writes it to the arrivals of
the tick and moves the cursor on by one. -/
theorem unknown_tag_is_dropped (allPassengers : List Passenger) (p : Passenger)
    (hS : p.routeType ≠ 'S') (hL : p.routeType ≠ 'L') (hC : p.routeType ≠ 'C') :
    (∀ (R : Route) (n : Nat),
      p ∉ (R.state (simAt allPassengers n)).passengerQueue ∧
      p ∉ boardingSlot (R.state (simAt allPassengers n)) ∧
      p ∉ (R.state (simAt allPassengers n)).onBoardList ∧
      p ∉ boardedBy R allPassengers n) ∧
    (∀ (rest : List Passenger) (s : SimState) (arrivals : List Passenger),
      dispatchLoop p.arrivalTime (p :: rest) (s, arrivals)
        = dispatchLoop p.arrivalTime rest
            ({ s with arrivalTracker := s.arrivalTracker + 1 }, arrivals ++ [p])) := by
  constructor
  · intro R n
    have key : p ∉ dispatchedTo R allPassengers n := by
      intro h
      have ht := mem_dispatchedTo_tag R allPassengers n p h
      rcases label_known R with hl | hl | hl <;> rw [hl] at ht
      · exact hS ht
      · exact hL ht
      · exact hC ht
    refine ⟨?_, ?_, ?_, ?_⟩ <;> intro h <;> apply key <;>
      apply places_subset_dispatchedTo R allPassengers n p
    · exact Or.inr (Or.inr (Or.inl h))
    · exact Or.inr (Or.inl h)
    · exact Or.inl h
    · exact Or.inr (Or.inr (Or.inr h))
  · intro rest s arrivals
    simp [dispatchLoop, enqueueArrival, hS, hL, hC]

/-- Witness for C11: the record tagged X of `sampleFeed`, after three ticks. -/
theorem unknown_tag_is_dropped_witness :
    (⟨'X', 1, 1⟩ : Passenger) ∈ sampleFeed ∧
      (⟨'X', 1, 1⟩ : Passenger) ∉ (Route.S.state (simAt sampleFeed 3)).passengerQueue ∧
      (simAt sampleFeed 3).arrivalTracker = 4 :=
  ⟨by decide,
    ((unknown_tag_is_dropped sampleFeed ⟨'X', 1, 1⟩ (by decide) (by decide) (by decide)).1
      Route.S 3).1,
    by decide⟩

/-- Counterexample to C15: in the run of `staggeredFeed` the row of tick 6 comes after the
reset of the S route; the first record of the feed has been dispatched (the cursor is 6)
with tag S, and it is in no queue, in no boarding slot and in no onboard list. -/
theorem departed_passenger_is_in_no_place :
    runSimulation staggeredFeed 20 = some staggeredOutcome ∧
      recAt staggeredFeed 6 ∈ staggeredOutcome.trace ∧
      staggeredFeed.head? = some ⟨'S', 1, 0⟩ ∧
      0 < (recAt staggeredFeed 6).state.arrivalTracker ∧
      (∀ R : Route,
        (⟨'S', 1, 0⟩ : Passenger) ∉ (R.state (recAt staggeredFeed 6).state).passengerQueue ∧
        (⟨'S', 1, 0⟩ : Passenger) ∉ boardingSlot (R.state (recAt staggeredFeed 6).state) ∧
        (⟨'S', 1, 0⟩ : Passenger) ∉ (R.state (recAt staggeredFeed 6).state).onBoardList) := by
  refine ⟨by simp [staggeredOutcome], by decide, by decide, by decide, ?_⟩
  intro R
  cases R <;> decide

/-- C15 (amended): for every feed, route and number of ticks, the dispatched passengers
carrying the route's tag, each taken once at its feed position, are split in feed order
into those that left with an earlier vehicle, the onboard list, the boarding slot and the
queue, and those that left are exactly five for every reset the route has made, so a
dispatched passenger past the first five-per-reset is in exactly one of the three places
and the others are in none; a reset is made only in a tick the route enters with status
`Departed`, which it does with five onboard, and in every other tick the passengers
onboard stay onboard; a passenger that has started boarding (slot or completed) stays so
in the next tick, never returning to the queue; and the three places of a route hold only
passengers with that route's tag. -/
theorem passenger_in_at_most_one_place (allPassengers : List Passenger) (R : Route)
    (n : Nat) :
    (∃ departed, departed.length = 5 * resetsBy R allPassengers n ∧
      departed ++ (R.state (simAt allPassengers n)).onBoardList
        ++ boardingSlot (R.state (simAt allPassengers n))
        ++ (R.state (simAt allPassengers n)).passengerQueue
      = dispatchedTo R allPassengers n) ∧
    (resetsBy R allPassengers (n + 1) = resetsBy R allPassengers n
        + (if (R.state (simAt allPassengers n)).status = Status.Departed then 1 else 0) ∧
      ((R.state (simAt allPassengers n)).status = Status.Departed →
        (R.state (simAt allPassengers n)).onBoardList.length = 5) ∧
      ((R.state (simAt allPassengers n)).status ≠ Status.Departed →
        (R.state (simAt allPassengers n)).onBoardList
          <+: (R.state (simAt allPassengers (n + 1))).onBoardList)) ∧
    (boardedBy R allPassengers n ++ boardingSlot (R.state (simAt allPassengers n))
      <+: boardedBy R allPassengers (n + 1)
        ++ boardingSlot (R.state (simAt allPassengers (n + 1)))) ∧
    (∀ p, p ∈ (R.state (simAt allPassengers n)).onBoardList
        ++ boardingSlot (R.state (simAt allPassengers n))
        ++ (R.state (simAt allPassengers n)).passengerQueue → p.routeType = R.label) := by
  obtain ⟨dep, hdep⟩ := onBoardList_suffix_boardedBy R allPassengers n
  have hfifo := fifo_simAt R allPassengers n
  have hlen := boardedBy_length R allPassengers n
  obtain ⟨hst, hob⟩ := dispatch_route_frame R allPassengers n
  obtain ⟨hcap, _, hdp, _, _⟩ := routeInv_route R _ (simInv_simAt allPassengers n)
  refine ⟨⟨dep, ?_, by rw [← hdep]; exact hfifo⟩, ⟨?_, ?_, ?_⟩, ?_, ?_⟩
  · rw [hdep, List.length_append] at hlen
    omega
  · show resetsBy R allPassengers n + _ = _
    rw [hst]
  · intro hd
    have := hdp.mp hd
    unfold TAXI_CAPACITY at hcap
    omega
  · intro hd
    rw [route_state_succ, processTaxiRoute_onBoardList]
    unfold resetOnDeparture
    rw [if_neg (by rw [hst]; exact hd), hob]
    exact List.prefix_append _ _
  · rw [route_state_succ]
    show _ <+: boardedBy R allPassengers n
      ++ completedNow (R.state (dispatch allPassengers n (simAt allPassengers n)).1) ++ _
    rw [List.append_assoc]
    apply (List.prefix_append_right_inj _).mpr
    have h := boardingSlot_prefix_step
      (R.state (dispatch allPassengers n (simAt allPassengers n)).1) R.label
    rw [(dispatch_route R allPassengers n (simAt allPassengers n)).1] at h ⊢
    exact h
  · intro p hp
    apply mem_dispatchedTo_tag R allPassengers n
    apply places_subset_dispatchedTo
    simp only [List.mem_append] at hp
    rcases hp with (h | h) | h
    · exact Or.inl h
    · exact Or.inr (Or.inl h)
    · exact Or.inr (Or.inr (Or.inl h))

/-- Witness for C15: in the run of `staggeredFeed` the S route enters tick 6 with status
`Departed` and five onboard, has made one reset after it, and the five that left are the
first five records of the feed; the sixth is in the boarding slot. -/
theorem passenger_in_at_most_one_place_witness :
    (Route.S.state (simAt staggeredFeed 6)).status = Status.Departed ∧
      (Route.S.state (simAt staggeredFeed 6)).onBoardList.length = 5 ∧
      resetsBy Route.S staggeredFeed 7 = 1 ∧
      boardingSlot (Route.S.state (simAt staggeredFeed 7)) = [⟨'S', 1, 5⟩] ∧
      ∃ departed, departed.length = 5 * resetsBy Route.S staggeredFeed 7 ∧
        departed ++ (Route.S.state (simAt staggeredFeed 7)).onBoardList
          ++ boardingSlot (Route.S.state (simAt staggeredFeed 7))
          ++ (Route.S.state (simAt staggeredFeed 7)).passengerQueue
        = dispatchedTo Route.S staggeredFeed 7 :=
  ⟨by decide,
    (passenger_in_at_most_one_place staggeredFeed Route.S 6).2.1.2.1 (by decide),
    by decide, by decide, (passenger_in_at_most_one_place staggeredFeed Route.S 7).1⟩

/-- C16: in every row of every run and for each route, the capacity is between 0 and
`TAXI_CAPACITY`; and whenever a boarding is in progress the capacity is positive and the
status is not `Departed`, which is why the decrement at completion cannot go below 0. -/
theorem capacity_within_bounds (allPassengers : List Passenger) (fuel : Nat) (o : Outcome)
    (hrun : runSimulation allPassengers fuel = some o) (rec : TickRecord)
    (hrec : rec ∈ o.trace) (R : Route) :
    0 ≤ (R.state rec.state).currentCapacity ∧
      (R.state rec.state).currentCapacity ≤ TAXI_CAPACITY ∧
      ((R.state rec.state).isBoarding = true →
        0 < (R.state rec.state).currentCapacity ∧
        (R.state rec.state).status ≠ Status.Departed) := by
  obtain ⟨h1, h2, h3, _, h5⟩ :=
    routeInv_route R rec.state (simInv_of_mem_trace allPassengers fuel o hrun rec hrec)
  refine ⟨h2, by omega, fun hb => ⟨h5 hb, fun hd => ?_⟩⟩
  have := h5 hb
  have := h3.mp hd
  omega

/-- Witness for C16: the L route in the row of tick 2 of the run of `sampleFeed`. -/
theorem capacity_within_bounds_witness :
    runSimulation sampleFeed 10 = some sampleOutcome ∧ sampleRecord ∈ sampleOutcome.trace ∧
      0 ≤ (Route.L.state sampleRecord.state).currentCapacity ∧
      (Route.L.state sampleRecord.state).currentCapacity ≤ TAXI_CAPACITY :=
  ⟨sampleOutcome_eq, sampleRecord_mem,
    (capacity_within_bounds sampleFeed 10 sampleOutcome sampleOutcome_eq sampleRecord
      sampleRecord_mem Route.L).1,
    (capacity_within_bounds sampleFeed 10 sampleOutcome sampleOutcome_eq sampleRecord
      sampleRecord_mem Route.L).2.1⟩

/-- C20: from every simulation state, advancing the three routes in any of the six orders
gives the state that the source order S, L, C gives. -/
theorem advance_order_irrelevant (s : SimState) :
    advanceRoute Route.C (advanceRoute Route.L (advanceRoute Route.S s)) = processAllRoutes s ∧
    advanceRoute Route.L (advanceRoute Route.C (advanceRoute Route.S s)) = processAllRoutes s ∧
    advanceRoute Route.C (advanceRoute Route.S (advanceRoute Route.L s)) = processAllRoutes s ∧
    advanceRoute Route.S (advanceRoute Route.C (advanceRoute Route.L s)) = processAllRoutes s ∧
    advanceRoute Route.L (advanceRoute Route.S (advanceRoute Route.C s)) = processAllRoutes s ∧
    advanceRoute Route.S (advanceRoute Route.L (advanceRoute Route.C s)) = processAllRoutes s :=
  ⟨rfl, rfl, rfl, rfl, rfl, rfl⟩

/-- Counterexample to C17: the feed holds one S passenger of boarding time 0; after the
tick that completes its boarding (tick 1) the timer of the S route is -1. -/
theorem timer_negative_after_zero_duration :
    (∀ p, p ∈ [(⟨'S', 0, 0⟩ : Passenger)] → 0 ≤ p.boardingTime) ∧
      (runSimulation [⟨'S', 0, 0⟩] 1002).map
          (fun o => o.trace.map (fun rec => (rec.timeInstance, rec.state.shortTaxi.boardingTimer)))
        = some [(0, 0), (1, -1)] :=
  ⟨by decide, by decide⟩

/-- C17 (amended): if every passenger of the feed has a boarding time of at least 1 (and
at most `INT_MAX`), then after any number of ticks the timer of every route is at least
0; if boarding times of 0 are allowed as well, the timer is at least -1. -/
theorem timer_nonnegative_for_positive_durations (allPassengers : List Passenger) (R : Route)
    (n : Nat) :
    ((∀ p, p ∈ allPassengers → 1 ≤ p.boardingTime ∧ p.boardingTime ≤ INT_MAX) →
      0 ≤ (R.state (simAt allPassengers n)).boardingTimer) ∧
    ((∀ p, p ∈ allPassengers → 0 ≤ p.boardingTime ∧ p.boardingTime ≤ INT_MAX) →
      -1 ≤ (R.state (simAt allPassengers n)).boardingTimer) := by
  constructor
  · intro h
    have := (timerInv_simAt 1 (by omega) (by omega) allPassengers h R n).1
    omega
  · intro h
    have := (timerInv_simAt 0 (by omega) (by omega) allPassengers h R n).1
    omega

/-- Witness for C17 (amended): `sampleFeed`, whose boarding times are 1 and 2. -/
theorem timer_nonnegative_for_positive_durations_witness :
    (∀ p, p ∈ sampleFeed → 1 ≤ p.boardingTime ∧ p.boardingTime ≤ INT_MAX) ∧
      0 ≤ (Route.L.state (simAt sampleFeed 2)).boardingTimer :=
  ⟨by decide,
    (timer_nonnegative_for_positive_durations sampleFeed Route.L 2).1 (by decide)⟩

/-- C13: on a feed in ascending order of non-negative arrival times, in every tick `n` the
dispatch loop consumes exactly the records due at `n`, in feed order; each route's queue
gets the ones carrying its tag appended at the back (records with another tag go to no
queue); the cursor moves on by their number; and afterwards either the feed is exhausted
or the record at the cursor is due later than `n`. -/
theorem dispatch_on_sorted_feed (allPassengers : List Passenger)
    (hsorted : SortedByArrival allPassengers)
    (hnonneg : ∀ p, p ∈ allPassengers → 0 ≤ p.arrivalTime) (n : Nat) :
    (tickStep allPassengers n (simAt allPassengers n)).2 = dueAt allPassengers n ∧
    (∀ R : Route, R.state (dispatch allPassengers n (simAt allPassengers n)).1
      = pushAll (R.state (simAt allPassengers n))
          ((dueAt allPassengers n).filter (fun p => decide (p.routeType = R.label)))) ∧
    (dispatch allPassengers n (simAt allPassengers n)).1.arrivalTracker
      = (simAt allPassengers n).arrivalTracker + (dueAt allPassengers n).length ∧
    (allPassengers.length ≤ (dispatch allPassengers n (simAt allPassengers n)).1.arrivalTracker ∨
      ∃ p, allPassengers[(dispatch allPassengers n (simAt allPassengers n)).1.arrivalTracker]?
          = some p ∧ (n : Int) < p.arrivalTime) := by
  have hc := consumedAt_sorted allPassengers hsorted hnonneg n
  refine ⟨?_, ?_, ?_, ?_⟩
  · show (dispatch allPassengers n (simAt allPassengers n)).2 = _
    rw [(dispatch_route Route.S allPassengers n _).2.2, hc]
  · intro R
    rw [(dispatch_route R allPassengers n _).1, hc]
  · rw [(dispatch_route Route.S allPassengers n _).2.1, hc]
  · rw [dispatch_cursor_eq_simAt_succ]
    by_cases hlen : allPassengers.length ≤ (simAt allPassengers (n + 1)).arrivalTracker
    · exact Or.inl hlen
    · right
      push_neg at hlen
      refine ⟨allPassengers[(simAt allPassengers (n + 1)).arrivalTracker],
        List.getElem?_eq_getElem hlen, ?_⟩
      have hmem : allPassengers[(simAt allPassengers (n + 1)).arrivalTracker]
          ∈ allPassengers.drop (simAt allPassengers (n + 1)).arrivalTracker := by
        rw [List.drop_eq_getElem_cons hlen]
        exact List.mem_cons_self _ _
      have := (cursor_splits_sorted allPassengers hsorted hnonneg (n + 1)).2 _ hmem
      push_cast at this
      omega

/-- Witness for C13: tick 0 of `sampleFeed`, whose arrival times are 0, 0, 1, 2. -/
theorem dispatch_on_sorted_feed_witness :
    SortedByArrival sampleFeed ∧ (∀ p, p ∈ sampleFeed → 0 ≤ p.arrivalTime) ∧
      (tickStep sampleFeed 0 (simAt sampleFeed 0)).2 = dueAt sampleFeed 0 ∧
      dueAt sampleFeed 0 = [⟨'S', 1, 0⟩, ⟨'L', 2, 0⟩] :=
  ⟨by unfold SortedByArrival; decide, by decide,
    (dispatch_on_sorted_feed sampleFeed (by unfold SortedByArrival; decide) (by decide) 0).1,
    by decide⟩

/-- C12: on a non-empty feed in ascending order of arrival time whose records are all due
at ticks 0 to 1000 and all carry a tag other than S, L, C, the run prints the completion
message for the tick at which the last record is due and no warning, and in every row
the three routes are in their initial state. -/
theorem unroutable_feed_completes_at_last_arrival (allPassengers : List Passenger)
    (hne : allPassengers ≠ []) (hsorted : SortedByArrival allPassengers)
    (hrange : ∀ p, p ∈ allPassengers → 0 ≤ p.arrivalTime ∧ p.arrivalTime ≤ 1000)
    (htag : ∀ p, p ∈ allPassengers →
      p.routeType ≠ 'S' ∧ p.routeType ≠ 'L' ∧ p.routeType ≠ 'C') :
    ∃ o, (∀ extra, runSimulation allPassengers (1002 + extra) = some o) ∧
      o.endedAt = some (allPassengers.getLast hne).arrivalTime.toNat ∧
      o.warned = false ∧
      ∀ rec, rec ∈ o.trace →
        rec.state.shortTaxi = initialTaxi ∧ rec.state.longTaxi = initialTaxi ∧
        rec.state.cityTaxi = initialTaxi := by
  have ha : (((allPassengers.getLast hne).arrivalTime.toNat : Nat) : Int)
      = (allPassengers.getLast hne).arrivalTime :=
    Int.toNat_of_nonneg (hrange _ (List.getLast_mem hne)).1
  obtain ⟨hlast, hca, ha1000⟩ :=
    run_of_unroutable_feed allPassengers hne hsorted hrange htag _ ha
  refine ⟨outcomeAt allPassengers (lastTick allPassengers), ?_, ?_, ?_, ?_⟩
  · intro extra
    exact runSimulation_eq _ _ (by have := lastTick_le allPassengers; omega)
  · rw [hlast]
    unfold outcomeAt
    simp only [hca, if_true]
  · rw [hlast]
    have : ¬ (allPassengers.getLast hne).arrivalTime.toNat > 1000 := by omega
    simp [outcomeAt, this]
  · intro rec hrec
    rw [mem_trace_outcomeAt] at hrec
    obtain ⟨k, _, rfl⟩ := hrec
    rw [recAt_state_eq]
    exact ⟨routes_initial_of_unroutable allPassengers htag Route.S (k + 1),
      routes_initial_of_unroutable allPassengers htag Route.L (k + 1),
      routes_initial_of_unroutable allPassengers htag Route.C (k + 1)⟩

/-- Witness for C12: `unroutableFeed`, whose last record is due at tick 3. -/
theorem unroutable_feed_completes_at_last_arrival_witness :
    unroutableFeed ≠ [] ∧ SortedByArrival unroutableFeed ∧
      (runSimulation unroutableFeed 1002).map Outcome.endedAt = some (some 3) ∧
      ∃ o, (∀ extra, runSimulation unroutableFeed (1002 + extra) = some o) ∧
        o.endedAt = some (unroutableFeed.getLast (by decide)).arrivalTime.toNat ∧
        o.warned = false ∧
        ∀ rec, rec ∈ o.trace →
          rec.state.shortTaxi = initialTaxi ∧ rec.state.longTaxi = initialTaxi ∧
          rec.state.cityTaxi = initialTaxi :=
  ⟨by decide, by unfold SortedByArrival; decide, by decide,
    unroutable_feed_completes_at_last_arrival unroutableFeed (by decide)
      (by unfold SortedByArrival; decide) (by decide) (by decide)⟩

/-- C19: for two feeds in ascending order of non-negative arrival times that hold the same
records with the tag of route `R`, in the same order, the state of route `R` (queue,
boarding slot, timer, capacity, onboard list, status) is the same after any number of
ticks, and so the same in any two rows of the two runs that show the same tick; records
with other tags have no effect on it. -/
theorem route_non_interference (R : Route) (feed1 feed2 : List Passenger)
    (hsorted1 : SortedByArrival feed1) (hsorted2 : SortedByArrival feed2)
    (hnonneg1 : ∀ p, p ∈ feed1 → 0 ≤ p.arrivalTime)
    (hnonneg2 : ∀ p, p ∈ feed2 → 0 ≤ p.arrivalTime)
    (hsame : feed1.filter (fun p => decide (p.routeType = R.label))
      = feed2.filter (fun p => decide (p.routeType = R.label))) :
    (∀ n, R.state (simAt feed1 n) = R.state (simAt feed2 n)) ∧
    (∀ (fuel1 fuel2 : Nat) (o1 o2 : Outcome) (rec1 rec2 : TickRecord),
      runSimulation feed1 fuel1 = some o1 → runSimulation feed2 fuel2 = some o2 →
      rec1 ∈ o1.trace → rec2 ∈ o2.trace → rec1.timeInstance = rec2.timeInstance →
      R.state rec1.state = R.state rec2.state) := by
  have key := route_state_of_own_records R feed1 feed2 hsorted1 hsorted2 hnonneg1 hnonneg2 hsame
  refine ⟨key, ?_⟩
  intro fuel1 fuel2 o1 o2 rec1 rec2 h1 h2 hr1 hr2 ht
  rw [runSimulation_some feed1 fuel1 o1 h1, mem_trace_outcomeAt] at hr1
  rw [runSimulation_some feed2 fuel2 o2 h2, mem_trace_outcomeAt] at hr2
  obtain ⟨k1, _, rfl⟩ := hr1
  obtain ⟨k2, _, rfl⟩ := hr2
  rw [recAt_timeInstance, recAt_timeInstance] at ht
  subst ht
  rw [recAt_state_eq, recAt_state_eq]
  exact key (k1 + 1)

/-- Witness for C19: the L route on `sampleFeed` and on the feed of its L record alone. -/
theorem route_non_interference_witness :
    SortedByArrival sampleFeed ∧ SortedByArrival [⟨'L', 2, 0⟩] ∧
      sampleFeed.filter (fun p => decide (p.routeType = Route.L.label))
        = [(⟨'L', 2, 0⟩ : Passenger)].filter (fun p => decide (p.routeType = Route.L.label)) ∧
      Route.L.state (simAt sampleFeed 2) = Route.L.state (simAt [⟨'L', 2, 0⟩] 2) :=
  ⟨by unfold SortedByArrival; decide, by unfold SortedByArrival; decide, by decide,
    (route_non_interference Route.L sampleFeed [⟨'L', 2, 0⟩]
      (by unfold SortedByArrival; decide) (by unfold SortedByArrival; decide)
      (by decide) (by decide) (by decide)).1 2⟩

/-- C21: on the empty feed the run processes tick 0 only: it shows one row, with no
arrivals and the three routes in the initial state (`Waiting`, capacity 5, empty queue),
prints the completion message for tick 0 and no warning. -/
theorem empty_feed_completes_at_tick_zero :
    ∃ o, (∀ extra, runSimulation [] (1002 + extra) = some o) ∧
      o.trace = [⟨0, [], initialState⟩] ∧ o.endedAt = some 0 ∧ o.warned = false ∧
      o.trace.map (routeView SimState.shortTaxi) = [(0, Status.Waiting, 5, 0)] ∧
      o.trace.map (routeView SimState.longTaxi) = [(0, Status.Waiting, 5, 0)] ∧
      o.trace.map (routeView SimState.cityTaxi) = [(0, Status.Waiting, 5, 0)] ∧
      o.trace.map (fun rec => (printSimulationRow rec).sizeS + (printSimulationRow rec).sizeL
        + (printSimulationRow rec).sizeC) = [0] := by
  refine ⟨outcomeAt [] 0, ?_, by decide, by decide, by decide, by decide, by decide,
    by decide, by decide⟩
  intro extra
  have := runSimulation_eq [] (1002 + extra) (by rw [lastTick_nil]; omega)
  rw [lastTick_nil] at this
  exact this

/-- C26: when the state handed to `processTaxiRoute` in a tick of a simulation has status
`Departed`, the call leaves the status `Waiting`, the capacity `TAXI_CAPACITY` and the
onboard list empty; if the queue was not empty its head is dequeued in the same call and
is the boarding passenger, with the timer set to its boarding time; if the queue was
empty no boarding is in progress afterwards. -/
theorem reset_on_departure_first (allPassengers : List Passenger) (R : Route) (n : Nat)
    (hdep : (R.state (dispatch allPassengers n (simAt allPassengers n)).1).status
      = Status.Departed) :
    (R.state (simAt allPassengers (n + 1))
      = processTaxiRoute (R.state (dispatch allPassengers n (simAt allPassengers n)).1)
          R.label) ∧
    (R.state (simAt allPassengers (n + 1))).status = Status.Waiting ∧
    (R.state (simAt allPassengers (n + 1))).currentCapacity = TAXI_CAPACITY ∧
    (R.state (simAt allPassengers (n + 1))).onBoardList = [] ∧
    (∀ p rest, (R.state (dispatch allPassengers n (simAt allPassengers n)).1).passengerQueue
        = p :: rest →
      (R.state (simAt allPassengers (n + 1))).isBoarding = true ∧
      (R.state (simAt allPassengers (n + 1))).currentBoardingPassenger = p ∧
      (R.state (simAt allPassengers (n + 1))).boardingTimer = p.boardingTime ∧
      (R.state (simAt allPassengers (n + 1))).passengerQueue = rest) ∧
    ((R.state (dispatch allPassengers n (simAt allPassengers n)).1).passengerQueue = [] →
      (R.state (simAt allPassengers (n + 1))).isBoarding = false) := by
  have hinv : RouteInv (R.state (dispatch allPassengers n (simAt allPassengers n)).1) := by
    rw [(dispatch_route R allPassengers n _).1]
    exact routeInv_push _ _ (routeInv_route R _ (simInv_simAt allPassengers n))
  obtain ⟨_, _, h3, _, h5⟩ := hinv
  have hb : (R.state (dispatch allPassengers n (simAt allPassengers n)).1).isBoarding = false := by
    cases hbb : (R.state (dispatch allPassengers n (simAt allPassengers n)).1).isBoarding with
    | false => rfl
    | true =>
      have := h5 hbb
      have := h3.mp hdep
      omega
  rw [route_state_succ]
  generalize R.state (dispatch allPassengers n (simAt allPassengers n)).1 = r at hdep hb ⊢
  obtain ⟨q, ob, b, tm, cur, cap, st⟩ := r
  simp only at hdep hb
  subst hdep hb
  refine ⟨rfl, ?_, ?_, ?_, ?_, ?_⟩
  · cases q <;> simp [processTaxiRoute, resetOnDeparture, advanceBoarding, startNextBoarding,
      canStartBoarding, TAXI_CAPACITY]
  · cases q <;> simp [processTaxiRoute, resetOnDeparture, advanceBoarding, startNextBoarding,
      canStartBoarding, TAXI_CAPACITY]
  · cases q <;> simp [processTaxiRoute, resetOnDeparture, advanceBoarding, startNextBoarding,
      canStartBoarding, TAXI_CAPACITY]
  · intro p rest hq
    simp only at hq
    subst hq
    simp [processTaxiRoute, resetOnDeparture, advanceBoarding, startNextBoarding,
      canStartBoarding, TAXI_CAPACITY]
  · intro hq
    simp only at hq
    subst hq
    simp [processTaxiRoute, resetOnDeparture, advanceBoarding, startNextBoarding,
      canStartBoarding, TAXI_CAPACITY]

/-- Witness for C26: tick 6 of the run on `continuedFeed`; the S route is `Departed` when
the tick starts and the sixth passenger is in its queue. -/
theorem reset_on_departure_first_witness :
    (Route.S.state (dispatch continuedFeed 6 (simAt continuedFeed 6)).1).status
        = Status.Departed ∧
      (Route.S.state (simAt continuedFeed (6 + 1))).status = Status.Waiting ∧
      (Route.S.state (simAt continuedFeed (6 + 1))).isBoarding = true := by
  have h := reset_on_departure_first continuedFeed Route.S 6 continuedFeed_departed
  exact ⟨continuedFeed_departed, h.2.1, (h.2.2.2.2.1 _ _ continuedFeed_queue).1⟩

/-- Counterexample to C27: two route states with a boarding in progress, timer at most 1
and capacity 1 on which the call does not end in `Departed`. In the first the status is
already `Departed`, so the reset block runs first and the boarding completes into a
vehicle of capacity 5: the result is `Board` with capacity 4, and the waiting passenger
is dequeued. In the second the timer is `INT_MIN`, whose decrement wraps around to
`INT_MAX`: the boarding goes on, with status `Board` and capacity 1. -/
theorem last_seat_without_departure :
    (departedWhileBoarding.isBoarding = true ∧ departedWhileBoarding.boardingTimer ≤ 1 ∧
      departedWhileBoarding.currentCapacity = 1 ∧
      (processTaxiRoute departedWhileBoarding 'S').status = Status.Board ∧
      (processTaxiRoute departedWhileBoarding 'S').currentCapacity = 4 ∧
      (processTaxiRoute departedWhileBoarding 'S').passengerQueue
        ≠ departedWhileBoarding.passengerQueue) ∧
    (lastSeatTimerAtMin.isBoarding = true ∧ lastSeatTimerAtMin.boardingTimer ≤ 1 ∧
      lastSeatTimerAtMin.currentCapacity = 1 ∧
      (processTaxiRoute lastSeatTimerAtMin 'S').status = Status.Board ∧
      (processTaxiRoute lastSeatTimerAtMin 'S').currentCapacity = 1 ∧
      (processTaxiRoute lastSeatTimerAtMin 'S').isBoarding = true) := by
  refine ⟨⟨by decide, by decide, by decide, by decide, by decide, by decide⟩,
    ⟨by decide, by decide, by decide, by decide, by decide, by decide⟩⟩

/-- C27 (amended): for every route state whose status is not `Departed`, in which a
boarding is in progress, the timer is at most 1 (and above `INT_MIN`) and the capacity is
1, one call of `processTaxiRoute` completes the boarding and ends with status `Departed`,
capacity 0, no boarding in progress and the queue as it was. -/
theorem full_vehicle_departs_at_once (r : TaxiRouteState) (c : Char)
    (hb : r.isBoarding = true) (hmin : INT_MIN < r.boardingTimer)
    (h1 : r.boardingTimer ≤ 1) (hc : r.currentCapacity = 1)
    (hs : r.status ≠ Status.Departed) :
    (processTaxiRoute r c).status = Status.Departed ∧
      (processTaxiRoute r c).currentCapacity = 0 ∧
      (processTaxiRoute r c).isBoarding = false ∧
      (processTaxiRoute r c).passengerQueue = r.passengerQueue ∧
      (processTaxiRoute r c).onBoardList = r.onBoardList ++ [r.currentBoardingPassenger] := by
  rw [processTaxiRoute_last_seat r c hb hmin h1 hc hs]
  exact ⟨rfl, rfl, rfl, rfl, rfl⟩

/-- Witness for C27 (amended): `lastSeatRoute`, with a non-empty queue. -/
theorem full_vehicle_departs_at_once_witness :
    lastSeatRoute.passengerQueue ≠ [] ∧
      (processTaxiRoute lastSeatRoute 'S').status = Status.Departed ∧
      (processTaxiRoute lastSeatRoute 'S').passengerQueue = lastSeatRoute.passengerQueue := by
  have h := full_vehicle_departs_at_once lastSeatRoute 'S' (by decide) (by decide) (by decide)
    (by decide) (by decide)
  exact ⟨by decide, h.1, h.2.2.2.1⟩

/-- C28: on every route state with an empty queue, no boarding in progress and status
`Waiting` or `Board`, `processTaxiRoute` returns the state unchanged; so does any number
of calls, and the status never becomes `Departed`. -/
theorem idle_route_is_fixed_point (r : TaxiRouteState) (c : Char)
    (hq : r.passengerQueue = []) (hb : r.isBoarding = false)
    (hs : r.status = Status.Waiting ∨ r.status = Status.Board) :
    processTaxiRoute r c = r ∧
      ∀ n : Nat, (fun x => processTaxiRoute x c)^[n] r = r ∧
        ((fun x => processTaxiRoute x c)^[n] r).status ≠ Status.Departed := by
  have hnd : r.status ≠ Status.Departed := by
    rcases hs with h | h <;> rw [h] <;> decide
  have hfix := processTaxiRoute_idle r c hq hb hnd
  refine ⟨hfix, fun n => ?_⟩
  have hn : (fun x => processTaxiRoute x c)^[n] r = r :=
    Function.iterate_fixed (f := fun x => processTaxiRoute x c) hfix n
  exact ⟨hn, by rw [hn]; exact hnd⟩

/-- Witness for C28: `idleRoute`, with two passengers onboard. -/
theorem idle_route_is_fixed_point_witness :
    idleRoute.passengerQueue = [] ∧ idleRoute.isBoarding = false ∧
      processTaxiRoute idleRoute 'S' = idleRoute :=
  ⟨by decide, by decide,
    (idle_route_is_fixed_point idleRoute 'S' (by decide) (by decide) (Or.inr (by decide))).1⟩

/-- C29: on every route state with no boarding in progress, a non-empty queue, positive
capacity and status `Waiting` or `Board`, `processTaxiRoute` changes exactly four fields:
the queue loses its head, which becomes the boarding passenger, the timer is the head's
boarding time and a boarding is in progress; status, capacity, onboard list and the rest
of the queue are as before. -/
theorem start_boarding_frame (r : TaxiRouteState) (c : Char) (p : Passenger)
    (rest : List Passenger) (hb : r.isBoarding = false) (hq : r.passengerQueue = p :: rest)
    (hc : 0 < r.currentCapacity)
    (hs : r.status = Status.Waiting ∨ r.status = Status.Board) :
    processTaxiRoute r c =
      { passengerQueue := rest
        onBoardList := r.onBoardList
        isBoarding := true
        boardingTimer := p.boardingTime
        currentBoardingPassenger := p
        currentCapacity := r.currentCapacity
        status := r.status } := by
  have hnd : r.status ≠ Status.Departed := by
    rcases hs with h | h <;> rw [h] <;> decide
  exact processTaxiRoute_start r c hb p rest hq hc hnd

/-- Witness for C29: `readyRoute`, whose queue head has boarding time 3. -/
theorem start_boarding_frame_witness :
    readyRoute.passengerQueue = [⟨'S', 3, 0⟩, ⟨'S', 2, 0⟩] ∧
      (processTaxiRoute readyRoute 'S').boardingTimer = 3 ∧
      (processTaxiRoute readyRoute 'S').passengerQueue = [⟨'S', 2, 0⟩] := by
  have h := start_boarding_frame readyRoute 'S' ⟨'S', 3, 0⟩ [⟨'S', 2, 0⟩] (by decide)
    (by decide) (by decide) (Or.inr (by decide))
  exact ⟨by decide, by rw [h], by rw [h]⟩

/-- Counterexample to C30 as stated: for the single passenger `S` with boarding time 2000
due at tick 0 the formula gives tick 2000, but the run is cut at tick 1001 with the
warning only, and no row shows the passenger onboard. -/
theorem schedule_tick_beyond_ceiling_is_not_reached :
    completionTick [⟨'S', 2000, 0⟩] 0 = 2000 ∧
      ∃ o, runSimulation [⟨'S', 2000, 0⟩] 1002 = some o ∧ o.endedAt = none ∧
        o.warned = true ∧ ∀ rec, rec ∈ o.trace → rec.state.shortTaxi.onBoardList = [] :=
  ⟨by decide, long_boarding_cut_off⟩

/-- C30 (as amended): on a non-empty feed whose records all carry the tag of one route `R`,
are due at tick 0 and have boarding times between 1 and `INT_MAX`, the run returns an
outcome in which passenger `j` (counting from 0, so the `k`-th with `k = j + 1`) completes
boarding in tick `completionTick F j = d1 + ... + dk + (k - 1) / 5`: exactly the `j`
passengers before it have completed boarding before that tick and it is the next one, the
tick appends it to the onboard list, and the row of that tick is in the trace whenever the
tick is at most 1001; when the tick of the last passenger is at most 1000, the run reports
completion at that tick without the warning. -/
theorem single_route_boarding_schedule (R : Route) (F : List Passenger) (hne : F ≠ [])
    (htag : ∀ p, p ∈ F → p.routeType = R.label) (harr : ∀ p, p ∈ F → p.arrivalTime = 0)
    (hdur : ∀ p, p ∈ F → 1 ≤ p.boardingTime ∧ p.boardingTime ≤ INT_MAX) :
    ∃ o, (∀ fuel, 1002 ≤ fuel → runSimulation F fuel = some o) ∧
      (∀ j p, F[j]? = some p →
        boardedBy R F (completionTick F j) = F.take j ∧
        boardedBy R F (completionTick F j + 1) = F.take (j + 1) ∧
        (R.state (simAt F (completionTick F j + 1))).onBoardList
          = (R.state (simAt F (completionTick F j))).onBoardList ++ [p] ∧
        (completionTick F j ≤ 1001 → recAt F (completionTick F j) ∈ o.trace)) ∧
      (completionTick F (F.length - 1) ≤ 1000 →
        o.endedAt = some (completionTick F (F.length - 1)) ∧ o.warned = false) := by
  refine ⟨outcomeAt F (lastTick F), ?_, ?_, ?_⟩
  · intro fuel hfuel
    exact runSimulation_eq F fuel (by have := lastTick_le F; omega)
  · intro j p hp
    obtain ⟨hb1, hb2⟩ := boardedBy_at_completion R F htag harr hdur j p hp
    obtain ⟨h1, _, onb, st, _, hst, hstate⟩ :=
      schedule_before_completion R F htag harr hdur j p hp
    obtain ⟨_, _, hgs⟩ := route_state_all_at_zero R F harr htag
    refine ⟨hb1, hb2, ?_, ?_⟩
    · rw [hgs _ h1, hstate, step_complete_onBoard onb p _ st R.label hst]
      rfl
    · intro hle
      rw [mem_trace_outcomeAt]
      exact ⟨_, completionTick_le_lastTick R F htag harr hdur j p hp hle, rfl⟩
  · intro hle
    obtain ⟨hlast, hdone⟩ := lastTick_single_route R F hne htag harr hdur hle
    unfold outcomeAt
    rw [hlast, hdone]
    simp
    omega

/-- Witness for C30: the hypotheses hold for `scheduleFeed` on route S, whose completion
ticks are 2, 3, 6, 7, 8 and 11. -/
theorem single_route_boarding_schedule_witness :
    (scheduleFeed ≠ [] ∧ (∀ p, p ∈ scheduleFeed → p.routeType = Route.S.label) ∧
      (∀ p, p ∈ scheduleFeed → p.arrivalTime = 0) ∧
      (∀ p, p ∈ scheduleFeed → 1 ≤ p.boardingTime ∧ p.boardingTime ≤ INT_MAX)) ∧
    ∃ o, (∀ fuel, 1002 ≤ fuel → runSimulation scheduleFeed fuel = some o) ∧
      (∀ j p, scheduleFeed[j]? = some p →
        boardedBy Route.S scheduleFeed (completionTick scheduleFeed j) = scheduleFeed.take j ∧
        boardedBy Route.S scheduleFeed (completionTick scheduleFeed j + 1)
          = scheduleFeed.take (j + 1) ∧
        (Route.S.state (simAt scheduleFeed (completionTick scheduleFeed j + 1))).onBoardList
          = (Route.S.state (simAt scheduleFeed (completionTick scheduleFeed j))).onBoardList
            ++ [p] ∧
        (completionTick scheduleFeed j ≤ 1001 →
          recAt scheduleFeed (completionTick scheduleFeed j) ∈ o.trace)) ∧
      (completionTick scheduleFeed (scheduleFeed.length - 1) ≤ 1000 →
        o.endedAt = some (completionTick scheduleFeed (scheduleFeed.length - 1)) ∧
        o.warned = false) := by
  have h1 : scheduleFeed ≠ [] := by decide
  have h2 : ∀ p, p ∈ scheduleFeed → p.routeType = Route.S.label := by decide
  have h3 : ∀ p, p ∈ scheduleFeed → p.arrivalTime = 0 := by decide
  have h4 : ∀ p, p ∈ scheduleFeed → 1 ≤ p.boardingTime ∧ p.boardingTime ≤ INT_MAX := by
    decide
  exact ⟨⟨h1, h2, h3, h4⟩, single_route_boarding_schedule Route.S scheduleFeed h1 h2 h3 h4⟩

/-- C31: in every row of every run and for each route, the status is `Waiting` exactly
when the capacity is `TAXI_CAPACITY`, `Board` exactly when it is between 1 and
`TAXI_CAPACITY - 1`, and `Departed` exactly when it is 0; and between a row in which the
route shows `Board` and a later row in which it shows `Waiting` there is a row in which
it shows `Departed`. -/
theorem status_is_function_of_capacity (allPassengers : List Passenger) (fuel : Nat)
    (o : Outcome) (hrun : runSimulation allPassengers fuel = some o) (rec : TickRecord)
    (hrec : rec ∈ o.trace) (R : Route) :
    ((R.state rec.state).status = Status.Waiting
        ↔ (R.state rec.state).currentCapacity = TAXI_CAPACITY) ∧
      ((R.state rec.state).status = Status.Board
        ↔ 1 ≤ (R.state rec.state).currentCapacity ∧
          (R.state rec.state).currentCapacity ≤ TAXI_CAPACITY - 1) ∧
      ((R.state rec.state).status = Status.Departed
        ↔ (R.state rec.state).currentCapacity = 0) ∧
      ∀ rec2, rec2 ∈ o.trace → rec.timeInstance < rec2.timeInstance →
        (R.state rec.state).status = Status.Board →
        (R.state rec2.state).status = Status.Waiting →
        ∃ rec3, rec3 ∈ o.trace ∧ rec.timeInstance < rec3.timeInstance ∧
          rec3.timeInstance < rec2.timeInstance ∧
          (R.state rec3.state).status = Status.Departed := by
  obtain ⟨h1, h2, h3, h4, _⟩ :=
    routeInv_route R rec.state (simInv_of_mem_trace allPassengers fuel o hrun rec hrec)
  refine ⟨h4, ?_, h3, ?_⟩
  · unfold TAXI_CAPACITY at h1 h4 ⊢
    constructor
    · intro hb
      have hn0 : (R.state rec.state).currentCapacity ≠ 0 := fun he => by
        have := h3.mpr he
        rw [hb] at this
        exact absurd this (by decide)
      have hn5 : (R.state rec.state).currentCapacity ≠ 5 := fun he => by
        have := h4.mpr he
        rw [hb] at this
        exact absurd this (by decide)
      omega
    · rintro ⟨hlo, hhi⟩
      cases hs : (R.state rec.state).status
      · have := h4.mp hs
        omega
      · rfl
      · have := h3.mp hs
        omega
  · intro rec2 hrec2 hlt hb hw
    have ho := runSimulation_some allPassengers fuel o hrun
    rw [ho, mem_trace_outcomeAt] at hrec hrec2
    obtain ⟨a, _, rfl⟩ := hrec
    obtain ⟨b, hb2, rfl⟩ := hrec2
    rw [recAt_timeInstance, recAt_timeInstance] at hlt
    rw [recAt_state_eq] at hb hw
    obtain ⟨k, hk1, hk2, hk3⟩ :=
      departed_between_board_and_waiting R allPassengers (a + 1) hb (b + 1) (by omega) hw
    obtain ⟨k2, rfl⟩ : ∃ k2, k = k2 + 1 := ⟨k - 1, by omega⟩
    refine ⟨recAt allPassengers k2, ?_, ?_, ?_, hk3⟩
    · rw [ho, mem_trace_outcomeAt]
      exact ⟨k2, by omega, rfl⟩
    · rw [recAt_timeInstance, recAt_timeInstance]; omega
    · rw [recAt_timeInstance, recAt_timeInstance]; omega

/-- Witness for C31: the L route in the row of tick 2 of the run of `sampleFeed`. -/
theorem status_is_function_of_capacity_witness :
    runSimulation sampleFeed 10 = some sampleOutcome ∧ sampleRecord ∈ sampleOutcome.trace ∧
      ((Route.L.state sampleRecord.state).status = Status.Board
        ↔ 1 ≤ (Route.L.state sampleRecord.state).currentCapacity ∧
          (Route.L.state sampleRecord.state).currentCapacity ≤ TAXI_CAPACITY - 1) :=
  ⟨sampleOutcome_eq, sampleRecord_mem,
    (status_is_function_of_capacity sampleFeed 10 sampleOutcome sampleOutcome_eq sampleRecord
      sampleRecord_mem Route.L).2.1⟩

/-- C32: for every feed, route and number of ticks, the number of dispatched passengers
carrying the route's tag is the length of the route's queue, plus 1 if a boarding is in
progress, plus the number onboard, plus `TAXI_CAPACITY` for every reset on departure the
route has performed; and every reset clears an onboard list of exactly `TAXI_CAPACITY`
passengers. -/
theorem passenger_conservation (allPassengers : List Passenger) (R : Route) (n : Nat) :
    ((dispatchedTo R allPassengers n).length : Int)
        = (R.state (simAt allPassengers n)).passengerQueue.length
          + (if (R.state (simAt allPassengers n)).isBoarding then 1 else 0)
          + (R.state (simAt allPassengers n)).onBoardList.length
          + TAXI_CAPACITY * resetsBy R allPassengers n ∧
      (resetsBy R allPassengers (n + 1) = resetsBy R allPassengers n
          + (if (R.state (simAt allPassengers n)).status = Status.Departed then 1 else 0)) ∧
      ((R.state (simAt allPassengers n)).status = Status.Departed →
        ((R.state (simAt allPassengers n)).onBoardList.length : Int) = TAXI_CAPACITY ∧
        (resetOnDeparture
            (R.state (dispatch allPassengers n (simAt allPassengers n)).1)).onBoardList
          = []) := by
  obtain ⟨hst, hob⟩ := dispatch_route_frame R allPassengers n
  refine ⟨?_, ?_, ?_⟩
  · have hf := congrArg List.length (fifo_simAt R allPassengers n)
    rw [List.length_append, List.length_append, boardedBy_length] at hf
    have hslot : (boardingSlot (R.state (simAt allPassengers n))).length
        = if (R.state (simAt allPassengers n)).isBoarding then 1 else 0 := by
      unfold boardingSlot
      split_ifs <;> rfl
    rw [hslot] at hf
    unfold TAXI_CAPACITY
    rw [← hf]
    split_ifs <;> push_cast <;> ring
  · show resetsBy R allPassengers n + _ = _
    rw [hst]
  · intro hd
    obtain ⟨hcap, _, hdep, _, _⟩ := routeInv_route R _ (simInv_simAt allPassengers n)
    have := hdep.mp hd
    refine ⟨by omega, ?_⟩
    unfold resetOnDeparture
    rw [if_pos (hst.symm ▸ hd)]

/-- C33: if after the dispatch of tick `T` the record at the cursor is due before `T`,
then from tick `T + 1` on the cursor stays where it is and no tick dispatches anything,
the completion condition holds after no tick, and the run ends at tick 1001 with the
warning and without the completion message, after 1002 rows. -/
theorem stale_record_blocks_feed (allPassengers : List Passenger) (T : Nat) (p : Passenger)
    (hcur : allPassengers[(dispatch allPassengers T (simAt allPassengers T)).1.arrivalTracker]?
      = some p)
    (hstale : p.arrivalTime < (T : Int)) :
    (∀ n, T < n →
      (simAt allPassengers n).arrivalTracker
        = (dispatch allPassengers T (simAt allPassengers T)).1.arrivalTracker ∧
      (dispatch allPassengers n (simAt allPassengers n)).1.arrivalTracker
        = (dispatch allPassengers T (simAt allPassengers T)).1.arrivalTracker ∧
      (dispatch allPassengers n (simAt allPassengers n)).2 = []) ∧
    (∀ n, allProcessingComplete (simAt allPassengers n) allPassengers = false) ∧
    ∃ o, (∀ fuel, 1002 ≤ fuel → runSimulation allPassengers fuel = some o) ∧
      o.endedAt = none ∧ o.warned = true ∧ o.trace.length = 1002 := by
  rw [dispatch_cursor_eq_simAt_succ] at hcur ⊢
  have hlt := (List.getElem?_eq_some_iff.mp hcur).1
  have hblock := cursor_blocked allPassengers T p hcur hstale
  have hnever : ∀ n, allProcessingComplete (simAt allPassengers n) allPassengers = false := by
    intro n
    have hle : (simAt allPassengers n).arrivalTracker < allPassengers.length := by
      by_cases hn : n ≤ T + 1
      · have := arrivalTracker_mono allPassengers n (T + 1 - n)
        rw [show n + (T + 1 - n) = T + 1 by omega] at this
        omega
      · have := (hblock (n - (T + 1))).1
        rw [show T + 1 + (n - (T + 1)) = n by omega] at this
        omega
    unfold allProcessingComplete
    simp [Nat.not_le.mpr hle]
  refine ⟨?_, hnever, outcomeAt allPassengers (lastTick allPassengers), ?_⟩
  · intro n hn
    obtain ⟨h1, h2⟩ := hblock (n - (T + 1))
    rw [show T + 1 + (n - (T + 1)) = n by omega] at h1 h2
    obtain ⟨_, d2, d3⟩ := dispatch_route Route.S allPassengers n (simAt allPassengers n)
    refine ⟨h1, ?_, ?_⟩
    · rw [d2, h2, h1]
      rfl
    · rw [d3, h2]
  · have hrun : ∀ fuel, 1002 ≤ fuel → runSimulation allPassengers fuel
        = some (outcomeAt allPassengers (lastTick allPassengers)) := by
      intro fuel hfuel
      exact runSimulation_eq allPassengers fuel (by have := lastTick_le allPassengers; omega)
    obtain ⟨_, h2, h3, h4⟩ := run_of_never_complete allPassengers 1002 _ (hrun 1002 (le_refl _))
      (by
        intro rec hrec
        rw [mem_trace_outcomeAt] at hrec
        obtain ⟨k, _, rfl⟩ := hrec
        exact hnever (k + 1))
    exact ⟨hrun, h4, h3, h2⟩

/-- Witness for C33: `staleFeed` at tick 0, where the record at the cursor is due at
tick -1. -/
theorem stale_record_blocks_feed_witness :
    (staleFeed[(dispatch staleFeed 0 (simAt staleFeed 0)).1.arrivalTracker]?
        = some ⟨'S', 1, -1⟩ ∧
      (⟨'S', 1, -1⟩ : Passenger).arrivalTime < ((0 : Nat) : Int)) ∧
    ((∀ n, 0 < n →
      (simAt staleFeed n).arrivalTracker
        = (dispatch staleFeed 0 (simAt staleFeed 0)).1.arrivalTracker ∧
      (dispatch staleFeed n (simAt staleFeed n)).1.arrivalTracker
        = (dispatch staleFeed 0 (simAt staleFeed 0)).1.arrivalTracker ∧
      (dispatch staleFeed n (simAt staleFeed n)).2 = []) ∧
    (∀ n, allProcessingComplete (simAt staleFeed n) staleFeed = false) ∧
    ∃ o, (∀ fuel, 1002 ≤ fuel → runSimulation staleFeed fuel = some o) ∧
      o.endedAt = none ∧ o.warned = true ∧ o.trace.length = 1002) := by
  have h1 : staleFeed[(dispatch staleFeed 0 (simAt staleFeed 0)).1.arrivalTracker]?
      = some ⟨'S', 1, -1⟩ := by decide
  have h2 : (⟨'S', 1, -1⟩ : Passenger).arrivalTime < ((0 : Nat) : Int) := by decide
  exact ⟨⟨h1, h2⟩, stale_record_blocks_feed staleFeed 0 ⟨'S', 1, -1⟩ h1 h2⟩

/-- Counterexample to C34: the passenger of `intMinFeed` has boarding time -2147483648 and
is dequeued for boarding in tick 0; the decrement of tick 1 wraps, so the row of tick 1
shows it still boarding, with the timer at 2147483647 and nobody onboard. -/
theorem least_int_duration_keeps_boarding :
    boardingStartedAt Route.S intMinFeed 0 = true ∧
      (recAt intMinFeed 0).state.shortTaxi.currentBoardingPassenger.boardingTime
        = -2147483648 ∧
      ∃ o, runSimulation intMinFeed 1002 = some o ∧ recAt intMinFeed 1 ∈ o.trace ∧
        (recAt intMinFeed 1).state.shortTaxi.isBoarding = true ∧
        (recAt intMinFeed 1).state.shortTaxi.boardingTimer = 2147483647 ∧
        (recAt intMinFeed 1).state.shortTaxi.onBoardList = [] := by
  refine ⟨by decide, by decide, outcomeAt intMinFeed (lastTick intMinFeed),
    runSimulation_eq intMinFeed 1002 (by have := lastTick_le intMinFeed; omega), ?_,
    by decide, by decide, by decide⟩
  rw [mem_trace_outcomeAt]
  refine ⟨1, le_lastTick_of_not_stopsAt intMinFeed 1 ?_, rfl⟩
  intro k hk
  obtain rfl : k = 0 := by omega
  decide

/-- C34 (as amended): when the call of `processTaxiRoute` on a route in a processed tick
`t ≤ 1000` dequeues a passenger whose boarding time `d` is at most 0 and above `INT_MIN`,
the row of tick `t` shows the passenger boarding with timer `d`; tick `t + 1` is
processed, its second block completes the boarding, leaving no boarding in progress and
the timer at `d - 1`, and its row shows the passenger appended to the onboard list and
the capacity one lower; that row shows the timer at `d - 1` unless the third block of the
same call has started the next boarding. -/
theorem nonpositive_duration_boards_in_one_tick (allPassengers : List Passenger) (R : Route)
    (t : Nat) (fuel : Nat) (o : Outcome)
    (hrun : runSimulation allPassengers fuel = some o)
    (hrow : recAt allPassengers t ∈ o.trace)
    (hstart : boardingStartedAt R allPassengers t = true)
    (hd : (R.state (recAt allPassengers t).state).currentBoardingPassenger.boardingTime ≤ 0)
    (hmin : INT_MIN
      < (R.state (recAt allPassengers t).state).currentBoardingPassenger.boardingTime)
    (hreach : t ≤ 1000) :
    ((R.state (recAt allPassengers t).state).isBoarding = true ∧
      (R.state (recAt allPassengers t).state).boardingTimer
        = (R.state (recAt allPassengers t).state).currentBoardingPassenger.boardingTime) ∧
    recAt allPassengers (t + 1) ∈ o.trace ∧
    ((advanceBoarding (resetOnDeparture
        (R.state (dispatch allPassengers (t + 1) (simAt allPassengers (t + 1))).1))).isBoarding
      = false ∧
      (advanceBoarding (resetOnDeparture
        (R.state (dispatch allPassengers (t + 1) (simAt allPassengers (t + 1))).1))).boardingTimer
      = (R.state (recAt allPassengers t).state).currentBoardingPassenger.boardingTime - 1) ∧
    ((R.state (recAt allPassengers (t + 1)).state).onBoardList
        = (R.state (recAt allPassengers t).state).onBoardList
          ++ [(R.state (recAt allPassengers t).state).currentBoardingPassenger] ∧
      (R.state (recAt allPassengers (t + 1)).state).currentCapacity
        = (R.state (recAt allPassengers t).state).currentCapacity - 1) ∧
    ((R.state (recAt allPassengers (t + 1)).state).isBoarding = false →
      (R.state (recAt allPassengers (t + 1)).state).boardingTimer
        = (R.state (recAt allPassengers t).state).currentBoardingPassenger.boardingTime - 1) ∧
    ((R.state (recAt allPassengers (t + 1)).state).isBoarding = true →
      boardingStartedAt R allPassengers (t + 1) = true) := by
  simp only [recAt_state_eq] at hd hmin ⊢
  obtain ⟨hb, htm, hst, _⟩ := route_state_of_started R allPassengers t hstart
  have ht := le_lastTick_of_mem_trace allPassengers fuel o hrun t hrow
  have hlast : t + 1 ≤ lastTick allPassengers := by
    have := le_lastTick_of_boarding R allPassengers t _ ht hb hst htm
      (by unfold INT_MAX; omega) 1 (by simp) (by omega)
    exact this
  have hpre := (dispatch_route R allPassengers (t + 1) (simAt allPassengers (t + 1))).1
  have hadv := advance_nonpositive
    (R.state (dispatch allPassengers (t + 1) (simAt allPassengers (t + 1))).1)
    (by rw [hpre]; exact hb) (by rw [hpre]; exact hst)
    (by rw [hpre]; show (R.state (simAt allPassengers (t + 1))).boardingTimer ≤ 1; omega)
    (by rw [hpre]; show INT_MIN < (R.state (simAt allPassengers (t + 1))).boardingTimer; omega)
  have htimer : (R.state (dispatch allPassengers (t + 1)
      (simAt allPassengers (t + 1))).1).boardingTimer
      = (R.state (simAt allPassengers (t + 1))).currentBoardingPassenger.boardingTime := by
    rw [hpre]; exact htm
  rw [htimer] at hadv
  have hnext : R.state (simAt allPassengers (t + 1 + 1))
      = startNextBoarding (advanceBoarding (resetOnDeparture
          (R.state (dispatch allPassengers (t + 1) (simAt allPassengers (t + 1))).1))) :=
    route_state_succ R allPassengers (t + 1)
  refine ⟨⟨hb, htm⟩, recAt_mem_trace allPassengers fuel o hrun (t + 1) hlast, hadv, ?_, ?_, ?_⟩
  · have := processTaxiRoute_boarding_complete (R.state (simAt allPassengers (t + 1)))
      ((consumedAt allPassengers (t + 1) (simAt allPassengers (t + 1))).filter
        (fun p => decide (p.routeType = R.label))) R.label hb hst (by omega) (by omega)
    rw [← hpre, ← route_state_succ] at this
    exact this
  · intro hnb
    rw [hnext] at hnb ⊢
    rw [startNextBoarding_of_not_boarding _ hnb]
    exact hadv.2
  · intro hyb
    rw [hnext] at hyb
    exact canStart_of_boarding_after _ hadv.1 hyb

/-- Witness for C34: the feed of one S passenger with boarding time 0 due at tick 0. -/
theorem nonpositive_duration_boards_in_one_tick_witness :
    ∃ o, runSimulation [⟨'S', 0, 0⟩] 10 = some o ∧ recAt [⟨'S', 0, 0⟩] 0 ∈ o.trace ∧
      boardingStartedAt Route.S [⟨'S', 0, 0⟩] 0 = true ∧
      recAt [⟨'S', 0, 0⟩] (0 + 1) ∈ o.trace ∧
      (Route.S.state (recAt [⟨'S', 0, 0⟩] (0 + 1)).state).onBoardList
        = (Route.S.state (recAt [⟨'S', 0, 0⟩] 0).state).onBoardList
          ++ [(Route.S.state (recAt [⟨'S', 0, 0⟩] 0).state).currentBoardingPassenger] := by
  have hrun : runSimulation [⟨'S', 0, 0⟩] 10
      = some ((runSimulation [⟨'S', 0, 0⟩] 10).get (by decide)) := by simp
  have hrow : recAt [⟨'S', 0, 0⟩] 0 ∈ ((runSimulation [⟨'S', 0, 0⟩] 10).get (by decide)).trace := by
    decide
  have hstart : boardingStartedAt Route.S [⟨'S', 0, 0⟩] 0 = true := by decide
  have h := nonpositive_duration_boards_in_one_tick [⟨'S', 0, 0⟩] Route.S 0 10 _ hrun hrow
    hstart (by decide) (by decide) (by decide)
  exact ⟨_, hrun, hrow, hstart, h.2.1, h.2.2.2.1.1⟩

end TaxiQueue

/-!
# Properties of the city graph
-/

namespace CityRoutes

/-! ### The graphs `addIntersection` and `addRoute` build -/

theorem routesOf_mem (g : CityGraph) (u : Nat) (r : Route) (h : r ∈ g.routesOf u) :
    ∃ i, i ∈ g.intersections ∧ r ∈ i.routes := by
  unfold CityGraph.routesOf at h
  rw [List.getD_eq_getElem?_getD] at h
  cases hq : g.intersections[u]? with
  | none => rw [hq] at h; simp [Intersection.placeholder] at h
  | some i =>
    rw [hq] at h
    exact ⟨i, List.mem_iff_getElem?.mpr ⟨u, hq⟩, h⟩

theorem wellFormed_pushRoute (l : List Intersection) (i : Nat) (r : Route) (n : Nat)
    (hl : ∀ x, x ∈ l → ∀ r2, r2 ∈ x.routes → 0 ≤ r2.destination ∧ r2.destination < n)
    (hr : 0 ≤ r.destination ∧ r.destination < n) :
    ∀ x, x ∈ pushRoute l i r → ∀ r2, r2 ∈ x.routes → 0 ≤ r2.destination ∧ r2.destination < n := by
  intro x hx r2 hr2
  unfold pushRoute at hx
  rcases List.mem_or_eq_of_mem_set hx with hm | he
  · exact hl x hm r2 hr2
  · subst he
    simp only at hr2
    rcases List.mem_append.mp hr2 with h1 | h1
    · rw [List.getD_eq_getElem?_getD] at h1
      cases hq : l[i]? with
      | none => rw [hq] at h1; simp [Intersection.placeholder] at h1
      | some y =>
        rw [hq] at h1
        exact hl y (List.mem_iff_getElem?.mpr ⟨i, hq⟩) r2 h1
    · rw [List.mem_singleton.mp h1]
      exact hr

theorem length_pushRoute (l : List Intersection) (i : Nat) (r : Route) :
    (pushRoute l i r).length = l.length := by
  simp [pushRoute]

theorem wellFormed_of_built (g : CityGraph) (h : Built g) : g.WellFormed := by
  induction h with
  | new =>
    intro i hi r hr
    simp only [CityGraph.new, List.mem_replicate] at hi
    rw [hi.2] at hr
    simp [Intersection.placeholder] at hr
  | addIntersection g id name zone _ ih =>
    intro i hi r hr
    unfold CityGraph.addIntersection at hi ⊢
    simp only at hi ⊢
    rcases List.mem_or_eq_of_mem_set hi with hm | he
    · have hlen : g.intersections.length ≤ (List.set (if id ≥ g.intersections.length then
          g.intersections ++ List.replicate (id + 1 - g.intersections.length)
            Intersection.placeholder else g.intersections) id
          { id := ↑id, name := name, zone := zone, routes := [] }).length := by
        rw [List.length_set]
        split_ifs <;> simp
      split_ifs at hm with hge
      · rcases List.mem_append.mp hm with h1 | h1
        · have := ih i h1 r hr
          exact ⟨this.1, by omega⟩
        · rw [(List.mem_replicate.mp h1).2] at hr
          simp [Intersection.placeholder] at hr
      · have := ih i hm r hr
        exact ⟨this.1, by omega⟩
    · subst he
      simp at hr
  | addRoute g fromId toId distance time cost roadName _ ih =>
    unfold CityGraph.addRoute
    by_cases hrej : g.routeRejected fromId toId = true
    · rw [if_pos hrej]
      exact ih
    · rw [if_neg hrej]
      unfold CityGraph.routeRejected at hrej
      simp only [Bool.or_eq_true, decide_eq_true_eq, not_or, not_lt, ge_iff_le, not_le] at hrej
      obtain ⟨⟨⟨⟨⟨h1, h2⟩, h3⟩, h4⟩, _⟩, _⟩ := hrej
      intro i hi r hr
      simp only [length_pushRoute] at hi ⊢
      exact wellFormed_pushRoute _ _ _ _
        (wellFormed_pushRoute _ _ _ _ ih ⟨h3, h4⟩) ⟨h1, h2⟩ i hi r hr

theorem routesOf_wellFormed (g : CityGraph) (hwf : g.WellFormed) (u : Nat) (r : Route)
    (h : r ∈ g.routesOf u) : 0 ≤ r.destination ∧ r.destination.toNat < g.intersections.length := by
  obtain ⟨i, hi, hr⟩ := routesOf_mem g u r h
  obtain ⟨h1, h2⟩ := hwf i hi r hr
  exact ⟨h1, by omega⟩

theorem routesOf_nonneg (g : CityGraph) (hnn : g.NonNegative) (u : Nat) (r : Route)
    (h : r ∈ g.routesOf u) : 0 ≤ r.distance := by
  obtain ⟨i, hi, hr⟩ := routesOf_mem g u r h
  exact hnn i hi r hr

/-! ### Walks -/

theorem totalDistance_nil : totalDistance [] = 0 := rfl

theorem totalDistance_append (rs : List Route) (r : Route) :
    totalDistance (rs ++ [r]) = totalDistance rs + r.distance := by
  simp [totalDistance]

theorem totalDistance_cons (rs : List Route) (r : Route) :
    totalDistance (r :: rs) = r.distance + totalDistance rs := by
  simp [totalDistance]

theorem isWalk_append (g : CityGraph) :
    ∀ (rs : List Route) (u p : Nat) (r : Route), IsWalk g u rs p → r ∈ g.routesOf p →
      0 ≤ r.destination → IsWalk g u (rs ++ [r]) r.destination.toNat
  | [], u, p, r, h, hr, h0 => by
    simp only [IsWalk] at h
    subst h
    exact ⟨hr, h0, rfl⟩
  | r1 :: rs, u, p, r, h, hr, h0 => by
    obtain ⟨h1, h2, h3⟩ := h
    exact ⟨h1, h2, isWalk_append g rs _ p r h3 hr h0⟩

theorem isWalk_of_append (g : CityGraph) :
    ∀ (rs : List Route) (u v : Nat) (r : Route), IsWalk g u (rs ++ [r]) v →
      ∃ p, IsWalk g u rs p ∧ r ∈ g.routesOf p ∧ 0 ≤ r.destination ∧ r.destination.toNat = v
  | [], u, v, r, h => by
    obtain ⟨h1, h2, h3⟩ := h
    exact ⟨u, rfl, h1, h2, h3⟩
  | r1 :: rs, u, v, r, h => by
    obtain ⟨h1, h2, h3⟩ := h
    obtain ⟨p, hp1, hp2, hp3, hp4⟩ := isWalk_of_append g rs _ v r h3
    exact ⟨p, ⟨h1, h2, hp1⟩, hp2, hp3, hp4⟩

theorem totalDistance_nonneg (g : CityGraph) (hnn : g.NonNegative) :
    ∀ (rs : List Route) (u v : Nat), IsWalk g u rs v → 0 ≤ totalDistance rs
  | [], _, _, _ => le_refl _
  | r :: rs, u, v, h => by
    obtain ⟨h1, _, h3⟩ := h
    rw [totalDistance_cons]
    have := routesOf_nonneg g hnn u r h1
    have := totalDistance_nonneg g hnn rs _ v h3
    omega

theorem getD_set_ite {α : Type} (l : List α) (i j : Nat) (a d : α) :
    (l.set i a).getD j d = if i = j ∧ i < l.length then a else l.getD j d := by
  simp only [List.getD_eq_getElem?_getD, List.getElem?_set]
  by_cases h : i = j
  · subst h
    by_cases hl : i < l.length
    · simp [hl]
    · simp [hl, List.getElem?_eq_none (not_lt.mp hl)]
  · simp [h]

theorem wrapInt_of_nonneg_lt (x : Int) (h0 : 0 ≤ x) (h1 : x < INF) : wrapInt x = x := by
  unfold wrapInt
  unfold INF at h1
  omega

theorem lt_of_visited (g : CityGraph) (start : Nat) (order processed : List Nat)
    (st : SearchState) (h : SearchInv g start order processed st) (v : Nat) (hv : v ∈ order) :
    v < g.intersections.length := by
  have := (h.visited_iff v).mpr hv
  rw [← h.visited_length]
  by_contra hlt
  rw [List.getD_eq_getElem?_getD, List.getElem?_eq_none (not_lt.mp hlt)] at this
  simp at this

/-- The sum formed when a route out of a visited slot is relaxed is the total of a
sequence of routes, between 0 and `INF`, so the `int` holds it. -/
theorem relax_sum (g : CityGraph) (start : Nat) (order processed : List Nat)
    (st : SearchState) (h : SearchInv g start order processed st) (hwf : g.WellFormed)
    (hnn : g.NonNegative) (hsum : g.SumsBelowINF start) (u : Nat) (hu : u ∈ order) (r : Route)
    (hr : r ∈ g.routesOf u) :
    0 ≤ st.distance.getD u INF ∧ 0 ≤ r.distance ∧
      st.distance.getD u INF + r.distance < INF ∧
      ∃ rs, IsWalk g start rs r.destination.toNat ∧
        totalDistance rs = st.distance.getD u INF + r.distance := by
  obtain ⟨hfin, hopt⟩ := h.optimal u hu
  obtain ⟨rs, hw, ht⟩ := h.walk u (lt_of_visited g start order processed st h u hu) hfin
  have h0 := totalDistance_nonneg g hnn rs start u hw
  have hlt := hsum rs u r ⟨hw, fun rs2 h2 => by rw [ht]; exact hopt rs2 h2⟩ hr
  obtain ⟨hd0, _⟩ := routesOf_wellFormed g hwf u r hr
  refine ⟨by omega, routesOf_nonneg g hnn u r hr, by omega, rs ++ [r], ?_, ?_⟩
  · exact isWalk_append g rs start u r hw hr hd0
  · rw [totalDistance_append, ht]

theorem relax_inv (g : CityGraph) (start : Nat) (order processed : List Nat)
    (st : SearchState) (h : SearchInv g start order processed st) (hwf : g.WellFormed)
    (hnn : g.NonNegative) (hsum : g.SumsBelowINF start) (u : Nat) (hu : u ∈ order) (r : Route)
    (hr : r ∈ g.routesOf u) :
    SearchInv g start order processed (relax (u : Int) st r) ∧
      (relax (u : Int) st r).distance.getD r.destination.toNat INF
        ≤ (relax (u : Int) st r).distance.getD u INF + r.distance ∧
      (∀ v, (relax (u : Int) st r).distance.getD v INF ≤ st.distance.getD v INF) ∧
      (∀ v, v ∈ order →
        (relax (u : Int) st r).distance.getD v INF = st.distance.getD v INF) ∧
      (relax (u : Int) st r).pq.length ≤ st.pq.length + 1 ∧
      (relax (u : Int) st r).visited = st.visited := by
  obtain ⟨hdu0, hrd0, hlt, rsv, hwalkv, htotv⟩ :=
    relax_sum g start order processed st h hwf hnn hsum u hu r hr
  obtain ⟨hd0, hdn⟩ := routesOf_wellFormed g hwf u r hr
  obtain ⟨hfin, _⟩ := h.optimal u hu
  have hwrap := wrapInt_of_nonneg_lt _ (by omega : 0 ≤ st.distance.getD u INF + r.distance) hlt
  unfold relax
  simp only [Int.toNat_ofNat, hfin, if_false, hwrap]
  by_cases hless : st.distance.getD u INF + r.distance < st.distance.getD r.destination.toNat INF
  swap
  · rw [if_neg hless]
    exact ⟨h, by omega, fun v => le_refl _, fun v _ => rfl, by omega, rfl⟩
  rw [if_pos hless]
  -- the destination is a slot that is not visited, and not the start
  have hvnot : r.destination.toNat ∉ order := by
    intro hm
    have := (h.optimal _ hm).2 rsv hwalkv
    omega
  have hvu : r.destination.toNat ≠ u := fun he => hvnot (he ▸ hu)
  have hvs : r.destination.toNat ≠ start := by
    intro he
    have := h.dist_start
    rw [he] at hless
    omega
  have hcast : ((r.destination.toNat : Nat) : Int) = r.destination := Int.toNat_of_nonneg hd0
  have hget : ∀ w, (st.distance.set r.destination.toNat
      (st.distance.getD u INF + r.distance)).getD w INF
      = if r.destination.toNat = w then st.distance.getD u INF + r.distance
        else st.distance.getD w INF := by
    intro w
    rw [getD_set_ite, h.distance_length]
    by_cases hw : r.destination.toNat = w
    · rw [if_pos ⟨hw, hdn⟩, if_pos hw]
    · rw [if_neg (fun hh => hw hh.1), if_neg hw]
  have hprev : ∀ w, (st.previous.set r.destination.toNat (u : Int)).getD w (-1)
      = if r.destination.toNat = w then (u : Int) else st.previous.getD w (-1) := by
    intro w
    rw [getD_set_ite, h.previous_length]
    by_cases hw : r.destination.toNat = w
    · rw [if_pos ⟨hw, hdn⟩, if_pos hw]
    · rw [if_neg (fun hh => hw hh.1), if_neg hw]
  have hmono : ∀ w, (if r.destination.toNat = w then st.distance.getD u INF + r.distance
      else st.distance.getD w INF) ≤ st.distance.getD w INF := by
    intro w
    split_ifs with hw
    · rw [← hw]; omega
    · exact le_refl _
  have hsame : ∀ w, w ∈ order → (if r.destination.toNat = w
      then st.distance.getD u INF + r.distance else st.distance.getD w INF)
      = st.distance.getD w INF := by
    intro w hw
    rw [if_neg (fun (he : r.destination.toNat = w) => hvnot (by rw [he]; exact hw))]
  refine ⟨?_, ?_, ?_, ?_, ?_, rfl⟩
  · constructor
    · simp [h.distance_length]
    · simp [h.previous_length]
    · exact h.visited_length
    · exact h.visited_iff
    · exact h.processed_sub
    · simp only [hget, if_neg hvs]
      exact h.dist_start
    · simp only [hprev, if_neg hvs]
      exact h.prev_start
    · intro w hw hwfin
      simp only [hget] at hwfin ⊢
      by_cases he : r.destination.toNat = w
      · rw [if_pos he]
        exact ⟨rsv, he ▸ hwalkv, htotv⟩
      · rw [if_neg he] at hwfin ⊢
        exact h.walk w hw hwfin
    · intro w hw
      simp only [hget, hsame w hw]
      exact h.optimal w hw
    · intro p hp r2 hr2
      simp only [hget, hsame p (h.processed_sub p hp)]
      exact le_trans (hmono _) (h.closed p hp r2 hr2)
    · intro w hw hwfin hwnot
      simp only [hget] at hwfin ⊢
      by_cases he : r.destination.toNat = w
      · rw [if_pos he, ← he, hcast]
        exact List.mem_append_right _ (List.mem_singleton_self _)
      · rw [if_neg he] at hwfin ⊢
        exact List.mem_append_left _ (h.queued w hw hwfin hwnot)
    · intro x hx
      simp only [hget]
      rcases List.mem_append.mp hx with h1 | h1
      · obtain ⟨e1, e2, e3, e4⟩ := h.entries x h1
        exact ⟨e1, e2, le_trans (hmono _) e3, e4⟩
      · rw [List.mem_singleton.mp h1]
        simp only [if_true]
        exact ⟨hd0, hdn, le_refl _, hlt⟩
    · intro w hw hwfin hws
      simp only [hget, hprev] at hwfin ⊢
      by_cases he : r.destination.toNat = w
      · rw [if_pos he, if_pos he]
        refine ⟨u, r, hu, rfl, hr, by rw [← he, hcast], by rw [if_neg hvu], ?_⟩
        rw [← he, List.indexOf_of_not_mem hvnot]
        exact List.indexOf_lt_length.mpr hu
      · rw [if_neg he] at hwfin
        rw [if_neg he, if_neg he]
        obtain ⟨p, r2, hp, t1, t2, t3, t4, t5⟩ := h.tree w hw hwfin hws
        refine ⟨p, r2, hp, t1, t2, t3, ?_, t5⟩
        rw [if_neg (fun (hh : r.destination.toNat = p) => hvnot (by rw [hh]; exact hp))]
        exact t4
    · exact h.nodup
  · simp only [hget, if_true, if_neg hvu]
    exact le_refl _
  · intro w
    simp only [hget]
    exact hmono w
  · intro w hw
    simp only [hget]
    exact hsame w hw
  · simp

theorem foldl_relax_inv (g : CityGraph) (start : Nat) (order processed : List Nat)
    (hwf : g.WellFormed) (hnn : g.NonNegative) (hsum : g.SumsBelowINF start) (u : Nat)
    (hu : u ∈ order) :
    ∀ (routes : List Route) (st : SearchState), SearchInv g start order processed st →
      (∀ r, r ∈ routes → r ∈ g.routesOf u) →
      SearchInv g start order processed (routes.foldl (relax (u : Int)) st) ∧
        (∀ r, r ∈ routes →
          (routes.foldl (relax (u : Int)) st).distance.getD r.destination.toNat INF
            ≤ (routes.foldl (relax (u : Int)) st).distance.getD u INF + r.distance) ∧
        (∀ v, (routes.foldl (relax (u : Int)) st).distance.getD v INF
          ≤ st.distance.getD v INF) ∧
        (∀ v, v ∈ order →
          (routes.foldl (relax (u : Int)) st).distance.getD v INF = st.distance.getD v INF) ∧
        (routes.foldl (relax (u : Int)) st).pq.length ≤ st.pq.length + routes.length ∧
        (routes.foldl (relax (u : Int)) st).visited = st.visited
  | [], st, h, _ => ⟨h, by simp, fun _ => le_refl _, fun _ _ => rfl, by simp, rfl⟩
  | r :: rest, st, h, hr => by
    obtain ⟨h1, hc1, hm1, hs1, hp1, hv1⟩ := relax_inv g start order processed st h hwf hnn hsum
      u hu r (hr r (List.mem_cons_self _ _))
    obtain ⟨h2, hc2, hm2, hs2, hp2, hv2⟩ := foldl_relax_inv g start order processed hwf hnn hsum
      u hu rest (relax (u : Int) st r) h1 (fun r2 h2 => hr r2 (List.mem_cons_of_mem _ h2))
    rw [List.foldl_cons]
    refine ⟨h2, ?_, ?_, ?_, ?_, ?_⟩
    · intro r2 hr2
      rcases List.mem_cons.mp hr2 with he | hm
      · subst he
        have := hm2 r2.destination.toNat
        have := hs2 u hu
        omega
      · exact hc2 r2 hm
    · intro v
      exact le_trans (hm2 v) (hm1 v)
    · intro v hv
      rw [hs2 v hv, hs1 v hv]
    · simp only [List.length_cons]
      omega
    · rw [hv2, hv1]

theorem searchInv_processed (g : CityGraph) (start : Nat) (order processed : List Nat)
    (st : SearchState) (h : SearchInv g start order processed st) (u : Nat) (hu : u ∈ order)
    (hc : ∀ r, r ∈ g.routesOf u →
      st.distance.getD r.destination.toNat INF ≤ st.distance.getD u INF + r.distance) :
    SearchInv g start order (processed ++ [u]) st :=
  { h with
    processed_sub := by
      intro p hp
      rcases List.mem_append.mp hp with h1 | h1
      · exact h.processed_sub p h1
      · rw [List.mem_singleton.mp h1]; exact hu
    closed := by
      intro p hp
      rcases List.mem_append.mp hp with h1 | h1
      · exact h.closed p h1
      · rw [List.mem_singleton.mp h1]; exact hc }

theorem isWalk_lt (g : CityGraph) (hwf : g.WellFormed) :
    ∀ (rs : List Route) (u v : Nat), IsWalk g u rs v → u < g.intersections.length →
      v < g.intersections.length
  | [], u, v, h, hu => by
    simp only [IsWalk] at h
    omega
  | r :: rs, u, v, h, _ => by
    obtain ⟨h1, _, h3⟩ := h
    exact isWalk_lt g hwf rs _ v h3 (routesOf_wellFormed g hwf u r h1).2

/-- At the head of the loop, a sequence of routes from `start` to a slot that is not
visited has a total of at least any lower bound `m` of the finite distances of the slots
that are not visited. -/
theorem unvisited_lower_bound (g : CityGraph) (start : Nat) (order : List Nat)
    (st : SearchState) (h : SearchInv g start order order st) (hwf : g.WellFormed)
    (hnn : g.NonNegative) (hsum : g.SumsBelowINF start) (hs : start < g.intersections.length)
    (m : Int)
    (hm : ∀ v, v < g.intersections.length → v ∉ order → st.distance.getD v INF ≠ INF →
      m ≤ st.distance.getD v INF) :
    ∀ (rs : List Route) (y : Nat), IsWalk g start rs y → y ∉ order → m ≤ totalDistance rs := by
  intro rs
  induction rs using List.reverseRecOn with
  | nil =>
    intro y hw hy
    simp only [IsWalk] at hw
    subst hw
    have := hm start hs hy (by rw [h.dist_start]; decide)
    rw [h.dist_start] at this
    exact this
  | append_singleton rs r ih =>
    intro y hw hy
    obtain ⟨p, hp, hr, hd0, hdy⟩ := isWalk_of_append g rs start y r hw
    rw [totalDistance_append]
    have hrd := routesOf_nonneg g hnn p r hr
    by_cases hpo : p ∈ order
    · obtain ⟨_, _, hlt, _⟩ := relax_sum g start order order st h hwf hnn hsum p hpo r hr
      have hcl := h.closed p hpo r hr
      rw [hdy] at hcl
      have hopt := (h.optimal p hpo).2 rs hp
      have hyn := isWalk_lt g hwf _ start y hw hs
      have := hm y hyn hy (by omega)
      omega
    · have := ih p hp hpo
      omega

theorem skip_inv (g : CityGraph) (start : Nat) (order : List Nat) (st : SearchState)
    (h : SearchInv g start order order st) (x : DijkstraNode) (rest : List DijkstraNode)
    (hperm : st.pq.Perm (x :: rest)) (hvis : st.visited.getD x.id.toNat false = true) :
    SearchInv g start order order { st with pq := rest } :=
  { h with
    queued := by
      intro v hv hfin hnot
      have hmem := hperm.mem_iff.mp (h.queued v hv hfin hnot)
      rcases List.mem_cons.mp hmem with he | hm
      · exfalso
        apply hnot
        rw [← h.visited_iff]
        rw [← he] at hvis
        simpa using hvis
      · exact hm
    entries := by
      intro y hy
      exact h.entries y (hperm.mem_iff.mpr (List.mem_cons_of_mem _ hy)) }

theorem visit_inv (g : CityGraph) (start : Nat) (order : List Nat) (st : SearchState)
    (h : SearchInv g start order order st) (hwf : g.WellFormed) (hnn : g.NonNegative)
    (hsum : g.SumsBelowINF start) (hs : start < g.intersections.length)
    (x : DijkstraNode) (rest : List DijkstraNode) (hperm : st.pq.Perm (x :: rest))
    (hmin : ∀ y, y ∈ st.pq → x.distance ≤ y.distance)
    (hnot : ¬ st.visited.getD x.id.toNat false = true) :
    SearchInv g start (order ++ [x.id.toNat]) order
      { st with pq := rest, visited := st.visited.set x.id.toNat true } := by
  have hx : x ∈ st.pq := hperm.mem_iff.mpr (List.mem_cons_self _ _)
  obtain ⟨e1, e2, e3, e4⟩ := h.entries x hx
  have hxo : x.id.toNat ∉ order := fun hm => hnot ((h.visited_iff _).mpr hm)
  have hlow := unvisited_lower_bound g start order st h hwf hnn hsum hs x.distance
    (fun v hv hvo hfin => hmin _ (h.queued v hv hfin hvo))
  constructor
  · exact h.distance_length
  · exact h.previous_length
  · simp [h.visited_length]
  · intro v
    simp only [getD_set_ite, h.visited_length, List.mem_append, List.mem_singleton]
    by_cases hv : x.id.toNat = v
    · simp [hv ▸ e2, hv]
    · rw [if_neg (fun hh => hv hh.1), h.visited_iff]
      constructor
      · exact Or.inl
      · rintro (h1 | h1)
        · exact h1
        · exact absurd h1.symm hv
  · intro u hu
    exact List.mem_append_left _ hu
  · exact h.dist_start
  · exact h.prev_start
  · exact h.walk
  · intro v hv
    rcases List.mem_append.mp hv with h1 | h1
    · exact h.optimal v h1
    · rw [List.mem_singleton.mp h1]
      show st.distance.getD x.id.toNat INF ≠ INF ∧
        ∀ rs, IsWalk g start rs x.id.toNat → st.distance.getD x.id.toNat INF ≤ totalDistance rs
      refine ⟨by omega, ?_⟩
      intro rs hw
      have := hlow rs _ hw hxo
      omega
  · exact h.closed
  · intro v hv hfin hvo
    have hvo1 : v ∉ order := fun hm => hvo (List.mem_append_left _ hm)
    have hvx : v ≠ x.id.toNat := fun he => hvo (by rw [he]; simp)
    have hmem := hperm.mem_iff.mp (h.queued v hv hfin hvo1)
    rcases List.mem_cons.mp hmem with he | hm
    · exfalso
      apply hvx
      rw [← he]
      simp
    · exact hm
  · intro y hy
    exact h.entries y (hperm.mem_iff.mpr (List.mem_cons_of_mem _ hy))
  · intro v hv hfin hvs
    obtain ⟨u, r, hu, t1, t2, t3, t4, t5⟩ := h.tree v hv hfin hvs
    refine ⟨u, r, List.mem_append_left _ hu, t1, t2, t3, t4, ?_⟩
    rw [List.indexOf_append_of_mem hu]
    by_cases hvo : v ∈ order
    · rw [List.indexOf_append_of_mem hvo]
      exact t5
    · rw [List.indexOf_append_of_not_mem hvo]
      have := List.indexOf_lt_length.mpr hu
      omega
  · exact List.Nodup.append h.nodup (List.nodup_singleton _)
      (fun a ha hb => hxo ((List.mem_singleton.mp hb) ▸ ha))

theorem sum_map_range_update (f f2 : Nat → Nat) (x : Nat) (hx : f2 x = 0)
    (hne : ∀ u, u ≠ x → f2 u = f u) :
    ∀ n, x < n →
      ((List.range n).map f2).sum + f x = ((List.range n).map f).sum
  | 0, h => by omega
  | n + 1, h => by
    rw [List.range_succ, List.map_append, List.map_append, List.sum_append, List.sum_append]
    simp only [List.map_cons, List.map_nil, List.sum_cons, List.sum_nil, Nat.add_zero]
    by_cases hxn : x = n
    · subst hxn
      have : (List.range x).map f2 = (List.range x).map f := by
        apply List.map_congr_left
        intro u hu
        exact hne u (by have := List.mem_range.mp hu; omega)
      rw [this, hx]
      omega
    · have := sum_map_range_update f f2 x hx hne n (by omega)
      rw [hne n (fun he => hxn he.symm)]
      omega

theorem pendingRoutes_set (g : CityGraph) (visited : List Bool) (x : Nat)
    (hlen : visited.length = g.intersections.length) (hx : x < g.intersections.length)
    (hnot : ¬ visited.getD x false = true) :
    pendingRoutes g (visited.set x true) + (g.routesOf x).length = pendingRoutes g visited := by
  unfold pendingRoutes
  have := sum_map_range_update
    (fun u => if visited.getD u false then 0 else (g.routesOf u).length)
    (fun u => if (visited.set x true).getD u false then 0 else (g.routesOf u).length) x
    (by simp [getD_set_ite, hlen, hx])
    (by
      intro u hu
      have hno : ¬ (x = u ∧ x < visited.length) := fun hh => hu hh.1.symm
      simp only [getD_set_ite, hno, if_false])
    g.intersections.length hx
  simp only [hnot, if_false] at this
  exact this

/-- The loop of `findShortestPath` ends: from a state at the head of the loop it is left
after at most as many steps as there are entries in the queue and routes out of slots
not yet visited. -/
theorem searchLoop_terminates
    (pop : Nat → List DijkstraNode → Option (DijkstraNode × List DijkstraNode))
    (hpop : ∀ k, IsPop (pop k)) (g : CityGraph) (hwf : g.WellFormed) (hnn : g.NonNegative)
    (start endV : Nat) (hsum : g.SumsBelowINF start) (hs : start < g.intersections.length) :
    ∀ (fuel k : Nat) (st : SearchState) (order : List Nat), SearchInv g start order order st →
      st.pq.length + pendingRoutes g st.visited < fuel →
      ∃ st2, searchLoop pop g (endV : Int) fuel k st = some st2 ∧ SearchExit g start endV st2
  | 0, _, _, _, _, hf => by omega
  | fuel + 1, k, st, order, h, hf => by
    by_cases hq : st.pq = []
    · refine ⟨st, ?_, order, order, h, Or.inr ⟨hq, rfl⟩⟩
      simp only [searchLoop, hq, (hpop k).1]
    · obtain ⟨x, rest, hpopeq, hperm, hmin⟩ := (hpop k).2 st.pq hq
      have hlen : st.pq.length = rest.length + 1 := by
        rw [hperm.length_eq, List.length_cons]
      have hx : x ∈ st.pq := hperm.mem_iff.mpr (List.mem_cons_self _ _)
      obtain ⟨e1, e2, _, _⟩ := h.entries x hx
      have hcast : ((x.id.toNat : Nat) : Int) = x.id := Int.toNat_of_nonneg e1
      by_cases hvis : st.visited.getD x.id.toNat false = true
      · have h1 := skip_inv g start order st h x rest hperm hvis
        obtain ⟨st2, hrun, hexit⟩ := searchLoop_terminates pop hpop g hwf hnn start endV hsum hs
          fuel (k + 1) { st with pq := rest } order h1 (by simp only; omega)
        refine ⟨st2, ?_, hexit⟩
        simp only [searchLoop, hpopeq, hvis, if_true]
        exact hrun
      · have h1 := visit_inv g start order st h hwf hnn hsum hs x rest hperm hmin hvis
        by_cases hend : x.id = (endV : Int)
        · refine ⟨{ st with pq := rest, visited := st.visited.set x.id.toNat true }, ?_,
            order ++ [x.id.toNat], order, h1, Or.inl ?_⟩
          · simp only [searchLoop, hpopeq, hvis, if_false, Bool.false_eq_true]
            rw [if_pos hend]
          · rw [hend]
            simp
        · have hu : x.id.toNat ∈ order ++ [x.id.toNat] := by simp
          obtain ⟨h2, hc2, _, _, hp2, hv2⟩ := foldl_relax_inv g start (order ++ [x.id.toNat])
            order hwf hnn hsum x.id.toNat hu (g.routesOf x.id.toNat)
            { st with pq := rest, visited := st.visited.set x.id.toNat true } h1
            (fun r hr => hr)
          rw [hcast] at h2 hc2 hp2 hv2
          have h3 := searchInv_processed g start _ order _ h2 x.id.toNat hu hc2
          have hpend := pendingRoutes_set g st.visited x.id.toNat h.visited_length e2 hvis
          obtain ⟨st2, hrun, hexit⟩ := searchLoop_terminates pop hpop g hwf hnn start endV hsum
            hs fuel (k + 1) _ (order ++ [x.id.toNat]) h3
            (by
              rw [hv2]
              simp only at hp2 ⊢
              omega)
          refine ⟨st2, ?_, hexit⟩
          simp only [searchLoop, hpopeq, hvis, hend, if_false, Bool.false_eq_true]
          exact hrun

theorem searchLoop_mono
    (pop : Nat → List DijkstraNode → Option (DijkstraNode × List DijkstraNode))
    (g : CityGraph) (endId : Int) :
    ∀ (fuel k : Nat) (st r : SearchState), searchLoop pop g endId fuel k st = some r →
      ∀ extra, searchLoop pop g endId (fuel + extra) k st = some r
  | 0, _, _, _, h, _ => by simp [searchLoop] at h
  | fuel + 1, k, st, r, h, extra => by
    rw [Nat.add_right_comm]
    unfold searchLoop at h ⊢
    cases hp : pop k st.pq with
    | none => rw [hp] at h; exact h
    | some cr =>
      obtain ⟨current, rest⟩ := cr
      rw [hp] at h
      simp only at h ⊢
      split_ifs at h ⊢ with h1 h2
      · exact searchLoop_mono pop g endId fuel _ _ r h extra
      · exact h
      · exact searchLoop_mono pop g endId fuel _ _ r h extra

theorem getD_replicate {α : Type} (n v : Nat) (a : α) : (List.replicate n a).getD v a = a := by
  rw [List.getD_eq_getElem?_getD, List.getElem?_replicate]
  split_ifs <;> rfl

theorem searchInv_start (g : CityGraph) (start : Nat) (hs : start < g.intersections.length) :
    SearchInv g start [] [] (searchStart g (start : Int)) := by
  have hdist : ∀ v, (searchStart g (start : Int)).distance.getD v INF
      = if start = v then 0 else INF := by
    intro v
    simp only [searchStart, Int.toNat_ofNat, getD_set_ite, List.length_replicate,
      getD_replicate]
    by_cases hv : start = v
    · rw [if_pos ⟨hv, hs⟩, if_pos hv]
    · rw [if_neg (fun hh => hv hh.1), if_neg hv]
  have hfin : ∀ v, (searchStart g (start : Int)).distance.getD v INF ≠ INF → start = v := by
    intro v hv
    rw [hdist] at hv
    by_contra hne
    rw [if_neg hne] at hv
    exact hv rfl
  constructor
  · simp [searchStart]
  · simp [searchStart]
  · simp [searchStart]
  · intro v
    simp [searchStart, getD_replicate]
  · intro u hu
    exact hu
  · rw [hdist, if_pos rfl]
  · simp only [searchStart]
    exact getD_replicate _ _ _
  · intro v _ hv
    have := hfin v hv
    subst this
    exact ⟨[], rfl, by rw [hdist, if_pos rfl]; rfl⟩
  · intro v hv
    simp at hv
  · intro u hu
    simp at hu
  · intro v _ hv _
    have := hfin v hv
    subst this
    rw [hdist, if_pos rfl]
    simp [searchStart]
  · intro x hx
    simp only [searchStart, List.mem_singleton] at hx
    subst hx
    simp only [Int.toNat_ofNat]
    rw [hdist, if_pos rfl]
    exact ⟨Int.natCast_nonneg _, hs, le_refl _, by decide⟩
  · intro v _ hv hne
    exact absurd (hfin v hv).symm hne
  · exact List.nodup_nil

theorem pendingRoutes_start (g : CityGraph) (start : Int) :
    pendingRoutes g (searchStart g start).visited = g.totalRoutes := by
  unfold pendingRoutes CityGraph.totalRoutes
  simp [searchStart, getD_replicate]

theorem length_le_of_nodup_visited (g : CityGraph) (start : Nat) (order processed : List Nat)
    (st : SearchState) (h : SearchInv g start order processed st) :
    order.length ≤ g.intersections.length := by
  have hsub : order ⊆ List.range g.intersections.length :=
    fun x hx => List.mem_range.mpr (lt_of_visited g start order processed st h x hx)
  have := (List.subperm_of_subset h.nodup hsub).length_le
  simpa using this

/-- Following `previous` from a slot with a finite distance ends at `start`, and the
slots passed, read backwards, are those of a sequence of routes from `start` whose total
is the distance of the slot. -/
theorem tracePath_of_inv (g : CityGraph) (start : Nat) (order processed : List Nat)
    (st : SearchState) (h : SearchInv g start order processed st)
    (hs : start < g.intersections.length) :
    ∀ (rank v : Nat), v < g.intersections.length → st.distance.getD v INF ≠ INF →
      order.indexOf v = rank →
      ∃ rs p, IsWalk g start rs v ∧ totalDistance rs = st.distance.getD v INF ∧
        (∀ fuel, rank + 2 ≤ fuel → tracePath st.previous fuel (v : Int) = some p) ∧
        p.reverse = (start : Int) :: rs.map Route.destination := by
  intro rank
  induction rank using Nat.strong_induction_on with
  | _ rank ih =>
    intro v hv hfin hrank
    have hne : (v : Int) ≠ -1 := by omega
    by_cases hvs : v = start
    · subst hvs
      refine ⟨[], [(v : Int)], rfl, by rw [h.dist_start]; rfl, ?_, rfl⟩
      intro fuel hfuel
      obtain ⟨f, rfl⟩ : ∃ f, fuel = f + 2 := ⟨fuel - 2, by omega⟩
      have hps := h.prev_start
      simp only [tracePath, hne, if_false, Int.toNat_ofNat, hps, if_true]
      rfl
    · obtain ⟨u, r, hu, t1, t2, t3, t4, t5⟩ := h.tree v hv hfin hvs
      obtain ⟨rs, p, hw, ht, hp, hrev⟩ := ih (order.indexOf u) (by omega) u
        (lt_of_visited g start order processed st h u hu) (h.optimal u hu).1 rfl
      have hd0 : 0 ≤ r.destination := by rw [t3]; exact Int.natCast_nonneg _
      have hdv : r.destination.toNat = v := by rw [t3]; exact Int.toNat_ofNat v
      refine ⟨rs ++ [r], (v : Int) :: p, ?_, ?_, ?_, ?_⟩
      · have := isWalk_append g rs start u r hw t2 hd0
        rw [hdv] at this
        exact this
      · rw [totalDistance_append, ht, t4]
      · intro fuel hfuel
        obtain ⟨f, rfl⟩ : ∃ f, fuel = f + 1 := ⟨fuel - 1, by omega⟩
        simp only [tracePath, hne, if_false, Int.toNat_ofNat, t1]
        rw [hp f (by omega)]
        rfl
      · rw [List.reverse_cons, hrev, List.map_append, List.map_singleton, t3]
        rfl

/-- With the queue empty at the head of the loop, every slot that a sequence of routes
from `start` leads to is visited. -/
theorem visited_of_walk (g : CityGraph) (start : Nat) (order : List Nat) (st : SearchState)
    (h : SearchInv g start order order st) (hwf : g.WellFormed) (hnn : g.NonNegative)
    (hsum : g.SumsBelowINF start) (hs : start < g.intersections.length) (hq : st.pq = [])
    (rs : List Route) (y : Nat) (hw : IsWalk g start rs y) : y ∈ order := by
  by_contra hy
  have := unvisited_lower_bound g start order st h hwf hnn hsum hs (totalDistance rs + 1)
    (by
      intro v hv hvo hfin
      have := h.queued v hv hfin hvo
      rw [hq] at this
      simp at this)
    rs y hw hy
  omega

theorem minEntry_spec : ∀ (l : List DijkstraNode) (x : DijkstraNode),
    minEntry x l ∈ x :: l ∧ ∀ y, y ∈ x :: l → (minEntry x l).distance ≤ y.distance
  | [], x => ⟨List.mem_singleton_self _, fun y hy => by
      rw [List.mem_singleton.mp hy]; exact le_refl _⟩
  | z :: l, x => by
    unfold minEntry
    split_ifs with hlt
    · obtain ⟨h1, h2⟩ := minEntry_spec l z
      refine ⟨List.mem_cons_of_mem _ h1, ?_⟩
      intro y hy
      rcases List.mem_cons.mp hy with he | hm
      · have := h2 z (List.mem_cons_self _ _)
        rw [he]
        omega
      · exact h2 y hm
    · obtain ⟨h1, h2⟩ := minEntry_spec l x
      refine ⟨?_, ?_⟩
      · rcases List.mem_cons.mp h1 with he | hm
        · rw [he]; exact List.mem_cons_self _ _
        · exact List.mem_cons_of_mem _ (List.mem_cons_of_mem _ hm)
      · intro y hy
        rcases List.mem_cons.mp hy with he | hm
        · exact h2 y (by rw [he]; exact List.mem_cons_self _ _)
        · rcases List.mem_cons.mp hm with he2 | hm2
          · have := h2 x (List.mem_cons_self _ _)
            rw [he2]
            omega
          · exact h2 y (List.mem_cons_of_mem _ hm2)

theorem isPop_popFirstMin : IsPop popFirstMin := by
  refine ⟨rfl, ?_⟩
  intro l hl
  cases l with
  | nil => exact absurd rfl hl
  | cons x l =>
    obtain ⟨h1, h2⟩ := minEntry_spec l x
    exact ⟨minEntry x l, (x :: l).erase (minEntry x l), rfl, List.perm_cons_erase h1, h2⟩

theorem isWalk_getLast (g : CityGraph) :
    ∀ (rs : List Route) (u v : Nat), IsWalk g u rs v →
      (((u : Int) :: rs.map Route.destination).getLast? = some (v : Int))
  | [], u, v, h => by
    simp only [IsWalk] at h
    subst h
    rfl
  | r :: rs, u, v, h => by
    obtain ⟨_, h2, h3⟩ := h
    have := isWalk_getLast g rs _ v h3
    rw [Int.toNat_of_nonneg h2] at this
    rw [List.map_cons, List.getLast?_cons_cons]
    exact this

/-- What the state in which the loop is left says about `endV`: its distance is finite
exactly when some sequence of routes leads to it from `start`, and then `previous` leads
back from it along a sequence of routes of least total distance. -/
theorem searchExit_result (g : CityGraph) (start endV : Nat) (st : SearchState)
    (hexit : SearchExit g start endV st) (hwf : g.WellFormed) (hnn : g.NonNegative)
    (hsum : g.SumsBelowINF start) (hs : start < g.intersections.length)
    (he : endV < g.intersections.length) :
    (st.distance.getD endV INF ≠ INF ↔ ∃ rs, IsWalk g start rs endV) ∧
      (st.distance.getD endV INF ≠ INF →
        ∃ rs p, IsWalk g start rs endV ∧
          (∀ rs2, IsWalk g start rs2 endV → totalDistance rs ≤ totalDistance rs2) ∧
          (∀ fuel, g.intersections.length + 2 ≤ fuel →
            tracePath st.previous fuel (endV : Int) = some p) ∧
          p.reverse = (start : Int) :: rs.map Route.destination) := by
  obtain ⟨order, processed, h, hcase⟩ := hexit
  have hmem : st.distance.getD endV INF ≠ INF → endV ∈ order := by
    intro hfin
    rcases hcase with h1 | ⟨hq, _⟩
    · exact h1
    · by_contra hno
      have := h.queued endV he hfin hno
      rw [hq] at this
      simp at this
  constructor
  · constructor
    · intro hfin
      obtain ⟨rs, hw, _⟩ := h.walk endV he hfin
      exact ⟨rs, hw⟩
    · rintro ⟨rs, hw⟩
      rcases hcase with h1 | ⟨hq, hp⟩
      · exact (h.optimal endV h1).1
      · subst hp
        exact (h.optimal endV
          (visited_of_walk g start processed st h hwf hnn hsum hs hq rs endV hw)).1
  · intro hfin
    have hin := hmem hfin
    obtain ⟨rs, p, hw, ht, hp, hrev⟩ :=
      tracePath_of_inv g start order processed st h hs _ endV he hfin rfl
    have hidx := List.indexOf_lt_length.mpr hin
    have hlen := length_le_of_nodup_visited g start order processed st h
    refine ⟨rs, p, hw, ?_, fun fuel hfuel => hp fuel (by omega), hrev⟩
    intro rs2 hw2
    rw [ht]
    exact (h.optimal endV hin).2 rs2 hw2

set_option maxRecDepth 100000 in
theorem sampleWalk_isWalk : ∀ u, u < 7 → IsWalk sampleCity 0 (sampleWalk u) u := by
  decide

set_option maxRecDepth 100000 in
theorem sampleCity_facts :
    sampleCity.intersections.length = 10 ∧
      (∀ u, u < 10 → sampleCity.routesOf u ≠ [] → u < 7) ∧
      (∀ u, u < 7 → totalDistance (sampleWalk u) ≤ 13) ∧
      (∀ i, i ∈ sampleCity.intersections → ∀ r, r ∈ i.routes → r.distance ≤ 8) ∧
      sampleCity.NonNegative := by
  refine ⟨by decide, by decide, by decide, by decide, ?_⟩
  unfold CityGraph.NonNegative
  decide

theorem built_sampleCity : Built sampleCity := by
  unfold sampleCity
  dsimp only
  repeat (first
    | apply Built.addRoute
    | apply Built.addIntersection)
  exact Built.new

theorem sumsBelowINF_sampleCity : sampleCity.SumsBelowINF 0 := by
  obtain ⟨hlen, hroutes, hwalks, hdist, _⟩ := sampleCity_facts
  intro rs u r hshort hr
  obtain ⟨i, hi, hri⟩ := routesOf_mem sampleCity u r hr
  have hd := hdist i hi r hri
  have hu : u < 7 := by
    by_cases h10 : u < 10
    · exact hroutes u h10 (List.ne_nil_of_mem hr)
    · exfalso
      unfold CityGraph.routesOf at hr
      rw [List.getD_eq_getElem?_getD, List.getElem?_eq_none (by omega)] at hr
      simp [Intersection.placeholder] at hr
  have h1 := hshort.2 (sampleWalk u) (sampleWalk_isWalk u hu)
  have h2 := hwalks u hu
  unfold INF
  omega

set_option maxRecDepth 100000 in
theorem overflowCity_search :
    searchLoop (fun _ => popFirstMin) overflowCity 2 4 0 (searchStart overflowCity 0)
      = some overflowExit := by
  decide

theorem tracePath_overflowExit : ∀ fuel,
    tracePath overflowExit.previous fuel 0 = none ∧
      tracePath overflowExit.previous fuel 1 = none
  | 0 => ⟨rfl, rfl⟩
  | fuel + 1 => by
    obtain ⟨h0, h1⟩ := tracePath_overflowExit fuel
    constructor
    · have : tracePath overflowExit.previous (fuel + 1) 0
          = (tracePath overflowExit.previous fuel 1).map (fun p => (0 : Int) :: p) := rfl
      rw [this, h1]
      rfl
    · have : tracePath overflowExit.previous (fuel + 1) 1
          = (tracePath overflowExit.previous fuel 0).map (fun p => (1 : Int) :: p) := rfl
      rw [this, h0]
      rfl

theorem built_overflowCity : Built overflowCity := by
  unfold overflowCity
  dsimp only
  repeat (first
    | apply Built.addRoute
    | apply Built.addIntersection)
  exact Built.new

theorem getD_pushRoute (l : List Intersection) (i k : Nat) (r : Route) (hi : i < l.length) :
    ((pushRoute l i r).getD k Intersection.placeholder).routes
        = (l.getD k Intersection.placeholder).routes ++ (if k = i then [r] else []) ∧
      ((pushRoute l i r).getD k Intersection.placeholder).id
        = (l.getD k Intersection.placeholder).id ∧
      ((pushRoute l i r).getD k Intersection.placeholder).name
        = (l.getD k Intersection.placeholder).name ∧
      ((pushRoute l i r).getD k Intersection.placeholder).zone
        = (l.getD k Intersection.placeholder).zone := by
  unfold pushRoute
  rw [getD_set_ite]
  by_cases hk : i = k
  · subst hk
    rw [if_pos ⟨rfl, hi⟩, if_pos rfl]
    exact ⟨rfl, rfl, rfl, rfl⟩
  · rw [if_neg (fun hh => hk hh.1), if_neg (fun hh => hk hh.symm)]
    simp

theorem routeRejected_iff (g : CityGraph) (fromId toId : Int) :
    g.routeRejected fromId toId = true ↔
      fromId < 0 ∨ (g.intersections.length : Int) ≤ fromId ∨ toId < 0 ∨
        (g.intersections.length : Int) ≤ toId ∨
        (g.intersections.getD fromId.toNat Intersection.placeholder).id = -1 ∨
        (g.intersections.getD toId.toNat Intersection.placeholder).id = -1 := by
  unfold CityGraph.routeRejected
  simp only [Bool.or_eq_true, decide_eq_true_eq, ge_iff_le]
  tauto

theorem isPop_singleton (p : List DijkstraNode → Option (DijkstraNode × List DijkstraNode))
    (hp : IsPop p) (a : DijkstraNode) : p [a] = some (a, []) := by
  obtain ⟨x, rest, h1, h2, _⟩ := hp.2 [a] (by simp)
  have := List.singleton_perm.mp h2
  simp only [List.cons.injEq] at this
  rw [h1, ← this.1, ← this.2]

theorem isPop_pair (p : List DijkstraNode → Option (DijkstraNode × List DijkstraNode))
    (hp : IsPop p) (a b : DijkstraNode) (h : b.distance < a.distance) :
    p [a, b] = some (b, [a]) := by
  obtain ⟨x, rest, h1, h2, h3⟩ := hp.2 [a, b] (by simp)
  have hx : x = b := by
    have hmem : x ∈ [a, b] := h2.mem_iff.mpr (List.mem_cons_self _ _)
    simp only [List.mem_cons, List.mem_singleton, List.not_mem_nil, or_false] at hmem
    rcases hmem with he | he
    · have := h3 b (by simp)
      rw [he] at this
      omega
    · exact he
  subst hx
  have h4 : (x :: [a]).Perm (x :: rest) := (List.Perm.swap a x []).trans h2
  have := List.singleton_perm.mp h4.cons_inv
  rw [h1, ← this]

set_option maxRecDepth 100000 in
theorem parallelCity_search
    (pop : Nat → List DijkstraNode → Option (DijkstraNode × List DijkstraNode))
    (hpop : ∀ k, IsPop (pop k)) (fuel : Nat) :
    searchLoop pop parallelCity 1 (fuel + 2) 0 (searchStart parallelCity 0)
      = some parallelExit := by
  have e1 : pop 0 (searchStart parallelCity 0).pq = some (⟨0, 0⟩, []) :=
    isPop_singleton _ (hpop 0) _
  have e2 : pop (0 + 1) parallelMid.pq = some (⟨1, 3⟩, [⟨1, 10⟩]) :=
    isPop_pair _ (hpop 1) _ _ (by decide)
  have hmid : (parallelCity.routesOf (0 : Int).toNat).foldl (relax 0)
      { searchStart parallelCity 0 with
        pq := [], visited := (searchStart parallelCity 0).visited.set (0 : Int).toNat true }
      = parallelMid := by decide
  have hexit : ({ parallelMid with
      pq := [⟨1, 10⟩], visited := parallelMid.visited.set (1 : Int).toNat true } : SearchState)
      = parallelExit := by decide
  have s1 : searchLoop pop parallelCity 1 (fuel + 1 + 1) 0 (searchStart parallelCity 0)
      = searchLoop pop parallelCity 1 (fuel + 1) (0 + 1) parallelMid := by
    rw [searchLoop, e1]
    simp only
    rw [if_neg (by decide), if_neg (by decide), hmid]
  have s2 : searchLoop pop parallelCity 1 (fuel + 1) (0 + 1) parallelMid = some parallelExit := by
    rw [searchLoop, e2]
    simp only
    rw [if_neg (by decide), if_pos trivial]
    exact congrArg some hexit
  rw [← s2, ← s1]

theorem built_parallelCity : Built parallelCity := by
  unfold parallelCity
  dsimp only
  repeat (first
    | apply Built.addRoute
    | apply Built.addIntersection)
  exact Built.new

theorem tracePath_parallelExit (fuel : Nat) :
    tracePath parallelExit.previous (fuel + 3) 1 = some [1, 0] := by
  have h1 : tracePath parallelExit.previous (fuel + 1) (-1) = some [] := by
    simp [tracePath]
  have h2 : tracePath parallelExit.previous (fuel + 1 + 1) 0
      = (tracePath parallelExit.previous (fuel + 1) (-1)).map (fun p => (0 : Int) :: p) := rfl
  have h3 : tracePath parallelExit.previous (fuel + 1 + 1 + 1) 1
      = (tracePath parallelExit.previous (fuel + 1 + 1) 0).map (fun p => (1 : Int) :: p) := rfl
  rw [h3, h2, h1]
  rfl

/-! ## Properties of `CityGraph` -/

set_option maxRecDepth 100000 in
/-- C24 (code defect): on the sample network, built by nine `addRoute` calls,
`getAllRoutes` returns nine entries; a tenth call `addRoute(0, 0, 1, 1, 0, "Loop")` is
accepted and appends the route twice to intersection 0, yet `getAllRoutes` still returns
nine entries: the test `intersection.id < route.destination` keeps neither copy of a route
from an intersection to itself. -/
theorem self_route_missing_from_getAllRoutes :
    sampleCity.getAllRoutes.length = 9 ∧
    sampleCity.routeRejected 0 0 = false ∧
    ((sampleCity.addRoute 0 0 1 1 0 "Loop").intersections.getD 0
        Intersection.placeholder).routes.length
      = ((sampleCity.intersections.getD 0 Intersection.placeholder).routes.length) + 2 ∧
    (sampleCity.addRoute 0 0 1 1 0 "Loop").getAllRoutes.length = 9 ∧
    (sampleCity.addRoute 0 0 1 1 0 "Loop").getAllRoutes.all
      (fun r => r.roadName != "Loop") = true := by
  refine ⟨by decide, by decide, by decide, by decide, by decide⟩

/-- C22 (as amended): for every graph built with `addIntersection`/`addRoute` whose route
distances are not negative and in which a shortest sequence of routes from `start`
extended by one more route stays below `INF`, for every way the priority queue breaks
ties, and for valid `start` and `endV`, `findShortestPath` returns (with enough fuel for
its loops, always the same vector); the vector is empty exactly when no sequence of routes
leads from `start` to `endV`; otherwise it begins with `start`, ends with `endV`, and
lists the slots along a sequence of routes from `start` to `endV` whose total distance is
least among all such sequences. -/
theorem findShortestPath_is_shortest
    (pop : Nat → List DijkstraNode → Option (DijkstraNode × List DijkstraNode))
    (hpop : ∀ k, IsPop (pop k)) (g : CityGraph) (hb : Built g) (hnn : g.NonNegative)
    (start endV : Nat) (hs : start < g.intersections.length)
    (he : endV < g.intersections.length) (hsum : g.SumsBelowINF start) :
    ∃ path, (∀ fuel, g.totalRoutes + g.intersections.length + 2 ≤ fuel →
        g.findShortestPath pop (start : Int) (endV : Int) fuel = some path) ∧
      (path = [] ↔ ¬ ∃ rs, IsWalk g start rs endV) ∧
      (path ≠ [] → path.head? = some (start : Int) ∧ path.getLast? = some (endV : Int) ∧
        ∃ rs, IsWalk g start rs endV ∧ path = (start : Int) :: rs.map Route.destination ∧
          ∀ rs2, IsWalk g start rs2 endV → totalDistance rs ≤ totalDistance rs2) := by
  have hwf := wellFormed_of_built g hb
  by_cases hse : start = endV
  · subst hse
    refine ⟨[(start : Int)], ?_, ?_, ?_⟩
    · intro fuel _
      simp [CityGraph.findShortestPath]
    · constructor
      · intro h; simp at h
      · intro h; exact absurd ⟨[], rfl⟩ h
    · intro _
      refine ⟨rfl, rfl, [], rfl, rfl, ?_⟩
      intro rs2 h2
      exact totalDistance_nonneg g hnn rs2 start start h2
  · have hne : (start : Int) ≠ (endV : Int) := by omega
    obtain ⟨st, hrun, hexit⟩ := searchLoop_terminates pop hpop g hwf hnn start endV hsum hs
      (g.totalRoutes + 2) 0 (searchStart g (start : Int)) [] (searchInv_start g start hs)
      (by
        rw [pendingRoutes_start]
        simp only [searchStart, List.length_singleton]
        omega)
    have hloop : ∀ fuel, g.totalRoutes + g.intersections.length + 2 ≤ fuel →
        searchLoop pop g (endV : Int) fuel 0 (searchStart g (start : Int)) = some st := by
      intro fuel hfuel
      obtain ⟨extra, rfl⟩ : ∃ extra, fuel = g.totalRoutes + 2 + extra :=
        ⟨fuel - (g.totalRoutes + 2), by omega⟩
      exact searchLoop_mono pop g _ _ 0 _ st hrun extra
    obtain ⟨hreach, hpath⟩ := searchExit_result g start endV st hexit hwf hnn hsum hs he
    by_cases hfin : st.distance.getD endV INF = INF
    · refine ⟨[], ?_, ?_, fun h => absurd rfl h⟩
      · intro fuel hfuel
        simp only [CityGraph.findShortestPath, hne, if_false, hloop fuel hfuel,
          Int.toNat_ofNat, hfin, if_true]
      · constructor
        · intro _ hr
          exact (hreach.mpr hr) hfin
        · intro _; rfl
    · obtain ⟨rs, p, hw, hopt, htrace, hrev⟩ := hpath hfin
      refine ⟨p.reverse, ?_, ?_, ?_⟩
      · intro fuel hfuel
        simp only [CityGraph.findShortestPath, hne, if_false, hloop fuel hfuel,
          Int.toNat_ofNat, hfin, htrace fuel (by omega), Option.map_some']
      · rw [hrev]
        constructor
        · intro h; simp at h
        · intro h; exact absurd ⟨rs, hw⟩ h
      · intro _
        rw [hrev]
        exact ⟨rfl, isWalk_getLast g rs start endV hw, rs, hw, rfl, hopt⟩

/-- Witness for C22: the hypotheses hold for `sampleCity` with the queue `popFirstMin`,
from intersection 0 to intersection 5. -/
theorem findShortestPath_is_shortest_witness :
    ((∀ k : Nat, IsPop ((fun _ => popFirstMin) k)) ∧ Built sampleCity ∧
      sampleCity.NonNegative ∧ 0 < sampleCity.intersections.length ∧
      5 < sampleCity.intersections.length ∧ sampleCity.SumsBelowINF 0) ∧
    ∃ path, (∀ fuel, sampleCity.totalRoutes + sampleCity.intersections.length + 2 ≤ fuel →
        sampleCity.findShortestPath (fun _ => popFirstMin) ((0 : Nat) : Int) ((5 : Nat) : Int)
          fuel = some path) ∧
      (path = [] ↔ ¬ ∃ rs, IsWalk sampleCity 0 rs 5) ∧
      (path ≠ [] → path.head? = some ((0 : Nat) : Int) ∧
        path.getLast? = some ((5 : Nat) : Int) ∧
        ∃ rs, IsWalk sampleCity 0 rs 5 ∧
          path = ((0 : Nat) : Int) :: rs.map Route.destination ∧
          ∀ rs2, IsWalk sampleCity 0 rs2 5 → totalDistance rs ≤ totalDistance rs2) := by
  have h1 : ∀ k : Nat, IsPop ((fun _ => popFirstMin) k) := fun _ => isPop_popFirstMin
  have h2 := built_sampleCity
  have h3 := sampleCity_facts.2.2.2.2
  have h4 : 0 < sampleCity.intersections.length := by rw [sampleCity_facts.1]; decide
  have h5 : 5 < sampleCity.intersections.length := by rw [sampleCity_facts.1]; decide
  have h6 := sumsBelowINF_sampleCity
  exact ⟨⟨h1, h2, h3, h4, h5, h6⟩,
    findShortestPath_is_shortest (fun _ => popFirstMin) h1 sampleCity h2 h3 0 5 h4 h5 h6⟩

set_option maxRecDepth 100000 in
/-- Counterexample to C22 as stated: `overflowCity` is built with `addIntersection` and
`addRoute`, its distances are not negative, its two roads together sum to 2100000000,
below `INF`, so that no path without a repeated road reaches `INF`, and intersection 2 can
be reached from intersection 0; but `findShortestPath(0, 2)` forms the sum for the way
0, 1, 0, which does not fit in an `int`, and its path loop then never ends: no fuel gives
a result. -/
theorem findShortestPath_overflows_on_way_back :
    Built overflowCity ∧ overflowCity.NonNegative ∧
      (overflowCity.getAllRoutes.map Route.distance).sum = 2100000000 ∧
      (2100000000 : Int) < INF ∧ (∃ rs, IsWalk overflowCity 0 rs 2) ∧
      ∀ fuel, overflowCity.findShortestPath (fun _ => popFirstMin) 0 2 fuel = none := by
  refine ⟨built_overflowCity, by unfold CityGraph.NonNegative; decide, by decide, by decide,
    ⟨[⟨1, 1100000000, 1, 0, "West Road"⟩, ⟨2, 1000000000, 1, 0, "East Road"⟩], by decide⟩, ?_⟩
  intro fuel
  have hexit : ∀ st, searchLoop (fun _ => popFirstMin) overflowCity 2 fuel 0
      (searchStart overflowCity 0) = some st → st = overflowExit := by
    intro st hst
    by_cases hf : fuel ≤ 4
    · have := searchLoop_mono _ _ _ fuel 0 _ st hst (4 - fuel)
      rw [show fuel + (4 - fuel) = 4 by omega, overflowCity_search] at this
      exact (Option.some.inj this).symm
    · have := searchLoop_mono _ _ _ 4 0 _ overflowExit overflowCity_search (fuel - 4)
      rw [show 4 + (fuel - 4) = fuel by omega, hst] at this
      exact Option.some.inj this
  unfold CityGraph.findShortestPath
  rw [if_neg (by decide)]
  cases hrun : searchLoop (fun _ => popFirstMin) overflowCity 2 fuel 0
      (searchStart overflowCity 0) with
  | none => rfl
  | some st =>
    rw [hexit st hrun]
    simp only
    rw [if_neg (by decide)]
    cases fuel with
    | zero => rfl
    | succ f =>
      have : tracePath overflowExit.previous (f + 1) 2
          = (tracePath overflowExit.previous f 1).map (fun p => (2 : Int) :: p) := rfl
      rw [this, (tracePath_overflowExit f).2]
      rfl

set_option maxRecDepth 100000 in
/-- Counterexample to C37: on `sampleCity` the call `addRoute(0, 0, 1, 1, 0, "Loop")` is
not rejected, and it appends two routes to intersection 0 to the routes of intersection 0,
not one. -/
theorem addRoute_to_itself_appends_two :
    sampleCity.routeRejected 0 0 = false ∧
      (sampleCity.addRoute 0 0 1 1 0 "Loop").routesOf 0
        = sampleCity.routesOf 0 ++ [⟨0, 1, 1, 0, "Loop"⟩, ⟨0, 1, 1, 0, "Loop"⟩] ∧
      ((sampleCity.addRoute 0 0 1 1 0 "Loop").routesOf 0).length
        = (sampleCity.routesOf 0).length + 2 := by
  decide

/-- C37 (as amended): `addRoute(from, to, ...)` is rejected exactly when `from` or `to` is
negative, not below the size of the table, or names a slot with id -1, and then the graph
is unchanged; otherwise the table keeps its size, the name map and every slot's id, name
and zone are unchanged, and the routes of slot `k` are the old ones, followed by one
route to `to` if `k` is `from`, followed by one route to `from` if `k` is `to`, both
with the given distance, time, cost and road name. So for `from ≠ to` each of the two
slots gets exactly one route and no other slot changes; for `from = to` the slot gets two
routes to itself. -/
theorem addRoute_validates_and_appends (g : CityGraph) (fromId toId distance time cost : Int)
    (roadName : String) :
    (g.routeRejected fromId toId = true ↔
      fromId < 0 ∨ (g.intersections.length : Int) ≤ fromId ∨ toId < 0 ∨
        (g.intersections.length : Int) ≤ toId ∨
        (g.intersections.getD fromId.toNat Intersection.placeholder).id = -1 ∨
        (g.intersections.getD toId.toNat Intersection.placeholder).id = -1) ∧
    (g.routeRejected fromId toId = true →
      g.addRoute fromId toId distance time cost roadName = g) ∧
    (g.routeRejected fromId toId = false →
      (g.addRoute fromId toId distance time cost roadName).intersections.length
        = g.intersections.length ∧
      (g.addRoute fromId toId distance time cost roadName).nameToId = g.nameToId ∧
      ∀ k : Nat,
        (g.addRoute fromId toId distance time cost roadName).routesOf k
          = g.routesOf k
            ++ (if k = fromId.toNat then [⟨toId, distance, time, cost, roadName⟩] else [])
            ++ (if k = toId.toNat then [⟨fromId, distance, time, cost, roadName⟩] else []) ∧
        ((g.addRoute fromId toId distance time cost roadName).intersections.getD k
            Intersection.placeholder).id
          = (g.intersections.getD k Intersection.placeholder).id ∧
        ((g.addRoute fromId toId distance time cost roadName).intersections.getD k
            Intersection.placeholder).name
          = (g.intersections.getD k Intersection.placeholder).name ∧
        ((g.addRoute fromId toId distance time cost roadName).intersections.getD k
            Intersection.placeholder).zone
          = (g.intersections.getD k Intersection.placeholder).zone) := by
  refine ⟨routeRejected_iff g fromId toId, ?_, ?_⟩
  · intro h
    unfold CityGraph.addRoute
    rw [if_pos h]
  · intro h
    have hno : ¬ g.routeRejected fromId toId = true := by rw [h]; decide
    have hr := (routeRejected_iff g fromId toId).not.mp hno
    push_neg at hr
    obtain ⟨h1, h2, h3, h4, _, _⟩ := hr
    have hf : fromId.toNat < g.intersections.length := by omega
    have ht : toId.toNat < g.intersections.length := by omega
    unfold CityGraph.addRoute
    rw [if_neg hno]
    refine ⟨by simp [length_pushRoute], rfl, ?_⟩
    intro k
    unfold CityGraph.routesOf
    simp only
    obtain ⟨a1, a2, a3, a4⟩ := getD_pushRoute
      (pushRoute g.intersections fromId.toNat ⟨toId, distance, time, cost, roadName⟩)
      toId.toNat k ⟨fromId, distance, time, cost, roadName⟩
      (by rw [length_pushRoute]; exact ht)
    obtain ⟨b1, b2, b3, b4⟩ := getD_pushRoute g.intersections fromId.toNat k
      ⟨toId, distance, time, cost, roadName⟩ hf
    exact ⟨by rw [a1, b1], by rw [a2, b2], by rw [a3, b3], by rw [a4, b4]⟩

set_option maxRecDepth 100000 in
/-- C36 (code defect): `parallelCity` is built with `addIntersection` and `addRoute`, with
distances that are not negative: two roads between intersections 0 and 1, of 10 km (added
first) and of 3 km. For every priority queue, `findShortestPath(0, 1)` leaves its loop
with `distance[1] = 3` and returns the path 0, 1; `calculatePathDistance` of that path is
10, the distance of the first route from 0 to 1, not the 3 the search computed. -/
theorem parallel_roads_total_differs
    (pop : Nat → List DijkstraNode → Option (DijkstraNode × List DijkstraNode))
    (hpop : ∀ k, IsPop (pop k)) (fuel : Nat) :
    Built parallelCity ∧ parallelCity.NonNegative ∧
      searchLoop pop parallelCity 1 (fuel + 3) 0 (searchStart parallelCity 0)
        = some parallelExit ∧
      parallelCity.findShortestPath pop 0 1 (fuel + 3) = some [0, 1] ∧
      parallelExit.distance.getD (1 : Int).toNat INF = 3 ∧
      parallelCity.calculatePathDistance [0, 1] = 10 := by
  have hsearch := parallelCity_search pop hpop (fuel + 1)
  refine ⟨built_parallelCity, by unfold CityGraph.NonNegative; decide, hsearch, ?_, by decide,
    by decide⟩
  unfold CityGraph.findShortestPath
  rw [if_neg (by decide), hsearch]
  simp only
  rw [if_neg (by decide), tracePath_parallelExit]
  rfl

/-- Witness for C36: the priority queue `popFirstMin`, with fuel 3. -/
theorem parallel_roads_total_differs_witness :
    (∀ k : Nat, IsPop ((fun _ => popFirstMin) k)) ∧
      parallelCity.findShortestPath (fun _ => popFirstMin) 0 1 (0 + 3) = some [0, 1] ∧
      parallelExit.distance.getD (1 : Int).toNat INF = 3 ∧
      parallelCity.calculatePathDistance [0, 1] = 10 :=
  ⟨fun _ => isPop_popFirstMin,
    (parallel_roads_total_differs (fun _ => popFirstMin) (fun _ => isPop_popFirstMin) 0).2.2.2⟩

end CityRoutes

/-!
# Properties of the transport network
-/

namespace TransportNetwork

theorem setMatrix_diag (m : List (List Int)) (i j k : Nat) (d : Int) (hij : i ≠ j) :
    ((setMatrix m i j d).getD k []).getD k 0 = (m.getD k []).getD k 0 := by
  unfold setMatrix
  simp only [List.getD_eq_getElem?_getD, List.getElem?_set]
  by_cases hik : i = k
  · subst hik
    by_cases hlt : i < m.length
    · simp [hlt, List.getElem?_set, hij.symm]
    · have hnone : m[i]? = none := List.getElem?_eq_none (by omega)
      simp [hlt, hnone]
  · simp [hik]

theorem diagonal_addRoadConnection (net : Network) (c1 c2 : Nat) (d : Int) (h : c1 ≠ c2) :
    diagonal (addRoadConnection net c1 c2 d) = diagonal net := by
  unfold diagonal addRoadConnection
  apply List.map_congr_left
  intro k _
  show ((setMatrix (setMatrix net.adjacencyMatrix c1 c2 d) c2 c1 d).getD k []).getD k 0 = _
  rw [setMatrix_diag _ _ _ _ _ h.symm, setMatrix_diag _ _ _ _ _ h]

theorem getD_set_eq {α : Type} (l : List α) (i j : Nat) (a d : α) :
    (l.set i a).getD j d = if i = j ∧ i < l.length then a else l.getD j d := by
  simp only [List.getD_eq_getElem?_getD, List.getElem?_set]
  by_cases h : i = j
  · subst h
    by_cases hl : i < l.length
    · simp [hl]
    · simp [hl, List.getElem?_eq_none (not_lt.mp hl)]
  · simp [h]

theorem bfsInv_visited_lt (net : Network) (s : Nat) (st : BfsState) (h : BfsInv net s st)
    (v : Nat) (hv : v ∈ st.visitOrder) : v < net.numberOfCities := by
  have := (h.visited_iff v).mpr hv
  rw [← h.visited_length]
  by_contra hlt
  rw [List.getD_eq_getElem?_getD, List.getElem?_eq_none (not_lt.mp hlt)] at this
  simp at this

theorem visitNeighbor_inv (net : Network) (s u : Nat) (st : BfsState) (c : Nat × Int)
    (h : BfsInv net s st) (hu : u ∈ st.visitOrder) (hc : c ∈ net.adjacencyList.getD u [])
    (hlt : c.1 < net.numberOfCities) :
    BfsInv net s (visitNeighbor u st c) ∧
      (visitNeighbor u st c).visited.getD c.1 false = true ∧
      ∃ new, (visitNeighbor u st c).visitOrder = st.visitOrder ++ new ∧
        (visitNeighbor u st c).bfsQueue = st.bfsQueue ++ new := by
  unfold visitNeighbor
  by_cases hv : st.visited.getD c.1 false = true
  · rw [if_pos hv]
    exact ⟨h, hv, [], by simp, by simp⟩
  · rw [if_neg hv]
    have hnot : c.1 ∉ st.visitOrder := fun hm => hv ((h.visited_iff c.1).mpr hm)
    have hcs : c.1 ≠ s := fun he => hnot (he ▸ h.start_mem)
    refine ⟨?_, ?_, [c.1], rfl, rfl⟩
    · constructor
      · simp [h.visited_length]
      · simp [h.parent_length]
      · intro v
        simp only [getD_set_eq, h.visited_length, List.mem_append, List.mem_singleton]
        by_cases hcv : c.1 = v
        · simp [hcv ▸ hlt, hcv]
        · rw [if_neg (fun hh => hcv hh.1), h.visited_iff]
          constructor
          · exact Or.inl
          · rintro (h1 | h1)
            · exact h1
            · exact absurd h1.symm hcv
      · exact List.Nodup.append h.nodup (List.nodup_singleton _)
          (fun a ha hb => hnot ((List.mem_singleton.mp hb) ▸ ha))
      · intro v hv2
        simp only [List.mem_append, List.mem_singleton] at hv2
        rcases hv2 with h1 | h1
        · exact h.connected v h1
        · subst h1
          exact Relation.ReflTransGen.tail (h.connected u hu) ⟨c.2, hc⟩
      · exact List.mem_append_left _ h.start_mem
      · simp only [getD_set_eq]
        rw [if_neg (fun hh => hcs hh.1)]
        exact h.parent_start
      · intro v hv2 hvs
        simp only [List.mem_append, List.mem_singleton] at hv2
        simp only [getD_set_eq, h.parent_length]
        rcases hv2 with h1 | h1
        · have hcv : c.1 ≠ v := fun he => hnot (he ▸ h1)
          obtain ⟨w, hw1, hw2, hw3⟩ := h.parent_earlier v h1 hvs
          refine ⟨w, List.mem_append_left _ hw1, ?_, ?_⟩
          · rw [if_neg (fun hh => hcv hh.1)]
            exact hw2
          · rw [List.indexOf_append_of_mem hw1, List.indexOf_append_of_mem h1]
            exact hw3
        · subst h1
          refine ⟨u, List.mem_append_left _ hu, ?_, ?_⟩
          · simp [hlt]
          · rw [List.indexOf_append_of_mem hu, List.indexOf_append_of_not_mem hnot]
            have := List.indexOf_lt_length.mpr hu
            omega
    · simp [getD_set_eq, h.visited_length, hlt]

theorem foldl_visitNeighbor_inv (net : Network) (s u : Nat) :
    ∀ (nbrs : List (Nat × Int)) (st : BfsState), BfsInv net s st → u ∈ st.visitOrder →
      (∀ c, c ∈ nbrs → c ∈ net.adjacencyList.getD u [] ∧ c.1 < net.numberOfCities) →
      BfsInv net s (nbrs.foldl (visitNeighbor u) st) ∧
        (∀ c, c ∈ nbrs → (nbrs.foldl (visitNeighbor u) st).visited.getD c.1 false = true) ∧
        ∃ new, (nbrs.foldl (visitNeighbor u) st).visitOrder = st.visitOrder ++ new ∧
          (nbrs.foldl (visitNeighbor u) st).bfsQueue = st.bfsQueue ++ new
  | [], st, h, _, _ => ⟨h, by simp, [], by simp, by simp⟩
  | c :: rest, st, h, hu, hn => by
    obtain ⟨hc1, hc2⟩ := hn c (List.mem_cons_self _ _)
    obtain ⟨h1, hvis, new1, ho1, hq1⟩ := visitNeighbor_inv net s u st c h hu hc1 hc2
    have hu1 : u ∈ (visitNeighbor u st c).visitOrder := by
      rw [ho1]; exact List.mem_append_left _ hu
    obtain ⟨h2, hvis2, new2, ho2, hq2⟩ := foldl_visitNeighbor_inv net s u rest
      (visitNeighbor u st c) h1 hu1 (fun c2 hc => hn c2 (List.mem_cons_of_mem _ hc))
    rw [List.foldl_cons]
    refine ⟨h2, ?_, new1 ++ new2, ?_, ?_⟩
    · intro c2 hc
      rcases List.mem_cons.mp hc with he | hr
      · subst he
        rw [h2.visited_iff, ho2]
        exact List.mem_append_left _ ((h1.visited_iff _).mp hvis)
      · exact hvis2 c2 hr
    · rw [ho2, ho1, List.append_assoc]
    · rw [hq2, hq1, List.append_assoc]

theorem length_le_of_nodup_lt (l : List Nat) (n : Nat) (hnd : l.Nodup)
    (hlt : ∀ x, x ∈ l → x < n) : l.length ≤ n := by
  have hsub : l ⊆ List.range n := fun x hx => List.mem_range.mpr (hlt x hx)
  have := (List.subperm_of_subset hnd hsub).length_le
  simpa using this

theorem adjacency_wellFormed (net : Network) (hwf : WellFormed net) (u : Nat)
    (c : Nat × Int) (hc : c ∈ net.adjacencyList.getD u []) : c.1 < net.numberOfCities := by
  rw [List.getD_eq_getElem?_getD] at hc
  cases hq : net.adjacencyList[u]? with
  | none => rw [hq] at hc; simp at hc
  | some l =>
    rw [hq] at hc
    exact hwf.2 l (List.mem_iff_getElem?.mpr ⟨u, hq⟩) c hc

theorem bfsInv_bfsStart (net : Network) (s : Nat) (hs : s < net.numberOfCities) :
    BfsInv net s (bfsStart net s) := by
  constructor
  · simp [bfsStart]
  · simp [bfsStart]
  · intro v
    simp only [bfsStart, getD_set_eq, List.length_replicate, List.mem_singleton]
    by_cases hv : s = v
    · simp [hv ▸ hs, hv]
    · rw [if_neg (fun hh => hv hh.1)]
      have hf : (List.replicate net.numberOfCities false).getD v false = false := by
        rw [List.getD_eq_getElem?_getD, List.getElem?_replicate]
        split_ifs <;> rfl
      rw [hf]
      constructor
      · intro hh; simp at hh
      · intro hh; exact absurd hh.symm hv
  · simp [bfsStart]
  · intro v hv
    simp only [bfsStart, List.mem_singleton] at hv
    subst hv
    exact Relation.ReflTransGen.refl
  · simp [bfsStart]
  · simp [bfsStart, List.getD_eq_getElem?_getD, List.getElem?_replicate, hs]
  · intro v hv hne
    simp only [bfsStart, List.mem_singleton] at hv
    exact absurd hv hne

/-- The loop of `bfsTraversal` ends: from a state whose visit order is the cities already
taken from the queue followed by the queue, with every neighbour of a city taken from the
queue visited, it returns a state in which every neighbour of a visited city is visited. -/
theorem bfsLoop_terminates (net : Network) (hwf : WellFormed net) (s : Nat) :
    ∀ (fuel : Nat) (st : BfsState) (processed : List Nat), BfsInv net s st →
      st.visitOrder = processed ++ st.bfsQueue →
      (∀ u, u ∈ processed → ∀ c, c ∈ net.adjacencyList.getD u [] →
        st.visited.getD c.1 false = true) →
      st.bfsQueue.length + (net.numberOfCities - st.visitOrder.length) < fuel →
      ∃ st2, bfsLoop net fuel st = some st2 ∧ BfsInv net s st2 ∧
        ∀ u, u ∈ st2.visitOrder → ∀ c, c ∈ net.adjacencyList.getD u [] →
          st2.visited.getD c.1 false = true
  | 0, _, _, _, _, _, hf => by omega
  | fuel + 1, st, processed, h, hord, hclosed, hf => by
    obtain ⟨visited, queue, order, distances, parent⟩ := st
    cases queue with
    | nil =>
      refine ⟨_, rfl, h, ?_⟩
      intro u hu
      simp only [List.append_nil] at hord
      exact hclosed u (hord ▸ hu)
    | cons u rest =>
      simp only at hord hf hclosed
      have h1 : BfsInv net s ⟨visited, rest, order, distances, parent⟩ :=
        ⟨h.visited_length, h.parent_length, h.visited_iff, h.nodup, h.connected, h.start_mem,
          h.parent_start, h.parent_earlier⟩
      have hu : u ∈ order := by rw [hord]; simp
      obtain ⟨h2, hvis, new, ho, hq⟩ := foldl_visitNeighbor_inv net s u
        (net.adjacencyList.getD u []) ⟨visited, rest, order, distances, parent⟩ h1 hu
        (fun c hc => ⟨hc, adjacency_wellFormed net hwf u c hc⟩)
      simp only at ho hq
      have hlen := length_le_of_nodup_lt _ _ h2.nodup (bfsInv_visited_lt net s _ h2)
      rw [ho, List.length_append] at hlen
      have hmono : ∀ v, visited.getD v false = true →
          ((net.adjacencyList.getD u []).foldl (visitNeighbor u)
            ⟨visited, rest, order, distances, parent⟩).visited.getD v false = true := by
        intro v hv
        rw [h2.visited_iff, ho]
        exact List.mem_append_left _ ((h.visited_iff v).mp hv)
      have := bfsLoop_terminates net hwf s fuel _ (processed ++ [u]) h2
        (by rw [ho, hq, hord]; simp)
        (by
          intro w hw c hc
          rcases List.mem_append.mp hw with hp | hp
          · exact hmono _ (hclosed w hp c hc)
          · rw [List.mem_singleton.mp hp] at hc
            exact hvis c hc)
        (by
          rw [ho, hq, List.length_append, List.length_append]
          simp only [List.length_cons] at hf
          omega)
      exact this

theorem parentPath_of_inv (net : Network) (s : Nat) (st : BfsState) (h : BfsInv net s st) :
    ∀ (r v : Nat), v ∈ st.visitOrder → st.visitOrder.indexOf v = r →
      ∃ path, (∀ fuel, r + 2 ≤ fuel → parentPath st.parent fuel (v : Int) = some path) ∧
        path.head? = some (v : Int) ∧ path.getLast? = some (s : Int) := by
  intro r
  induction r using Nat.strong_induction_on with
  | _ r ih =>
    intro v hv hr
    have hne : (v : Int) ≠ -1 := by omega
    by_cases hvs : v = s
    · subst hvs
      refine ⟨[(v : Int)], ?_, rfl, rfl⟩
      intro fuel hfuel
      obtain ⟨f, rfl⟩ : ∃ f, fuel = f + 2 := ⟨fuel - 2, by omega⟩
      have hps := h.parent_start
      simp only [parentPath, hne, if_false, Int.toNat_ofNat, hps, if_true]
      rfl
    · obtain ⟨u, hu, hpar, hlt⟩ := h.parent_earlier v hv hvs
      obtain ⟨path, hpath, _, hlast⟩ := ih (st.visitOrder.indexOf u) (by omega) u hu rfl
      refine ⟨(v : Int) :: path, ?_, rfl, ?_⟩
      · intro fuel hfuel
        obtain ⟨f, rfl⟩ : ∃ f, fuel = f + 1 := ⟨fuel - 1, by omega⟩
        simp only [parentPath, hne, if_false, Int.toNat_ofNat, hpar]
        rw [hpath f (by omega)]
        rfl
      · cases path with
        | nil => simp at hlast
        | cons a l => simpa using hlast

theorem bfsLoop_mono (net : Network) :
    ∀ (fuel : Nat) (st r : BfsState), bfsLoop net fuel st = some r →
      ∀ extra, bfsLoop net (fuel + extra) st = some r
  | 0, _, _, h, _ => by simp [bfsLoop] at h
  | fuel + 1, st, r, h, extra => by
    rw [Nat.add_right_comm]
    unfold bfsLoop at h ⊢
    cases hq : st.bfsQueue with
    | nil => rw [hq] at h; exact h
    | cons u rest =>
      rw [hq] at h
      exact bfsLoop_mono net fuel _ r h extra

theorem wellFormed_addRoadConnection (net : Network) (city1 city2 : Nat) (distance : Int)
    (hwf : WellFormed net) (h1 : city1 < net.numberOfCities) (h2 : city2 < net.numberOfCities) :
    WellFormed (addRoadConnection net city1 city2 distance) := by
  obtain ⟨hlen, hall⟩ := hwf
  have hget : ∀ (l : List (List (Nat × Int))) (i : Nat),
      (∀ x, x ∈ l → ∀ c, c ∈ x → c.1 < net.numberOfCities) →
      ∀ c, c ∈ l.getD i [] → c.1 < net.numberOfCities := by
    intro l i hl c hc
    rw [List.getD_eq_getElem?_getD] at hc
    cases hq : l[i]? with
    | none => rw [hq] at hc; simp at hc
    | some x =>
      rw [hq] at hc
      exact hl x (List.mem_iff_getElem?.mpr ⟨i, hq⟩) c hc
  have hpush : ∀ (l : List (List (Nat × Int))) (i city : Nat), city < net.numberOfCities →
      (∀ x, x ∈ l → ∀ c, c ∈ x → c.1 < net.numberOfCities) →
      ∀ x, x ∈ pushConnection l i city distance → ∀ c, c ∈ x → c.1 < net.numberOfCities := by
    intro l i city hcity hl x hx c hc
    rcases List.mem_or_eq_of_mem_set hx with hm | he
    · exact hl x hm c hc
    · subst he
      rcases List.mem_append.mp hc with hm | hm
      · exact hget l i hl c hm
      · rw [List.mem_singleton.mp hm]
        exact hcity
  constructor
  · simp [addRoadConnection, pushConnection, hlen]
  · exact hpush _ city2 city1 h1 (hpush _ city1 city2 h2 hall)

theorem updateFirst_fst (city : Nat) (distance : Int) :
    ∀ (l : List (Nat × Int)) (c : Nat × Int), c ∈ updateFirst city distance l →
      ∃ c2, c2 ∈ l ∧ c2.1 = c.1
  | [], c, h => by simp [updateFirst] at h
  | (a, d) :: rest, c, h => by
    unfold updateFirst at h
    split_ifs at h with he
    · rcases List.mem_cons.mp h with h1 | h1
      · exact ⟨(a, d), List.mem_cons_self _ _, by rw [h1]⟩
      · exact ⟨c, List.mem_cons_of_mem _ h1, rfl⟩
    · rcases List.mem_cons.mp h with h1 | h1
      · exact ⟨(a, d), List.mem_cons_self _ _, by rw [h1]⟩
      · obtain ⟨c2, hc2, he2⟩ := updateFirst_fst city distance rest c h1
        exact ⟨c2, List.mem_cons_of_mem _ hc2, he2⟩

theorem wellFormed_startNetwork : WellFormed startNetwork := by decide

/-- The shape `WellFormed` is kept by `addUserConnection`, whatever is typed in. -/
theorem wellFormed_addUserConnection (net : Network) (choice1 choice2 : Int)
    (updateAnswer : Char) (distance : Int) (hwf : WellFormed net) :
    WellFormed (addUserConnection net choice1 choice2 updateAnswer distance) := by
  unfold addUserConnection
  simp only
  split_ifs with h1 h2 h3 h4 h5
  · exact hwf
  · exact hwf
  · exact hwf
  · exact hwf
  · obtain ⟨hlen, hall⟩ := hwf
    have hget : ∀ (l : List (List (Nat × Int))) (i : Nat),
        (∀ x, x ∈ l → ∀ c, c ∈ x → c.1 < net.numberOfCities) →
        ∀ c, c ∈ l.getD i [] → c.1 < net.numberOfCities := by
      intro l i hl c hc
      rw [List.getD_eq_getElem?_getD] at hc
      cases hq : l[i]? with
      | none => rw [hq] at hc; simp at hc
      | some x =>
        rw [hq] at hc
        exact hl x (List.mem_iff_getElem?.mpr ⟨i, hq⟩) c hc
    have hupd : ∀ (l : List (List (Nat × Int))) (i city : Nat),
        (∀ x, x ∈ l → ∀ c, c ∈ x → c.1 < net.numberOfCities) →
        ∀ x, x ∈ l.set i (updateFirst city distance (l.getD i [])) →
          ∀ c, c ∈ x → c.1 < net.numberOfCities := by
      intro l i city hl x hx c hc
      rcases List.mem_or_eq_of_mem_set hx with hm | he
      · exact hl x hm c hc
      · subst he
        obtain ⟨c2, hc2, he2⟩ := updateFirst_fst city distance _ c hc
        rw [← he2]
        exact hget l i hl c2 hc2
    constructor
    · simp [hlen]
    · exact hupd _ _ _ (hupd _ _ _ hall)
  · unfold getUserCityChoice at h1 h2 ⊢
    split_ifs at h1 h2 ⊢ with g1 g2
    · exact wellFormed_addRoadConnection net _ _ distance hwf (by omega) (by omega)
    all_goals simp at h1 h2

/-! ### Sequences of connections -/

theorem adjacency_inRange (net : Network) (hr : RoadsInRange net) (u : Nat) (c : Nat × Int)
    (hc : c ∈ net.adjacencyList.getD u []) : 1 ≤ c.2 ∧ c.2 ≤ 10000 := by
  rw [List.getD_eq_getElem?_getD] at hc
  cases hq : net.adjacencyList[u]? with
  | none => rw [hq] at hc; simp at hc
  | some l =>
    rw [hq] at hc
    exact hr l (List.mem_iff_getElem?.mpr ⟨u, hq⟩) c hc

theorem roadTotal_append (cs : List (Nat × Int)) (c : Nat × Int) :
    roadTotal (cs ++ [c]) = roadTotal cs + c.2 := by
  simp [roadTotal]

theorem roadTotal_cons (cs : List (Nat × Int)) (c : Nat × Int) :
    roadTotal (c :: cs) = c.2 + roadTotal cs := by
  simp [roadTotal]

theorem isRoadWalk_append (net : Network) :
    ∀ (cs : List (Nat × Int)) (u p : Nat) (c : Nat × Int), IsRoadWalk net u cs p →
      c ∈ net.adjacencyList.getD p [] → IsRoadWalk net u (cs ++ [c]) c.1
  | [], u, p, c, h, hc => by
    simp only [IsRoadWalk] at h
    subst h
    exact ⟨hc, rfl⟩
  | c1 :: cs, u, p, c, h, hc => by
    obtain ⟨h1, h2⟩ := h
    exact ⟨h1, isRoadWalk_append net cs _ p c h2 hc⟩

theorem isRoadWalk_of_append (net : Network) :
    ∀ (cs : List (Nat × Int)) (u v : Nat) (c : Nat × Int), IsRoadWalk net u (cs ++ [c]) v →
      ∃ p, IsRoadWalk net u cs p ∧ c ∈ net.adjacencyList.getD p [] ∧ c.1 = v
  | [], u, v, c, h => by
    obtain ⟨h1, h2⟩ := h
    exact ⟨u, rfl, h1, h2⟩
  | c1 :: cs, u, v, c, h => by
    obtain ⟨h1, h2⟩ := h
    obtain ⟨p, hp1, hp2, hp3⟩ := isRoadWalk_of_append net cs _ v c h2
    exact ⟨p, ⟨h1, hp1⟩, hp2, hp3⟩

theorem isRoadWalk_lt (net : Network) (hwf : WellFormed net) :
    ∀ (cs : List (Nat × Int)) (u v : Nat), IsRoadWalk net u cs v → u < net.numberOfCities →
      v < net.numberOfCities
  | [], u, v, h, hu => by
    simp only [IsRoadWalk] at h
    omega
  | c :: cs, u, v, h, _ => by
    obtain ⟨h1, h2⟩ := h
    exact isRoadWalk_lt net hwf cs _ v h2 (adjacency_wellFormed net hwf u c h1)

theorem roadTotal_bounds (net : Network) (hr : RoadsInRange net) :
    ∀ (cs : List (Nat × Int)) (u v : Nat), IsRoadWalk net u cs v →
      0 ≤ roadTotal cs ∧ roadTotal cs ≤ 10000 * (cs.length : Int)
  | [], _, _, _ => ⟨le_refl _, le_refl _⟩
  | c :: cs, u, v, h => by
    obtain ⟨h1, h2⟩ := h
    obtain ⟨b1, b2⟩ := roadTotal_bounds net hr cs _ v h2
    obtain ⟨r1, r2⟩ := adjacency_inRange net hr u c h1
    rw [roadTotal_cons, List.length_cons]
    push_cast
    constructor <;> omega

theorem wrapInt_of_small (x : Int) (h0 : 0 ≤ x) (h1 : x < infinity_distance) : wrapInt x = x := by
  unfold wrapInt
  unfold infinity_distance at h1
  omega

theorem dijkstra_lt_of_visited (net : Network) (source : Nat) (order processed : List Nat)
    (st : DijkstraState) (h : DijkstraInv net source order processed st) (v : Nat)
    (hv : v ∈ order) : v < net.numberOfCities := by
  have := (h.visited_iff v).mpr hv
  rw [← h.visited_length]
  by_contra hlt
  rw [List.getD_eq_getElem?_getD, List.getElem?_eq_none (not_lt.mp hlt)] at this
  simp at this

theorem dijkstra_order_length (net : Network) (source : Nat) (order processed : List Nat)
    (st : DijkstraState) (h : DijkstraInv net source order processed st) :
    order.length ≤ net.numberOfCities :=
  length_le_of_nodup_lt _ _ h.nodup (dijkstra_lt_of_visited net source order processed st h)

/-- The sum formed when a connection out of a visited city is relaxed is the total of a
sequence of connections from `source`, between 0 and `infinity_distance`. -/
theorem relaxRoad_sum (net : Network) (source : Nat) (order processed : List Nat)
    (st : DijkstraState) (h : DijkstraInv net source order processed st)
    (hr : RoadsInRange net) (hn : (net.numberOfCities : Int) * 10000 < infinity_distance)
    (u : Nat) (hu : u ∈ order) (c : Nat × Int) (hc : c ∈ net.adjacencyList.getD u []) :
    0 ≤ st.distances.getD u infinity_distance ∧ 1 ≤ c.2 ∧
      st.distances.getD u infinity_distance + c.2 < infinity_distance ∧
      ∃ cs, IsRoadWalk net source cs c.1 ∧
        roadTotal cs = st.distances.getD u infinity_distance + c.2 ∧
        cs.length ≤ order.indexOf u + 1 := by
  obtain ⟨hfin, _⟩ := h.optimal u hu
  obtain ⟨cs, hw, ht, hlen⟩ :=
    h.walk u (dijkstra_lt_of_visited net source order processed st h u hu) hfin
  obtain ⟨b1, b2⟩ := roadTotal_bounds net hr cs source u hw
  obtain ⟨r1, r2⟩ := adjacency_inRange net hr u c hc
  have hidx := List.indexOf_lt_length.mpr hu
  have hol := dijkstra_order_length net source order processed st h
  have hcl : (cs.length : Int) + 1 ≤ net.numberOfCities := by omega
  refine ⟨by omega, r1, by nlinarith, cs ++ [c], isRoadWalk_append net cs source u c hw hc, ?_, ?_⟩
  · rw [roadTotal_append, ht]
  · rw [List.length_append, List.length_singleton]
    omega

theorem relaxRoad_inv (net : Network) (source : Nat) (order processed : List Nat)
    (st : DijkstraState) (h : DijkstraInv net source order processed st)
    (hwf : WellFormed net) (hr : RoadsInRange net)
    (hn : (net.numberOfCities : Int) * 10000 < infinity_distance)
    (u : Nat) (hu : u ∈ order) (c : Nat × Int) (hc : c ∈ net.adjacencyList.getD u []) :
    DijkstraInv net source order processed
        (relaxRoad u (st.distances.getD u infinity_distance) st c) ∧
      (relaxRoad u (st.distances.getD u infinity_distance) st c).distances.getD c.1
          infinity_distance
        ≤ (relaxRoad u (st.distances.getD u infinity_distance) st c).distances.getD u
            infinity_distance + c.2 ∧
      (∀ v, (relaxRoad u (st.distances.getD u infinity_distance) st c).distances.getD v
          infinity_distance ≤ st.distances.getD v infinity_distance) ∧
      (∀ v, v ∈ order →
        (relaxRoad u (st.distances.getD u infinity_distance) st c).distances.getD v
          infinity_distance = st.distances.getD v infinity_distance) ∧
      (relaxRoad u (st.distances.getD u infinity_distance) st c).pq.length
        ≤ st.pq.length + 1 ∧
      (relaxRoad u (st.distances.getD u infinity_distance) st c).visited = st.visited := by
  obtain ⟨hdu0, hrd1, hlt, csv, hwalkv, htotv, hlenv⟩ :=
    relaxRoad_sum net source order processed st h hr hn u hu c hc
  have hdn := adjacency_wellFormed net hwf u c hc
  have hwrap := wrapInt_of_small _
    (by omega : 0 ≤ st.distances.getD u infinity_distance + c.2) hlt
  unfold relaxRoad
  simp only [hwrap]
  by_cases hless : st.distances.getD u infinity_distance + c.2
      < st.distances.getD c.1 infinity_distance
  swap
  · rw [if_neg hless]
    exact ⟨h, by omega, fun v => le_refl _, fun v _ => rfl, by omega, rfl⟩
  rw [if_pos hless]
  have hvnot : c.1 ∉ order := by
    intro hm
    have := (h.optimal _ hm).2 csv hwalkv
    omega
  have hvu : c.1 ≠ u := fun he => hvnot (he ▸ hu)
  have hvs : c.1 ≠ source := by
    intro he
    have := h.dist_source
    rw [he] at hless
    omega
  have hget : ∀ w, (st.distances.set c.1
      (st.distances.getD u infinity_distance + c.2)).getD w infinity_distance
      = if c.1 = w then st.distances.getD u infinity_distance + c.2
        else st.distances.getD w infinity_distance := by
    intro w
    rw [getD_set_eq, h.distances_length]
    by_cases hw : c.1 = w
    · rw [if_pos ⟨hw, hdn⟩, if_pos hw]
    · rw [if_neg (fun hh => hw hh.1), if_neg hw]
  have hprev : ∀ w, (st.parent.set c.1 (u : Int)).getD w (-1)
      = if c.1 = w then (u : Int) else st.parent.getD w (-1) := by
    intro w
    rw [getD_set_eq, h.parent_length]
    by_cases hw : c.1 = w
    · rw [if_pos ⟨hw, hdn⟩, if_pos hw]
    · rw [if_neg (fun hh => hw hh.1), if_neg hw]
  have hmono : ∀ w, (if c.1 = w then st.distances.getD u infinity_distance + c.2
      else st.distances.getD w infinity_distance) ≤ st.distances.getD w infinity_distance := by
    intro w
    split_ifs with hw
    · rw [← hw]; omega
    · exact le_refl _
  have hsame : ∀ w, w ∈ order → (if c.1 = w
      then st.distances.getD u infinity_distance + c.2
      else st.distances.getD w infinity_distance)
      = st.distances.getD w infinity_distance := by
    intro w hw
    rw [if_neg (fun (he : c.1 = w) => hvnot (by rw [he]; exact hw))]
  refine ⟨?_, ?_, ?_, ?_, ?_, rfl⟩
  · constructor
    · simp [h.distances_length]
    · simp [h.parent_length]
    · exact h.visited_length
    · exact h.visited_iff
    · exact h.processed_sub
    · simp only [hget, if_neg hvs]
      exact h.dist_source
    · simp only [hprev, if_neg hvs]
      exact h.parent_source
    · intro w hw hwfin
      simp only [hget] at hwfin ⊢
      by_cases he : c.1 = w
      · rw [if_pos he]
        refine ⟨csv, he ▸ hwalkv, htotv, ?_⟩
        rw [← he, List.indexOf_of_not_mem hvnot]
        have := List.indexOf_lt_length.mpr hu
        omega
      · rw [if_neg he] at hwfin ⊢
        exact h.walk w hw hwfin
    · intro w hw
      simp only [hget, hsame w hw]
      exact h.optimal w hw
    · intro p hp c2 hc2
      simp only [hget, hsame p (h.processed_sub p hp)]
      exact le_trans (hmono _) (h.closed p hp c2 hc2)
    · intro w hw hwfin hwnot
      simp only [hget] at hwfin ⊢
      by_cases he : c.1 = w
      · rw [if_pos he, ← he]
        exact List.mem_append_right _ (List.mem_singleton_self _)
      · rw [if_neg he] at hwfin ⊢
        exact List.mem_append_left _ (h.queued w hw hwfin hwnot)
    · intro x hx
      simp only [hget]
      rcases List.mem_append.mp hx with h1 | h1
      · obtain ⟨e1, e2, e3⟩ := h.entries x h1
        exact ⟨e1, le_trans (hmono _) e2, e3⟩
      · rw [List.mem_singleton.mp h1]
        simp only [if_true]
        exact ⟨hdn, le_refl _, hlt⟩
    · intro w hw hwfin hws
      simp only [hget, hprev] at hwfin ⊢
      by_cases he : c.1 = w
      · rw [if_pos he, if_pos he]
        refine ⟨u, c, hu, rfl, hc, he, by rw [if_neg hvu], ?_⟩
        rw [← he, List.indexOf_of_not_mem hvnot]
        exact List.indexOf_lt_length.mpr hu
      · rw [if_neg he] at hwfin
        rw [if_neg he, if_neg he]
        obtain ⟨p, c2, hp, t1, t2, t3, t4, t5⟩ := h.tree w hw hwfin hws
        refine ⟨p, c2, hp, t1, t2, t3, ?_, t5⟩
        rw [if_neg (fun (hh : c.1 = p) => hvnot (by rw [hh]; exact hp))]
        exact t4
    · exact h.nodup
  · simp only [hget, if_true, if_neg hvu]
    exact le_refl _
  · intro w
    simp only [hget]
    exact hmono w
  · intro w hw
    simp only [hget]
    exact hsame w hw
  · simp

theorem foldl_relaxRoad_inv (net : Network) (source : Nat) (order processed : List Nat)
    (hwf : WellFormed net) (hr : RoadsInRange net)
    (hn : (net.numberOfCities : Int) * 10000 < infinity_distance) (u : Nat) (hu : u ∈ order)
    (d : Int) :
    ∀ (roads : List (Nat × Int)) (st : DijkstraState),
      DijkstraInv net source order processed st →
      d = st.distances.getD u infinity_distance →
      (∀ c, c ∈ roads → c ∈ net.adjacencyList.getD u []) →
      DijkstraInv net source order processed (roads.foldl (relaxRoad u d) st) ∧
        (∀ c, c ∈ roads →
          (roads.foldl (relaxRoad u d) st).distances.getD c.1 infinity_distance
            ≤ (roads.foldl (relaxRoad u d) st).distances.getD u infinity_distance + c.2) ∧
        (∀ v, (roads.foldl (relaxRoad u d) st).distances.getD v infinity_distance
          ≤ st.distances.getD v infinity_distance) ∧
        (∀ v, v ∈ order →
          (roads.foldl (relaxRoad u d) st).distances.getD v infinity_distance
            = st.distances.getD v infinity_distance) ∧
        (roads.foldl (relaxRoad u d) st).pq.length ≤ st.pq.length + roads.length ∧
        (roads.foldl (relaxRoad u d) st).visited = st.visited
  | [], st, h, _, _ => ⟨h, by simp, fun _ => le_refl _, fun _ _ => rfl, by simp, rfl⟩
  | c :: rest, st, h, hd, hc => by
    subst hd
    obtain ⟨h1, hc1, hm1, hs1, hp1, hv1⟩ := relaxRoad_inv net source order processed st h hwf hr
      hn u hu c (hc c (List.mem_cons_self _ _))
    obtain ⟨h2, hc2, hm2, hs2, hp2, hv2⟩ := foldl_relaxRoad_inv net source order processed hwf
      hr hn u hu (st.distances.getD u infinity_distance) rest
      (relaxRoad u (st.distances.getD u infinity_distance) st c) h1 (hs1 u hu).symm
      (fun c2 h2 => hc c2 (List.mem_cons_of_mem _ h2))
    rw [List.foldl_cons]
    refine ⟨h2, ?_, ?_, ?_, ?_, ?_⟩
    · intro c2 hc2m
      rcases List.mem_cons.mp hc2m with he | hm
      · subst he
        have := hm2 c2.1
        have := hs2 u hu
        omega
      · exact hc2 c2 hm
    · intro v
      exact le_trans (hm2 v) (hm1 v)
    · intro v hv
      rw [hs2 v hv, hs1 v hv]
    · simp only [List.length_cons]
      omega
    · rw [hv2, hv1]

theorem dijkstraInv_processed (net : Network) (source : Nat) (order processed : List Nat)
    (st : DijkstraState) (h : DijkstraInv net source order processed st) (u : Nat)
    (hu : u ∈ order)
    (hc : ∀ c, c ∈ net.adjacencyList.getD u [] →
      st.distances.getD c.1 infinity_distance ≤ st.distances.getD u infinity_distance + c.2) :
    DijkstraInv net source order (processed ++ [u]) st :=
  { h with
    processed_sub := by
      intro p hp
      rcases List.mem_append.mp hp with h1 | h1
      · exact h.processed_sub p h1
      · rw [List.mem_singleton.mp h1]; exact hu
    closed := by
      intro p hp
      rcases List.mem_append.mp hp with h1 | h1
      · exact h.closed p h1
      · rw [List.mem_singleton.mp h1]; exact hc }

/-- At the head of the loop, a sequence of connections from `source` to a city that is
not visited has a total of at least any lower bound `m` of the finite distances of the
cities that are not visited. -/
theorem unvisited_city_lower_bound (net : Network) (source : Nat) (order : List Nat)
    (st : DijkstraState) (h : DijkstraInv net source order order st) (hwf : WellFormed net)
    (hr : RoadsInRange net) (hn : (net.numberOfCities : Int) * 10000 < infinity_distance)
    (hs : source < net.numberOfCities) (m : Int)
    (hm : ∀ v, v < net.numberOfCities → v ∉ order →
      st.distances.getD v infinity_distance ≠ infinity_distance →
      m ≤ st.distances.getD v infinity_distance) :
    ∀ (cs : List (Nat × Int)) (y : Nat), IsRoadWalk net source cs y → y ∉ order →
      m ≤ roadTotal cs := by
  intro cs
  induction cs using List.reverseRecOn with
  | nil =>
    intro y hw hy
    simp only [IsRoadWalk] at hw
    subst hw
    have := hm source hs hy (by rw [h.dist_source]; decide)
    rw [h.dist_source] at this
    exact this
  | append_singleton cs c ih =>
    intro y hw hy
    obtain ⟨p, hp, hc, hcy⟩ := isRoadWalk_of_append net cs source y c hw
    rw [roadTotal_append]
    have hrd := (adjacency_inRange net hr p c hc).1
    by_cases hpo : p ∈ order
    · obtain ⟨_, _, hlt, _⟩ := relaxRoad_sum net source order order st h hr hn p hpo c hc
      have hcl := h.closed p hpo c hc
      rw [hcy] at hcl
      have hopt := (h.optimal p hpo).2 cs hp
      have hyn := isRoadWalk_lt net hwf _ source y hw hs
      have := hm y hyn hy (by omega)
      omega
    · have := ih p hp hpo
      omega

theorem skip_city_inv (net : Network) (source : Nat) (order : List Nat) (st : DijkstraState)
    (h : DijkstraInv net source order order st) (x : Int × Nat) (rest : List (Int × Nat))
    (hperm : st.pq.Perm (x :: rest)) (hvis : st.visited.getD x.2 false = true) :
    DijkstraInv net source order order { st with pq := rest } :=
  { h with
    queued := by
      intro v hv hfin hnot
      have hmem := hperm.mem_iff.mp (h.queued v hv hfin hnot)
      rcases List.mem_cons.mp hmem with he | hm
      · exfalso
        apply hnot
        rw [← h.visited_iff]
        rw [← he] at hvis
        exact hvis
      · exact hm
    entries := by
      intro y hy
      exact h.entries y (hperm.mem_iff.mpr (List.mem_cons_of_mem _ hy)) }

theorem visit_city_inv (net : Network) (source : Nat) (order : List Nat) (st : DijkstraState)
    (h : DijkstraInv net source order order st) (hwf : WellFormed net)
    (hr : RoadsInRange net) (hn : (net.numberOfCities : Int) * 10000 < infinity_distance)
    (hs : source < net.numberOfCities)
    (x : Int × Nat) (rest : List (Int × Nat)) (hperm : st.pq.Perm (x :: rest))
    (hmin : ∀ y, y ∈ st.pq → x.1 ≤ y.1)
    (hnot : ¬ st.visited.getD x.2 false = true) :
    DijkstraInv net source (order ++ [x.2]) order
        { st with pq := rest, visited := st.visited.set x.2 true } ∧
      x.1 = st.distances.getD x.2 infinity_distance := by
  have hx : x ∈ st.pq := hperm.mem_iff.mpr (List.mem_cons_self _ _)
  obtain ⟨e1, e2, e3⟩ := h.entries x hx
  have hxo : x.2 ∉ order := fun hm => hnot ((h.visited_iff _).mpr hm)
  have hlow := unvisited_city_lower_bound net source order st h hwf hr hn hs x.1
    (fun v hv hvo hfin => hmin _ (h.queued v hv hfin hvo))
  have heq : x.1 = st.distances.getD x.2 infinity_distance := by
    have := hmin _ (h.queued x.2 e1 (by omega) hxo)
    simp only at this
    omega
  refine ⟨?_, heq⟩
  constructor
  · exact h.distances_length
  · exact h.parent_length
  · simp [h.visited_length]
  · intro v
    simp only [getD_set_eq, h.visited_length, List.mem_append, List.mem_singleton]
    by_cases hv : x.2 = v
    · simp [hv ▸ e1, hv]
    · rw [if_neg (fun hh => hv hh.1), h.visited_iff]
      constructor
      · exact Or.inl
      · rintro (h1 | h1)
        · exact h1
        · exact absurd h1.symm hv
  · intro u hu
    exact List.mem_append_left _ hu
  · exact h.dist_source
  · exact h.parent_source
  · intro v hv hfin
    obtain ⟨cs, w1, w2, w3⟩ := h.walk v hv hfin
    refine ⟨cs, w1, w2, ?_⟩
    by_cases hvo : v ∈ order
    · rw [List.indexOf_append_of_mem hvo]
      exact w3
    · rw [List.indexOf_append_of_not_mem hvo]
      rw [List.indexOf_of_not_mem hvo] at w3
      omega
  · intro v hv
    rcases List.mem_append.mp hv with h1 | h1
    · exact h.optimal v h1
    · rw [List.mem_singleton.mp h1]
      show st.distances.getD x.2 infinity_distance ≠ infinity_distance ∧
        ∀ cs, IsRoadWalk net source cs x.2 →
          st.distances.getD x.2 infinity_distance ≤ roadTotal cs
      refine ⟨by omega, ?_⟩
      intro cs hw
      have := hlow cs _ hw hxo
      omega
  · exact h.closed
  · intro v hv hfin hvo
    have hvo1 : v ∉ order := fun hm => hvo (List.mem_append_left _ hm)
    have hvx : v ≠ x.2 := fun he => hvo (by rw [he]; simp)
    have hmem := hperm.mem_iff.mp (h.queued v hv hfin hvo1)
    rcases List.mem_cons.mp hmem with he | hm
    · exfalso
      apply hvx
      rw [← he]
    · exact hm
  · intro y hy
    exact h.entries y (hperm.mem_iff.mpr (List.mem_cons_of_mem _ hy))
  · intro v hv hfin hvs
    obtain ⟨u, c, hu, t1, t2, t3, t4, t5⟩ := h.tree v hv hfin hvs
    refine ⟨u, c, List.mem_append_left _ hu, t1, t2, t3, t4, ?_⟩
    rw [List.indexOf_append_of_mem hu]
    by_cases hvo : v ∈ order
    · rw [List.indexOf_append_of_mem hvo]
      exact t5
    · rw [List.indexOf_append_of_not_mem hvo]
      have := List.indexOf_lt_length.mpr hu
      omega
  · exact List.Nodup.append h.nodup (List.nodup_singleton _)
      (fun a ha hb => hxo ((List.mem_singleton.mp hb) ▸ ha))

theorem minPair_spec : ∀ (l : List (Int × Nat)) (x : Int × Nat),
    minPair x l ∈ x :: l ∧ ∀ y, y ∈ x :: l → (minPair x l).1 ≤ y.1
  | [], x => ⟨List.mem_singleton_self _, fun y hy => by
      rw [List.mem_singleton.mp hy]; exact le_refl _⟩
  | z :: l, x => by
    unfold minPair
    split_ifs with hlt
    · obtain ⟨h1, h2⟩ := minPair_spec l z
      have hzx : z.1 ≤ x.1 := by
        unfold pairLess at hlt
        simp only [Bool.or_eq_true, Bool.and_eq_true, decide_eq_true_eq] at hlt
        omega
      refine ⟨List.mem_cons_of_mem _ h1, ?_⟩
      intro y hy
      rcases List.mem_cons.mp hy with he | hm
      · have := h2 z (List.mem_cons_self _ _)
        rw [he]
        omega
      · exact h2 y hm
    · obtain ⟨h1, h2⟩ := minPair_spec l x
      have hxz : x.1 ≤ z.1 := by
        unfold pairLess at hlt
        simp only [Bool.or_eq_true, Bool.and_eq_true, decide_eq_true_eq, not_or] at hlt
        omega
      refine ⟨?_, ?_⟩
      · rcases List.mem_cons.mp h1 with he | hm
        · rw [he]; exact List.mem_cons_self _ _
        · exact List.mem_cons_of_mem _ (List.mem_cons_of_mem _ hm)
      · intro y hy
        rcases List.mem_cons.mp hy with he | hm
        · exact h2 y (by rw [he]; exact List.mem_cons_self _ _)
        · rcases List.mem_cons.mp hm with he2 | hm2
          · have := h2 x (List.mem_cons_self _ _)
            rw [he2]
            omega
          · exact h2 y (List.mem_cons_of_mem _ hm2)

theorem perm_cons_erase_pair (x : Int × Nat) : ∀ (l : List (Int × Nat)), x ∈ l →
    l.Perm (x :: l.erase x)
  | [], h => by simp at h
  | y :: l, h => by
    by_cases hxy : y = x
    · subst hxy
      rw [List.erase_cons_head]
    · have hx : x ∈ l := by
        rcases List.mem_cons.mp h with he | hm
        · exact absurd he.symm hxy
        · exact hm
      rw [List.erase_cons_tail (by simpa using hxy)]
      exact ((perm_cons_erase_pair x l hx).cons y).trans (List.Perm.swap x y _)

theorem popMin_spec (l : List (Int × Nat)) :
    (l = [] → popMin l = none) ∧
      (l ≠ [] → ∃ x rest, popMin l = some (x, rest) ∧ l.Perm (x :: rest) ∧
        ∀ y, y ∈ l → x.1 ≤ y.1) := by
  cases l with
  | nil => exact ⟨fun _ => rfl, fun h => absurd rfl h⟩
  | cons x l =>
    obtain ⟨h1, h2⟩ := minPair_spec l x
    exact ⟨fun h => by simp at h,
      fun _ => ⟨minPair x l, (x :: l).erase (minPair x l), rfl, perm_cons_erase_pair _ _ h1, h2⟩⟩

theorem pendingRoads_set (net : Network) (visited : List Bool) (x : Nat)
    (hlen : visited.length = net.numberOfCities) (hx : x < net.numberOfCities)
    (hnot : ¬ visited.getD x false = true) :
    pendingRoads net (visited.set x true) + (net.adjacencyList.getD x []).length
      = pendingRoads net visited := by
  unfold pendingRoads
  have := CityRoutes.sum_map_range_update
    (fun u => if visited.getD u false then 0 else (net.adjacencyList.getD u []).length)
    (fun u => if (visited.set x true).getD u false then 0
      else (net.adjacencyList.getD u []).length) x
    (by simp [getD_set_eq, hlen, hx])
    (by
      intro u hu
      have hno : ¬ (x = u ∧ x < visited.length) := fun hh => hu hh.1.symm
      simp only [getD_set_eq, hno, if_false])
    net.numberOfCities hx
  simp only [hnot, if_false] at this
  exact this

/-- The loop of `dijkstraAlgorithm` ends: from a state at the head of the loop it is left
after at most as many steps as there are pairs in the queue and connections out of cities
not yet visited. -/
theorem dijkstraLoop_terminates (net : Network) (hwf : WellFormed net)
    (hr : RoadsInRange net) (hn : (net.numberOfCities : Int) * 10000 < infinity_distance)
    (source destination : Nat) (hs : source < net.numberOfCities) :
    ∀ (fuel : Nat) (st : DijkstraState) (order : List Nat),
      DijkstraInv net source order order st →
      st.pq.length + pendingRoads net st.visited < fuel →
      ∃ st2, dijkstraLoop net destination fuel st = some st2 ∧
        DijkstraExit net source destination st2
  | 0, _, _, _, hf => by omega
  | fuel + 1, st, order, h, hf => by
    by_cases hq : st.pq = []
    · refine ⟨st, ?_, order, order, h, Or.inr ⟨hq, rfl⟩⟩
      simp only [dijkstraLoop, (popMin_spec st.pq).1 hq]
    · obtain ⟨x, rest, hpopeq, hperm, hmin⟩ := (popMin_spec st.pq).2 hq
      obtain ⟨d, city⟩ := x
      have hlen : st.pq.length = rest.length + 1 := by
        rw [hperm.length_eq, List.length_cons]
      have hx : (d, city) ∈ st.pq := hperm.mem_iff.mpr (List.mem_cons_self _ _)
      obtain ⟨e1, _, _⟩ := h.entries _ hx
      simp only at e1
      by_cases hvis : st.visited.getD city false = true
      · have h1 := skip_city_inv net source order st h (d, city) rest hperm hvis
        obtain ⟨st2, hrun, hexit⟩ := dijkstraLoop_terminates net hwf hr hn source destination hs
          fuel { st with pq := rest } order h1 (by simp only; omega)
        refine ⟨st2, ?_, hexit⟩
        simp only [dijkstraLoop, hpopeq, hvis, if_true]
        exact hrun
      · obtain ⟨h1, heq⟩ :=
          visit_city_inv net source order st h hwf hr hn hs (d, city) rest hperm hmin hvis
        simp only at h1 heq
        by_cases hend : city = destination
        · refine ⟨{ st with pq := rest, visited := st.visited.set city true }, ?_,
            order ++ [city], order, h1, Or.inl ?_⟩
          · simp only [dijkstraLoop, hpopeq, hvis, if_false, Bool.false_eq_true]
            rw [if_pos hend]
          · rw [hend]
            simp
        · have hu : city ∈ order ++ [city] := by simp
          obtain ⟨h2, hc2, _, _, hp2, hv2⟩ := foldl_relaxRoad_inv net source (order ++ [city])
            order hwf hr hn city hu d (net.adjacencyList.getD city [])
            { st with pq := rest, visited := st.visited.set city true } h1 heq
            (fun c hc => hc)
          have h3 := dijkstraInv_processed net source _ order _ h2 city hu hc2
          have hpend := pendingRoads_set net st.visited city h.visited_length e1 hvis
          obtain ⟨st2, hrun, hexit⟩ := dijkstraLoop_terminates net hwf hr hn source destination
            hs fuel _ (order ++ [city]) h3
            (by
              rw [hv2]
              simp only at hp2 ⊢
              omega)
          refine ⟨st2, ?_, hexit⟩
          simp only [dijkstraLoop, hpopeq, hvis, hend, if_false, Bool.false_eq_true]
          exact hrun

theorem dijkstraLoop_mono (net : Network) (destination : Nat) :
    ∀ (fuel : Nat) (st r : DijkstraState), dijkstraLoop net destination fuel st = some r →
      ∀ extra, dijkstraLoop net destination (fuel + extra) st = some r
  | 0, _, _, h, _ => by simp [dijkstraLoop] at h
  | fuel + 1, st, r, h, extra => by
    rw [Nat.add_right_comm]
    unfold dijkstraLoop at h ⊢
    cases hp : popMin st.pq with
    | none => rw [hp] at h; exact h
    | some cr =>
      obtain ⟨⟨d, city⟩, rest⟩ := cr
      rw [hp] at h
      simp only at h ⊢
      split_ifs at h ⊢ with h1 h2
      · exact dijkstraLoop_mono net destination fuel _ r h extra
      · exact h
      · exact dijkstraLoop_mono net destination fuel _ r h extra

theorem getD_replicate_self {α : Type} (n v : Nat) (a : α) :
    (List.replicate n a).getD v a = a := by
  rw [List.getD_eq_getElem?_getD, List.getElem?_replicate]
  split_ifs <;> rfl

theorem dijkstraInv_start (net : Network) (source : Nat) (hs : source < net.numberOfCities) :
    DijkstraInv net source [] [] (dijkstraStart net source) := by
  have hdist : ∀ v, (dijkstraStart net source).distances.getD v infinity_distance
      = if source = v then 0 else infinity_distance := by
    intro v
    simp only [dijkstraStart, getD_set_eq, List.length_replicate, getD_replicate_self]
    by_cases hv : source = v
    · rw [if_pos ⟨hv, hs⟩, if_pos hv]
    · rw [if_neg (fun hh => hv hh.1), if_neg hv]
  have hfin : ∀ v, (dijkstraStart net source).distances.getD v infinity_distance
      ≠ infinity_distance → source = v := by
    intro v hv
    rw [hdist] at hv
    by_contra hne
    rw [if_neg hne] at hv
    exact hv rfl
  constructor
  · simp [dijkstraStart]
  · simp [dijkstraStart]
  · simp [dijkstraStart]
  · intro v
    simp [dijkstraStart, getD_replicate_self]
  · intro u hu
    exact hu
  · rw [hdist, if_pos rfl]
  · simp only [dijkstraStart]
    exact getD_replicate_self _ _ _
  · intro v _ hv
    have := hfin v hv
    subst this
    exact ⟨[], rfl, by rw [hdist, if_pos rfl]; rfl, Nat.zero_le _⟩
  · intro v hv
    simp at hv
  · intro u hu
    simp at hu
  · intro v _ hv _
    have := hfin v hv
    subst this
    rw [hdist, if_pos rfl]
    simp [dijkstraStart]
  · intro x hx
    simp only [dijkstraStart, List.mem_singleton] at hx
    subst hx
    simp only
    rw [hdist, if_pos rfl]
    exact ⟨hs, le_refl _, by decide⟩
  · intro v _ hv hne
    exact absurd (hfin v hv).symm hne
  · exact List.nodup_nil

theorem pendingRoads_start (net : Network) (source : Nat) :
    pendingRoads net (dijkstraStart net source).visited = totalRoads net := by
  unfold pendingRoads totalRoads
  simp [dijkstraStart, getD_replicate_self]

/-- Following `parent` from a city with a finite distance ends at `source`, and the cities
passed, read backwards, are those of a sequence of connections from `source` whose total
is the distance of the city. -/
theorem shortestPath_of_inv (net : Network) (source : Nat) (order processed : List Nat)
    (st : DijkstraState) (h : DijkstraInv net source order processed st)
    (hs : source < net.numberOfCities) :
    ∀ (rank v : Nat), v < net.numberOfCities →
      st.distances.getD v infinity_distance ≠ infinity_distance →
      order.indexOf v = rank →
      ∃ cs p, IsRoadWalk net source cs v ∧
        roadTotal cs = st.distances.getD v infinity_distance ∧
        (∀ fuel, rank + 2 ≤ fuel → parentPath st.parent fuel (v : Int) = some p) ∧
        p.reverse = (source : Int) :: cs.map (fun c => (c.1 : Int)) := by
  intro rank
  induction rank using Nat.strong_induction_on with
  | _ rank ih =>
    intro v hv hfin hrank
    have hne : (v : Int) ≠ -1 := by omega
    by_cases hvs : v = source
    · subst hvs
      refine ⟨[], [(v : Int)], rfl, by rw [h.dist_source]; rfl, ?_, rfl⟩
      intro fuel hfuel
      obtain ⟨f, rfl⟩ : ∃ f, fuel = f + 2 := ⟨fuel - 2, by omega⟩
      have hps := h.parent_source
      simp only [parentPath, hne, if_false, Int.toNat_ofNat, hps, if_true]
      rfl
    · obtain ⟨u, c, hu, t1, t2, t3, t4, t5⟩ := h.tree v hv hfin hvs
      obtain ⟨cs, p, hw, ht, hp, hrev⟩ := ih (order.indexOf u) (by omega) u
        (dijkstra_lt_of_visited net source order processed st h u hu) (h.optimal u hu).1 rfl
      refine ⟨cs ++ [c], (v : Int) :: p, ?_, ?_, ?_, ?_⟩
      · have := isRoadWalk_append net cs source u c hw t2
        rw [t3] at this
        exact this
      · rw [roadTotal_append, ht, t4]
      · intro fuel hfuel
        obtain ⟨f, rfl⟩ : ∃ f, fuel = f + 1 := ⟨fuel - 1, by omega⟩
        simp only [parentPath, hne, if_false, Int.toNat_ofNat, t1]
        rw [hp f (by omega)]
        rfl
      · rw [List.reverse_cons, hrev, List.map_append, List.map_singleton, t3]
        rfl

/-- With the queue empty at the head of the loop, every city that a sequence of
connections from `source` leads to is visited. -/
theorem visited_of_roadWalk (net : Network) (source : Nat) (order : List Nat)
    (st : DijkstraState) (h : DijkstraInv net source order order st) (hwf : WellFormed net)
    (hr : RoadsInRange net) (hn : (net.numberOfCities : Int) * 10000 < infinity_distance)
    (hs : source < net.numberOfCities) (hq : st.pq = [])
    (cs : List (Nat × Int)) (y : Nat) (hw : IsRoadWalk net source cs y) : y ∈ order := by
  by_contra hy
  have := unvisited_city_lower_bound net source order st h hwf hr hn hs (roadTotal cs + 1)
    (by
      intro v hv hvo hfin
      have := h.queued v hv hfin hvo
      rw [hq] at this
      simp at this)
    cs y hw hy
  omega

/-- What the state in which the loop is left says about `destination`: its distance is
finite exactly when some sequence of connections leads to it from `source`, and then it
is the least total of such a sequence, and `parent` leads back from it along one. -/
theorem dijkstraExit_result (net : Network) (source destination : Nat) (st : DijkstraState)
    (hexit : DijkstraExit net source destination st) (hwf : WellFormed net)
    (hr : RoadsInRange net) (hn : (net.numberOfCities : Int) * 10000 < infinity_distance)
    (hs : source < net.numberOfCities) (he : destination < net.numberOfCities) :
    (st.distances.getD destination infinity_distance ≠ infinity_distance
        ↔ ∃ cs, IsRoadWalk net source cs destination) ∧
      (st.distances.getD destination infinity_distance ≠ infinity_distance →
        ∃ cs p, IsRoadWalk net source cs destination ∧
          roadTotal cs = st.distances.getD destination infinity_distance ∧
          (∀ cs2, IsRoadWalk net source cs2 destination →
            st.distances.getD destination infinity_distance ≤ roadTotal cs2) ∧
          (∀ fuel, net.numberOfCities + 1 ≤ fuel →
            parentPath st.parent fuel (destination : Int) = some p) ∧
          p.reverse = (source : Int) :: cs.map (fun c => (c.1 : Int))) := by
  obtain ⟨order, processed, h, hcase⟩ := hexit
  have hmem : st.distances.getD destination infinity_distance ≠ infinity_distance →
      destination ∈ order := by
    intro hfin
    rcases hcase with h1 | ⟨hq, _⟩
    · exact h1
    · by_contra hno
      have := h.queued destination he hfin hno
      rw [hq] at this
      simp at this
  constructor
  · constructor
    · intro hfin
      obtain ⟨cs, hw, _⟩ := h.walk destination he hfin
      exact ⟨cs, hw⟩
    · rintro ⟨cs, hw⟩
      rcases hcase with h1 | ⟨hq, hp⟩
      · exact (h.optimal destination h1).1
      · subst hp
        exact (h.optimal destination
          (visited_of_roadWalk net source processed st h hwf hr hn hs hq cs destination hw)).1
  · intro hfin
    have hin := hmem hfin
    obtain ⟨cs, p, hw, ht, hp, hrev⟩ :=
      shortestPath_of_inv net source order processed st h hs _ destination he hfin rfl
    have hidx := List.indexOf_lt_length.mpr hin
    have hlen := dijkstra_order_length net source order processed st h
    exact ⟨cs, p, hw, ht, (h.optimal destination hin).2,
      fun fuel hfuel => hp fuel (by omega), hrev⟩

theorem updateFirst_snd (city : Nat) (distance : Int) :
    ∀ (l : List (Nat × Int)) (c : Nat × Int), c ∈ updateFirst city distance l →
      c ∈ l ∨ c.2 = distance
  | [], c, h => by simp [updateFirst] at h
  | (a, d) :: rest, c, h => by
    unfold updateFirst at h
    split_ifs at h with he
    · rcases List.mem_cons.mp h with h1 | h1
      · exact Or.inr (by rw [h1])
      · exact Or.inl (List.mem_cons_of_mem _ h1)
    · rcases List.mem_cons.mp h with h1 | h1
      · exact Or.inl (by rw [h1]; exact List.mem_cons_self _ _)
      · rcases updateFirst_snd city distance rest c h1 with h2 | h2
        · exact Or.inl (List.mem_cons_of_mem _ h2)
        · exact Or.inr h2

/-- The hypotheses of the shortest-distance theorem are kept by `addUserConnection`,
whatever is typed in: the road distances stay between 1 and 10000 and the number of
cities does not change. -/
theorem roadsInRange_addUserConnection (net : Network) (choice1 choice2 : Int)
    (updateAnswer : Char) (distance : Int) (hr : RoadsInRange net) :
    RoadsInRange (addUserConnection net choice1 choice2 updateAnswer distance) ∧
      (addUserConnection net choice1 choice2 updateAnswer distance).numberOfCities
        = net.numberOfCities := by
  have hget : ∀ (l : List (List (Nat × Int))) (i : Nat),
      (∀ x, x ∈ l → ∀ c, c ∈ x → 1 ≤ c.2 ∧ c.2 ≤ 10000) →
      ∀ c, c ∈ l.getD i [] → 1 ≤ c.2 ∧ c.2 ≤ 10000 := by
    intro l i hl c hc
    rw [List.getD_eq_getElem?_getD] at hc
    cases hq : l[i]? with
    | none => rw [hq] at hc; simp at hc
    | some x =>
      rw [hq] at hc
      exact hl x (List.mem_iff_getElem?.mpr ⟨i, hq⟩) c hc
  unfold addUserConnection
  simp only
  split_ifs with h1 h2 h3 h4 h5
  · exact ⟨hr, rfl⟩
  · exact ⟨hr, rfl⟩
  · exact ⟨hr, rfl⟩
  · exact ⟨hr, rfl⟩
  · have hd : 1 ≤ distance ∧ distance ≤ 10000 := by omega
    have hupd : ∀ (l : List (List (Nat × Int))) (i city : Nat),
        (∀ x, x ∈ l → ∀ c, c ∈ x → 1 ≤ c.2 ∧ c.2 ≤ 10000) →
        ∀ x, x ∈ l.set i (updateFirst city distance (l.getD i [])) →
          ∀ c, c ∈ x → 1 ≤ c.2 ∧ c.2 ≤ 10000 := by
      intro l i city hl x hx c hc
      rcases List.mem_or_eq_of_mem_set hx with hm | he
      · exact hl x hm c hc
      · subst he
        rcases updateFirst_snd city distance _ c hc with h6 | h6
        · exact hget l i hl c h6
        · rw [h6]; exact hd
    exact ⟨hupd _ _ _ (hupd _ _ _ hr), rfl⟩
  · have hd : 1 ≤ distance ∧ distance ≤ 10000 := by omega
    have hpush : ∀ (l : List (List (Nat × Int))) (i city : Nat),
        (∀ x, x ∈ l → ∀ c, c ∈ x → 1 ≤ c.2 ∧ c.2 ≤ 10000) →
        ∀ x, x ∈ pushConnection l i city distance → ∀ c, c ∈ x → 1 ≤ c.2 ∧ c.2 ≤ 10000 := by
      intro l i city hl x hx c hc
      rcases List.mem_or_eq_of_mem_set hx with hm | he
      · exact hl x hm c hc
      · subst he
        rcases List.mem_append.mp hc with hm | hm
        · exact hget l i hl c hm
        · rw [List.mem_singleton.mp hm]
          exact hd
    exact ⟨hpush _ _ _ (hpush _ _ _ hr), rfl⟩

/-! ## Properties of the road network -/

/-- C25 (code defect): after `initializeCities` and `initializeRoadNetwork` the diagonal
of the matrix is all 0, and `addUserConnection` keeps it so whenever the two cities chosen
differ; but it accepts the same city twice, and then writes the distance on the diagonal:
choosing city 0 twice with distance 5 leaves `adjacencyMatrix[0][0] = 5`. -/
theorem self_connection_breaks_zero_diagonal :
    diagonal startNetwork = [0, 0, 0, 0, 0] ∧
    (∀ (net : Network) (choice1 choice2 : Int) (updateAnswer : Char) (distance : Int),
      choice1 ≠ choice2 →
      diagonal (addUserConnection net choice1 choice2 updateAnswer distance) = diagonal net) ∧
    getUserCityChoice startNetwork 0 = 0 ∧
    diagonal (addUserConnection startNetwork 0 0 'n' 5) = [5, 0, 0, 0, 0] := by
  refine ⟨by decide, ?_, by decide, by decide⟩
  intro net choice1 choice2 updateAnswer distance hne
  unfold addUserConnection
  simp only
  split_ifs with h1 h2 h3 h4 h5
  · rfl
  · rfl
  · rfl
  · rfl
  · have hc : (getUserCityChoice net choice1).toNat ≠ (getUserCityChoice net choice2).toNat := by
      unfold getUserCityChoice at h1 h2 ⊢
      split_ifs at h1 h2 ⊢ with g1 g2
      · omega
      · simp at h2
      · simp at h1
      · simp at h1
    unfold diagonal
    apply List.map_congr_left
    intro k _
    show ((setMatrix (setMatrix net.adjacencyMatrix _ _ distance) _ _ distance).getD k []).getD k 0
      = _
    rw [setMatrix_diag _ _ _ _ _ hc.symm, setMatrix_diag _ _ _ _ _ hc]
  · have hc : (getUserCityChoice net choice1).toNat ≠ (getUserCityChoice net choice2).toNat := by
      unfold getUserCityChoice at h1 h2 ⊢
      split_ifs at h1 h2 ⊢ with g1 g2
      · omega
      · simp at h2
      · simp at h1
      · simp at h1
    exact diagonal_addRoadConnection net _ _ distance hc

/-- C23: for a network with one adjacency list per city whose connections all lead to
cities, and a valid start, `bfsTraversal(startCity)` ends its loop (any fuel of at least
`numberOfCities + 1` iterations gives the same result) with exactly the cities connected
to `startCity` by a sequence of roads marked visited; every visited city is once in the
visit order and the visit order holds visited cities only; and following the parent links
from a visited city stops after pushing `startCity` last. -/
theorem bfs_visits_exactly_the_connected_cities (net : Network) (startCity : Nat)
    (hwf : WellFormed net) (hs : startCity < net.numberOfCities) :
    ∃ st, (∀ fuel, net.numberOfCities + 1 ≤ fuel → bfsTraversal net startCity fuel = some st) ∧
      (∀ v, st.visited.getD v false = true ↔ Connected net startCity v) ∧
      (∀ v, st.visited.getD v false = true → st.visitOrder.count v = 1) ∧
      (∀ v, v ∈ st.visitOrder → st.visited.getD v false = true) ∧
      ∀ v, st.visited.getD v false = true →
        ∃ path, (∀ fuel, net.numberOfCities + 1 ≤ fuel →
            parentPath st.parent fuel (v : Int) = some path) ∧
          path.head? = some (v : Int) ∧ path.getLast? = some (startCity : Int) := by
  have h0 := bfsInv_bfsStart net startCity hs
  obtain ⟨st, hrun, hinv, hclosed⟩ := bfsLoop_terminates net hwf startCity
    (net.numberOfCities + 1) (bfsStart net startCity) [] h0 rfl
    (by intro u hu; simp at hu)
    (by simp only [bfsStart, List.length_singleton]; omega)
  refine ⟨st, ?_, ?_, ?_, ?_, ?_⟩
  · intro fuel hfuel
    obtain ⟨extra, rfl⟩ : ∃ extra, fuel = net.numberOfCities + 1 + extra :=
      ⟨fuel - (net.numberOfCities + 1), by omega⟩
    exact bfsLoop_mono net _ _ st hrun extra
  · intro v
    constructor
    · intro hv
      exact hinv.connected v ((hinv.visited_iff v).mp hv)
    · intro hc
      induction hc with
      | refl => exact (hinv.visited_iff _).mpr hinv.start_mem
      | tail _ hroad ih =>
        obtain ⟨d, hd⟩ := hroad
        exact hclosed _ ((hinv.visited_iff _).mp ih) _ hd
  · intro v hv
    exact List.count_eq_one_of_mem hinv.nodup ((hinv.visited_iff v).mp hv)
  · intro v hv
    exact (hinv.visited_iff v).mpr hv
  · intro v hv
    have hmem := (hinv.visited_iff v).mp hv
    obtain ⟨path, hpath, hhead, hlast⟩ :=
      parentPath_of_inv net startCity st hinv _ v hmem rfl
    have hidx := List.indexOf_lt_length.mpr hmem
    have hlen := length_le_of_nodup_lt _ _ hinv.nodup (bfsInv_visited_lt net startCity _ hinv)
    exact ⟨path, fun fuel hfuel => hpath fuel (by omega), hhead, hlast⟩

/-- Witness for C23: the hypotheses hold for the network `main` sets up, with start 0. -/
theorem bfs_visits_exactly_the_connected_cities_witness :
    (WellFormed startNetwork ∧ 0 < startNetwork.numberOfCities) ∧
    ∃ st, (∀ fuel, startNetwork.numberOfCities + 1 ≤ fuel →
        bfsTraversal startNetwork 0 fuel = some st) ∧
      (∀ v, st.visited.getD v false = true ↔ Connected startNetwork 0 v) ∧
      (∀ v, st.visited.getD v false = true → st.visitOrder.count v = 1) ∧
      (∀ v, v ∈ st.visitOrder → st.visited.getD v false = true) ∧
      ∀ v, st.visited.getD v false = true →
        ∃ path, (∀ fuel, startNetwork.numberOfCities + 1 ≤ fuel →
            parentPath st.parent fuel (v : Int) = some path) ∧
          path.head? = some (v : Int) ∧ path.getLast? = some ((0 : Nat) : Int) := by
  have h1 : WellFormed startNetwork := by decide
  have h2 : 0 < startNetwork.numberOfCities := by decide
  exact ⟨⟨h1, h2⟩, bfs_visits_exactly_the_connected_cities startNetwork 0 h1 h2⟩

/-- C35: for a network with one adjacency list per city whose connections all lead to
cities, with road distances between 1 and 10000 and so few cities that 10000 km per city
stays below `infinity_distance` (the program has five), and for valid `source` and
`destination`, `dijkstraAlgorithm` ends its loop (any fuel of at least the number of
connections plus 2 gives the same state); `distances[destination]` is then
`infinity_distance` exactly when no sequence of connections leads from `source` to
`destination`; otherwise it is the total of such a sequence and at most the total of
every such sequence, and the parent links followed back from `destination` and reversed
give the cities along that sequence, from `source` to `destination`. -/
theorem dijkstra_computes_least_distance (net : Network) (hwf : WellFormed net)
    (hr : RoadsInRange net) (hn : (net.numberOfCities : Int) * 10000 < infinity_distance)
    (source destination : Nat) (hs : source < net.numberOfCities)
    (he : destination < net.numberOfCities) :
    ∃ st, (∀ fuel, totalRoads net + 2 ≤ fuel →
        dijkstraAlgorithm net source destination fuel = some st) ∧
      (st.distances.getD destination infinity_distance = infinity_distance
        ↔ ¬ ∃ cs, IsRoadWalk net source cs destination) ∧
      ((∃ cs, IsRoadWalk net source cs destination) →
        (∀ cs2, IsRoadWalk net source cs2 destination →
          st.distances.getD destination infinity_distance ≤ roadTotal cs2) ∧
        ∃ cs path, IsRoadWalk net source cs destination ∧
          roadTotal cs = st.distances.getD destination infinity_distance ∧
          (∀ fuel, net.numberOfCities + 1 ≤ fuel →
            shortestPath st.parent destination fuel = some path) ∧
          path = (source : Int) :: cs.map (fun c => (c.1 : Int))) := by
  obtain ⟨st, hrun, hexit⟩ := dijkstraLoop_terminates net hwf hr hn source destination hs
    (totalRoads net + 2) (dijkstraStart net source) [] (dijkstraInv_start net source hs)
    (by
      rw [pendingRoads_start]
      simp only [dijkstraStart, List.length_singleton]
      omega)
  obtain ⟨hreach, hpath⟩ := dijkstraExit_result net source destination st hexit hwf hr hn hs he
  refine ⟨st, ?_, ?_, ?_⟩
  · intro fuel hfuel
    obtain ⟨extra, rfl⟩ : ∃ extra, fuel = totalRoads net + 2 + extra :=
      ⟨fuel - (totalRoads net + 2), by omega⟩
    exact dijkstraLoop_mono net destination _ _ st hrun extra
  · rw [← not_iff_not, not_not]
    exact hreach
  · intro hr2
    obtain ⟨cs, p, hw, ht, hopt, htrace, hrev⟩ := hpath (hreach.mpr hr2)
    refine ⟨hopt, cs, p.reverse, hw, ht, ?_, hrev⟩
    intro fuel hfuel
    unfold shortestPath
    rw [htrace fuel hfuel]
    rfl

/-- Witness for C35: the network `main` sets up, from city 1 to city 4. -/
theorem dijkstra_computes_least_distance_witness :
    (WellFormed startNetwork ∧ RoadsInRange startNetwork ∧
      (startNetwork.numberOfCities : Int) * 10000 < infinity_distance ∧
      1 < startNetwork.numberOfCities ∧ 4 < startNetwork.numberOfCities) ∧
    ∃ st, (∀ fuel, totalRoads startNetwork + 2 ≤ fuel →
        dijkstraAlgorithm startNetwork 1 4 fuel = some st) ∧
      (st.distances.getD 4 infinity_distance = infinity_distance
        ↔ ¬ ∃ cs, IsRoadWalk startNetwork 1 cs 4) ∧
      ((∃ cs, IsRoadWalk startNetwork 1 cs 4) →
        (∀ cs2, IsRoadWalk startNetwork 1 cs2 4 →
          st.distances.getD 4 infinity_distance ≤ roadTotal cs2) ∧
        ∃ cs path, IsRoadWalk startNetwork 1 cs 4 ∧
          roadTotal cs = st.distances.getD 4 infinity_distance ∧
          (∀ fuel, startNetwork.numberOfCities + 1 ≤ fuel →
            shortestPath st.parent 4 fuel = some path) ∧
          path = ((1 : Nat) : Int) :: cs.map (fun c => (c.1 : Int))) := by
  have h1 : WellFormed startNetwork := by decide
  have h2 : RoadsInRange startNetwork := by decide
  have h3 : (startNetwork.numberOfCities : Int) * 10000 < infinity_distance := by decide
  have h4 : 1 < startNetwork.numberOfCities := by decide
  have h5 : 4 < startNetwork.numberOfCities := by decide
  exact ⟨⟨h1, h2, h3, h4, h5⟩,
    dijkstra_computes_least_distance startNetwork h1 h2 h3 1 4 h4 h5⟩

end TransportNetwork
